import Mathlib

/-!
Verification development for the SWIFT task-based simulation engine core.

The definitions below are a shallow embedding of the C sources:
  * `src/src/engine.c` — task-graph construction, the per-step activation
    ("marktasks") pass, the repartition trigger in `engine_step`, and the
    integer-timeline constant set up in `engine_init`;
  * `src/unnamed/part_000` — the chunked hashmap (`hashmap_find`,
    `hashmap_put`, `hashmap_grow`, `hashmap_lookup`);
  * `src/unnamed/part_001` — the particle logger (`logger_size`,
    `logger_log_part`).

Machine integers are modelled as `Nat`/`Int`; C `float`/`double` quantities
that are only compared and combined linearly (`h_max`, `dx_max`, elapsed CPU
times, ...) are modelled as `ℚ`.  Fallible code paths (the `error(...)` macro,
which aborts the process) are modelled with `Option`, `none` standing for the
abort.  Functions from headers that are not part of the excerpt
(`cell_is_active`, `scheduler_activate`, the `sortlistID` table, the logger
mask constants, `max_nr_timesteps`) are modelled from the specification and
marked as such in their doc comments.
-/

namespace Swift

/-- Task types, from the `task_type_*` enumeration used in `engine.c`. -/
inductive TaskType where
  | self
  | pair
  | sub_self
  | sub_pair
  | sort
  | init
  | ghost
  | extra_ghost
  | kick1
  | kick2
  | timestep
  | drift
  | cooling
  | sourceterms
  | send
  | recv
  | grav_gather_m
  | grav_fft
  | grav_mm
  | grav_up
  deriving DecidableEq, Repr

/-- Task subtypes, from the `task_subtype_*` enumeration used in `engine.c`.
`nosub` stands for `task_subtype_none`. -/
inductive TaskSubtype where
  | nosub
  | density
  | gradient
  | force
  | grav
  | external_grav
  | xv
  | rho
  | tend
  deriving DecidableEq, Repr

/-- The fields of `struct task` that the engine code in the excerpt reads or
writes: type, subtype, the flag word (sort-axis bits), the `tight` marker set
at creation, the per-step `skip` flag, and the one or two participating cells
(as indices into a cell list; `cj = none` models a NULL `cj` pointer). -/
structure Task where
  ttype : TaskType
  subtype : TaskSubtype
  flags : Nat
  tight : Bool
  skip : Bool
  ci : Nat
  cj : Option Nat
  deriving DecidableEq, Repr

/-- Default task used for out-of-range list reads (never reachable under the
well-formedness hypotheses of the theorems). -/
def dTask : Task :=
  { ttype := TaskType.sort, subtype := TaskSubtype.nosub, flags := 0,
    tight := false, skip := true, ci := 0, cj := none }

/-- The fields of `struct cell` that `engine_marktasks_mapper` reads or
writes.  Task pointers (`sorts`, `recv_*`, `drift`) are indices into the task
list; the `send_*` link lists are lists of task indices; `super` is a cell
index.  `ti_end_min` is the integer end-of-step time; `h_max`, `dx_max` and
`dmin` are the geometric quantities of the displacement check. -/
structure Cell where
  ti_end_min : Int
  h_max : ℚ
  dx_max : ℚ
  dmin : ℚ
  sorted : Nat
  nodeID : Int
  sorts : Nat
  super : Nat
  drift : Option Nat
  recv_xv : Nat
  recv_rho : Nat
  recv_ti : Nat
  send_xv : List Nat
  send_rho : List Nat
  send_ti : List Nat
  updated : Nat
  g_updated : Nat
  s_updated : Nat
  deriving DecidableEq, Repr

/-- Default cell for out-of-range reads. -/
def dCell : Cell :=
  { ti_end_min := 0, h_max := 0, dx_max := 0, dmin := 0, sorted := 0,
    nodeID := 0, sorts := 0, super := 0, drift := none,
    recv_xv := 0, recv_rho := 0, recv_ti := 0,
    send_xv := [], send_rho := [], send_ti := [],
    updated := 0, g_updated := 0, s_updated := 0 }

/-- The pieces of `struct engine` and the globals that the activation pass
reads: the current integer time, the MPI rank (`engine_rank`) and the
`space_maxreldx` tolerance constant. -/
structure MarkCtx where
  ti_current : Int
  engine_rank : Int
  space_maxreldx : ℚ
  deriving DecidableEq, Repr

/-- The mutable state that `engine_marktasks` operates on: the scheduler's
task array, the top-level cells, and the shared rebuild flag
(`extra_data[1]` / the return value of `engine_marktasks`). -/
structure MarkState where
  tasks : List Task
  cells : List Cell
  rebuild : Bool
  deriving DecidableEq, Repr

/-- Read task `i` (C pointer dereference into the task array). -/
def taskAt (st : MarkState) (i : Nat) : Task := st.tasks.getD i dTask

/-- Read cell `i` (C pointer dereference into the cell array). -/
def cellAt (st : MarkState) (i : Nat) : Cell := st.cells.getD i dCell

/-- Skip flag of task `i`. -/
def skipAt (st : MarkState) (i : Nat) : Bool := (taskAt st i).skip

/-- Flag word of task `i`. -/
def flagsAt (st : MarkState) (i : Nat) : Nat := (taskAt st i).flags

/-- Modelled from the spec: `cell_is_active` (from `cell.h`, not in the
excerpt): a cell is active at integer time `t_now` iff
`cell.ti_end_min ≤ t_now`. -/
def cell_is_active (e : MarkCtx) (st : MarkState) (c : Nat) : Bool :=
  (cellAt st c).ti_end_min ≤ e.ti_current

/-- Modelled from the spec: `scheduler_activate` (from `scheduler.h`, not in
the excerpt) clears the task's skip flag, turning the task on for this step. -/
def scheduler_activate (st : MarkState) (i : Nat) : MarkState :=
  { st with tasks := st.tasks.set i { taskAt st i with skip := false } }

/-- The `atomic_or(&t->flags, bits)` update used on sort tasks. -/
def task_or_flags (st : MarkState) (i : Nat) (bits : Nat) : MarkState :=
  { st with tasks := st.tasks.set i { taskAt st i with flags := (taskAt st i).flags ||| bits } }

/-- The C `max(a, b)` macro, `(a) > (b) ? (a) : (b)`. -/
def cmax (a b : ℚ) : ℚ := if a > b then a else b

/-- The per-pair displacement tolerance check of `engine_marktasks_mapper`:
`max(ci.h_max, cj.h_max) + ci.dx_max + cj.dx_max > cj.dmin`, or either cell's
`dx_max` exceeding `space_maxreldx` times its `h_max`. -/
def rebuildCond (e : MarkCtx) (ci cj : Cell) : Bool :=
  (cmax ci.h_max cj.h_max + ci.dx_max + cj.dx_max > cj.dmin) ||
  (ci.dx_max > e.space_maxreldx * ci.h_max) ||
  (cj.dx_max > e.space_maxreldx * cj.h_max)

/-- Sort-flag side effect of an activated pair-density task, for one
participating cell: if the cell is not yet sorted along the pair's axis, OR
the axis bit into the cell's sort task's flags and activate that sort task. -/
def activate_sorts (st : MarkState) (cidx : Nat) (bit : Nat) : MarkState :=
  let c := cellAt st cidx
  if c.sorted &&& bit = 0 then
    scheduler_activate (task_or_flags st c.sorts bit) c.sorts
  else st

/-- Node id of the `cj` cell of task `li` (`l->t->cj->nodeID` in the send-link
search loops). -/
def sendTargetNode (st : MarkState) (li : Nat) : Int :=
  match (taskAt st li).cj with
  | some cjx => (cellAt st cjx).nodeID
  | none => 0

/-- The `for (l = ...; l != NULL && l->t->cj->nodeID != node; l = l->next)`
search over a cell's send-link list; `none` models falling off the list (the
C code then calls `error(...)`). -/
def find_send_link (st : MarkState) (links : List Nat) (node : Int) : Option Nat :=
  links.find? (fun li => sendTargetNode st li == node)

/-- Last stage of the MPI side effects: if the local cell is active, find and
activate its matching `send_rho` and `send_ti` links (the C code aborts via
`error(...)`, modelled by `none`, when a link is missing). -/
def mpi_send_rho_ti (e : MarkCtx) (st : MarkState) (fidx lidx : Nat) :
    Option MarkState :=
  if cell_is_active e st lidx then
    match find_send_link st (cellAt st lidx).send_rho (cellAt st fidx).nodeID with
    | none => none
    | some lr =>
      match find_send_link (scheduler_activate st lr) (cellAt st lidx).send_ti
          (cellAt st fidx).nodeID with
      | none => none
      | some lt => some (scheduler_activate (scheduler_activate st lr) lt)
  else some st

/-- Drift stage of the MPI side effects: the local cell's super cell must
carry a drift task (`error("Drift task missing !")` otherwise), which is
activated. -/
def mpi_drift_part (e : MarkCtx) (st : MarkState) (fidx lidx : Nat) :
    Option MarkState :=
  match (cellAt st (cellAt st lidx).super).drift with
  | none => none
  | some di => mpi_send_rho_ti e (scheduler_activate st di) fidx lidx

/-- Send-xv stage of the MPI side effects: find and activate the local cell's
`send_xv` link towards the foreign cell's node. -/
def mpi_send_xv_part (e : MarkCtx) (st : MarkState) (fidx lidx : Nat) :
    Option MarkState :=
  match find_send_link st (cellAt st lidx).send_xv (cellAt st fidx).nodeID with
  | none => none
  | some li => mpi_drift_part e (scheduler_activate st li) fidx lidx

/-- MPI side effects of an activated pair-density task when cell `fidx` is
foreign and cell `lidx` is local: activate the foreign cell's `recv_xv` (and
`recv_rho`/`recv_ti` if it is active), the local cell's matching `send_xv`,
the local cell's super-cell drift task, and the matching `send_rho`/`send_ti`
if the local cell is active.  `none` models the `error(...)` aborts on a
missing link or drift task.  The stages read cells from their input state;
this agrees with the C code's up-front `ci`/`cj` pointers because no stage
writes any cell. -/
def activate_mpi_dir (e : MarkCtx) (st : MarkState) (fidx lidx : Nat) :
    Option MarkState :=
  let st1 := scheduler_activate st (cellAt st fidx).recv_xv
  if cell_is_active e st1 fidx then
    mpi_send_xv_part e
      (scheduler_activate (scheduler_activate st1 (cellAt st1 fidx).recv_rho)
        (cellAt st1 fidx).recv_ti) fidx lidx
  else mpi_send_xv_part e st1 fidx lidx

/-- Side effects of a pair / sub-pair task once it has been activated: for
density subtype, the sort flags (pair type only) and the MPI send/recv
dispatch on a foreign participating cell. -/
def process_pair_active (e : MarkCtx) (st : MarkState) (t : Task) (cjx : Nat) :
    Option MarkState :=
  if t.subtype ≠ TaskSubtype.density then some st
  else
    let st2 :=
      if t.ttype = TaskType.pair then
        activate_sorts (activate_sorts st t.ci (1 <<< t.flags)) cjx (1 <<< t.flags)
      else st
    if (cellAt st2 t.ci).nodeID ≠ e.engine_rank then activate_mpi_dir e st2 t.ci cjx
    else if (cellAt st2 cjx).nodeID ≠ e.engine_rank then activate_mpi_dir e st2 cjx t.ci
    else some st2

/-- Processing of a `task_type_pair` / `task_type_sub_pair` task by
`engine_marktasks_mapper`: the tight displacement check setting the shared
rebuild flag, activation when either cell is active, and — for density
subtype — the sort-flag and MPI send/recv side effects.  The stages read
cells from their input state; this agrees with the C code's up-front
`ci`/`cj` pointers because no stage writes any cell. -/
def process_pair (e : MarkCtx) (st0 : MarkState) (i : Nat) (t : Task)
    (cjx : Nat) : Option MarkState :=
  let st :=
    if t.tight && rebuildCond e (cellAt st0 t.ci) (cellAt st0 cjx) then
      { st0 with rebuild := true }
    else st0
  if cell_is_active e st t.ci || cell_is_active e st cjx then
    process_pair_active e (scheduler_activate st i) t cjx
  else some st

/-- The `t->ci->updated = 0; ...` counter reset done for timestep tasks. -/
def reset_counters (st : MarkState) (cidx : Nat) : MarkState :=
  let c := cellAt st cidx
  { st with cells := st.cells.set cidx { c with updated := 0, g_updated := 0, s_updated := 0 } }

/-- One iteration of the `engine_marktasks_mapper` loop, processing task `i`.
`none` models an `error(...)` abort (missing send link or drift task) and a
NULL `t->cj` dereference on a pair task. -/
def process_task (e : MarkCtx) (st : MarkState) (i : Nat) : Option MarkState :=
  let t := taskAt st i
  if t.ttype = TaskType.self ∨ t.ttype = TaskType.ghost ∨
     t.ttype = TaskType.extra_ghost ∨ t.ttype = TaskType.cooling ∨
     t.ttype = TaskType.sourceterms ∨ t.ttype = TaskType.sub_self then
    some (if cell_is_active e st t.ci then scheduler_activate st i else st)
  else if t.ttype = TaskType.pair ∨ t.ttype = TaskType.sub_pair then
    match t.cj with
    | some cjx => process_pair e st i t cjx
    | none => none
  else if t.ttype = TaskType.kick1 ∨ t.ttype = TaskType.kick2 ∨
          t.ttype = TaskType.drift ∨ t.ttype = TaskType.init then
    some (if cell_is_active e st t.ci then scheduler_activate st i else st)
  else if t.ttype = TaskType.timestep then
    let st1 := reset_counters st t.ci
    some (if cell_is_active e st1 t.ci then scheduler_activate st1 i else st1)
  else if t.ttype = TaskType.grav_gather_m ∨ t.ttype = TaskType.grav_fft then
    some (scheduler_activate st i)
  else some st

/-- Run the mapper over a list of task indices, threading the state;
sequentialisation of the threadpool map (each iteration's reads of the fields
that decide its behaviour are never written by other iterations). -/
def run_tasks (e : MarkCtx) : MarkState → List Nat → Option MarkState
  | st, [] => some st
  | st, i :: rest =>
    match process_task e st i with
    | none => none
    | some st' => run_tasks e st' rest

/-- The whole `engine_marktasks_mapper` pass over the task array. -/
def engine_marktasks_mapper (e : MarkCtx) (st : MarkState) : Option MarkState :=
  run_tasks e st (List.range st.tasks.length)

/-- The `engine_marktasks` driver: starts with a clear rebuild flag, runs the
mapper over all tasks, and reports the final rebuild flag. -/
def engine_marktasks (e : MarkCtx) (tasks : List Task) (cells : List Cell) :
    Option MarkState :=
  engine_marktasks_mapper e { tasks := tasks, cells := cells, rebuild := false }

/-- Bit-containment on flag words: every bit of `b` is set in `f`. -/
def bitLe (b f : Nat) : Prop := f ||| b = f

/-- The single-cell task kinds of the mapper (those whose activation is
decided by their own cell's activity). -/
def singleKind : TaskType → Bool
  | TaskType.self | TaskType.ghost | TaskType.extra_ghost | TaskType.cooling
  | TaskType.sourceterms | TaskType.sub_self | TaskType.kick1 | TaskType.kick2
  | TaskType.drift | TaskType.init | TaskType.timestep => true
  | _ => false

/-- The two-cell task kinds of the mapper. -/
def pairKind : TaskType → Bool
  | TaskType.pair | TaskType.sub_pair => true
  | _ => false

/-- Task kinds that are never the target of a side-effect activation of the
mapper (everything except sort, send, recv, drift and the two parameterless
gravity tasks). -/
def cleanTy : TaskType → Bool
  | TaskType.sort | TaskType.send | TaskType.recv | TaskType.drift
  | TaskType.grav_gather_m | TaskType.grav_fft => false
  | _ => true

/-- The activation condition of the mapper for a task's own dispatch case:
single-cell kinds require their cell active, pair kinds require either cell
active. -/
def triggerOwn (e : MarkCtx) (st : MarkState) (i : Nat) : Bool :=
  let t := taskAt st i
  if singleKind t.ttype then cell_is_active e st t.ci
  else if pairKind t.ttype then
    match t.cj with
    | some cjx => cell_is_active e st t.ci || cell_is_active e st cjx
    | none => false
  else false

/-- The update counters of cell `c` are all zero. -/
def countersZero (st : MarkState) (c : Nat) : Prop :=
  (cellAt st c).updated = 0 ∧ (cellAt st c).g_updated = 0 ∧
  (cellAt st c).s_updated = 0

/-- Task index `i`, when in range, holds a task of type `ty`. -/
def typeOkAt (st : MarkState) (i : Nat) (ty : TaskType) : Prop :=
  i < st.tasks.length → (taskAt st i).ttype = ty

/-- Well-formedness of a cell's task pointers: the sort / recv / send / drift
pointers reference tasks of the corresponding types (as the graph builder
guarantees). -/
def cellWF (st : MarkState) (c : Cell) : Prop :=
  typeOkAt st c.sorts TaskType.sort ∧
  typeOkAt st c.recv_xv TaskType.recv ∧
  typeOkAt st c.recv_rho TaskType.recv ∧
  typeOkAt st c.recv_ti TaskType.recv ∧
  (∀ li ∈ c.send_xv, typeOkAt st li TaskType.send) ∧
  (∀ li ∈ c.send_rho, typeOkAt st li TaskType.send) ∧
  (∀ li ∈ c.send_ti, typeOkAt st li TaskType.send) ∧
  (∀ di ∈ c.drift, typeOkAt st di TaskType.drift)

/-- Well-formedness of a marktasks state: all cells' task pointers are typed
correctly and the cells referenced by pair tasks are in range. -/
def WF (st : MarkState) : Prop :=
  (∀ cx, cx < st.cells.length → cellWF st (cellAt st cx)) ∧
  (∀ i, i < st.tasks.length →
    ((taskAt st i).ttype = TaskType.pair ∨ (taskAt st i).ttype = TaskType.sub_pair) →
    (taskAt st i).ci < st.cells.length ∧
    (∀ cjx ∈ (taskAt st i).cj, cjx < st.cells.length))

/-- The part of a task that the mapper never writes (everything except the
skip flag and the flag word). -/
def taskCore (t : Task) : Task := { t with skip := true, flags := 0 }

/-- The part of a cell that the mapper never writes (everything except the
update counters). -/
def cellCore (c : Cell) : Cell := { c with updated := 0, g_updated := 0, s_updated := 0 }

/-- Two states agreeing on everything the mapper's decisions read. -/
structure CoreEq (s s' : MarkState) : Prop where
  tlen : s'.tasks.length = s.tasks.length
  clen : s'.cells.length = s.cells.length
  task : ∀ j, taskCore (taskAt s' j) = taskCore (taskAt s j)
  cell : ∀ j, cellCore (cellAt s' j) = cellCore (cellAt s j)

/-- Monotone effects of a mapper step: cores are stable, skip flags only turn
off, flag words only grow, the rebuild flag only turns on, and zeroed update
counters stay zero. -/
structure StepOK (s s' : MarkState) : Prop where
  core : CoreEq s s'
  skipm : ∀ j, skipAt s j = false → skipAt s' j = false
  flagm : ∀ j b, bitLe b (flagsAt s j) → bitLe b (flagsAt s' j)
  rebm : s.rebuild = true → s'.rebuild = true
  cntm : ∀ c, countersZero s c → countersZero s' c

/-- Task `x` is activated when it exists: out-of-range task pointers make
the activation a no-op in the model (and would crash the C code). -/
def offAt (st : MarkState) (x : Nat) : Prop :=
  x < st.tasks.length → skipAt st x = false

/-- Postcondition of the sort side effect on one cell of an activated
pair-density task: if the cell was unsorted along the axis, its sort task
carries the axis bit and is active. -/
def SortPost (st : MarkState) (cidx bit : Nat) : Prop :=
  (cellAt st cidx).sorted &&& bit = 0 →
  ((cellAt st cidx).sorts < st.tasks.length →
    bitLe bit (flagsAt st (cellAt st cidx).sorts)) ∧
  offAt st (cellAt st cidx).sorts

/-- Postcondition of the MPI side effects of an activated pair-density task
with foreign cell `fidx` and local cell `lidx`. -/
def MpiPost (e : MarkCtx) (st : MarkState) (fidx lidx : Nat) : Prop :=
  offAt st (cellAt st fidx).recv_xv ∧
  (cell_is_active e st fidx = true →
    offAt st (cellAt st fidx).recv_rho ∧
    offAt st (cellAt st fidx).recv_ti) ∧
  (∃ li, find_send_link st (cellAt st lidx).send_xv (cellAt st fidx).nodeID = some li ∧
    offAt st li) ∧
  (∃ di, (cellAt st (cellAt st lidx).super).drift = some di ∧ offAt st di) ∧
  (cell_is_active e st lidx = true →
    (∃ lr, find_send_link st (cellAt st lidx).send_rho (cellAt st fidx).nodeID = some lr ∧
      offAt st lr) ∧
    (∃ lt, find_send_link st (cellAt st lidx).send_ti (cellAt st fidx).nodeID = some lt ∧
      offAt st lt))

/-- Postcondition of a processed pair / sub-pair task. -/
def PairPost (e : MarkCtx) (st : MarkState) (i : Nat) (t : Task) (cjx : Nat) : Prop :=
  (t.tight = true → rebuildCond e (cellAt st t.ci) (cellAt st cjx) = true →
    st.rebuild = true) ∧
  ((cell_is_active e st t.ci || cell_is_active e st cjx) = true →
    offAt st i ∧
    (t.subtype = TaskSubtype.density →
      (t.ttype = TaskType.pair →
        SortPost st t.ci (1 <<< t.flags) ∧ SortPost st cjx (1 <<< t.flags)) ∧
      ((cellAt st t.ci).nodeID ≠ e.engine_rank → MpiPost e st t.ci cjx) ∧
      ((cellAt st t.ci).nodeID = e.engine_rank →
        (cellAt st cjx).nodeID ≠ e.engine_rank → MpiPost e st cjx t.ci)))

/-- Postcondition of a processed task: everything the mapper's dispatch case
for task `i` guarantees, phrased over the post-state (all conditions are
stable fields, so this is also the fixpoint condition for re-running the
step). -/
def Post (e : MarkCtx) (st : MarkState) (i : Nat) : Prop :=
  (singleKind (taskAt st i).ttype = true →
    (cell_is_active e st (taskAt st i).ci = true → offAt st i) ∧
    ((taskAt st i).ttype = TaskType.timestep → countersZero st (taskAt st i).ci)) ∧
  (((taskAt st i).ttype = TaskType.grav_gather_m ∨
    (taskAt st i).ttype = TaskType.grav_fft) → offAt st i) ∧
  (pairKind (taskAt st i).ttype = true →
    ∃ cjx, (taskAt st i).cj = some cjx ∧ PairPost e st i (taskAt st i) cjx)

/-- The condition under which processing task `i` sets the shared rebuild
flag: a tight pair / sub-pair task whose cells fail the displacement
tolerance. -/
def pairRebuildTrig (e : MarkCtx) (st : MarkState) (i : Nat) : Bool :=
  let t := taskAt st i
  pairKind t.ttype && t.tight &&
    (match t.cj with
     | some cjx => rebuildCond e (cellAt st t.ci) (cellAt st cjx)
     | none => false)

/-- Initial state of an `engine_marktasks` pass: the given tasks and cells,
rebuild flag clear. -/
def initState (tasks : List Task) (cells : List Cell) : MarkState :=
  { tasks := tasks, cells := cells, rebuild := false }

/-- The activation condition exactly as the claim states it: a single-cell
task (self/ghost/kick/drift/init/timestep and kin) whose cell is active, or a
pair task where at least one of the two participating cells is active. -/
def triggerSpec (e : MarkCtx) (st : MarkState) (j : Nat) : Prop :=
  (singleKind (taskAt st j).ttype = true ∧
    cell_is_active e st (taskAt st j).ci = true) ∨
  (pairKind (taskAt st j).ttype = true ∧ ∃ cjx, (taskAt st j).cj = some cjx ∧
    (cell_is_active e st (taskAt st j).ci = true ∨
      cell_is_active e st cjx = true))

/-- Claim C1 as stated: starting from all tasks skipped, the pass activates a
task if and only if it is a single-cell task on an active cell or a pair task
with an active participant — with no exceptions for any task type. -/
def c1OrigClaim : Prop :=
  ∀ (e : MarkCtx) (tasks : List Task) (cells : List Cell) (st' : MarkState),
    (∀ t ∈ tasks, t.skip = true) →
    engine_marktasks e tasks cells = some st' →
    ∀ j, j < tasks.length →
      (skipAt st' j = false ↔ triggerSpec e (initState tasks cells) j)

/-- Claim C2 as stated: the pass reports a rebuild iff some pair task's cells
exceed the displacement tolerance — with no `tight` qualification. -/
def c2OrigClaim : Prop :=
  ∀ (e : MarkCtx) (tasks : List Task) (cells : List Cell) (st' : MarkState),
    engine_marktasks e tasks cells = some st' →
    (st'.rebuild = true ↔
      ∃ i, i < tasks.length ∧
        pairKind (taskAt (initState tasks cells) i).ttype = true ∧
        ∃ cjx, (taskAt (initState tasks cells) i).cj = some cjx ∧
          rebuildCond e
            (cellAt (initState tasks cells) (taskAt (initState tasks cells) i).ci)
            (cellAt (initState tasks cells) cjx) = true)

/-- Concrete context for the example instances: time 0, rank 0, zero
tolerance. -/
def exCtx : MarkCtx := { ti_current := 0, engine_rank := 0, space_maxreldx := 0 }

/-- A `grav_fft` task (no cells). -/
def exGravFft : Task :=
  { ttype := TaskType.grav_fft, subtype := TaskSubtype.nosub, flags := 0,
    tight := false, skip := true, ci := 0, cj := none }

/-- A pair-density task between cells 0 and 1 with the `tight` flag clear
(the code creates its non-tight pair tasks as the force and gradient
duplicates in `engine_make_extra_hydroloop_tasks`, engine.c 2041-2067 and
2136-2163, whose trailing `scheduler_addtask` argument is 0). -/
def exPairLoose : Task :=
  { ttype := TaskType.pair, subtype := TaskSubtype.density, flags := 0,
    tight := false, skip := true, ci := 0, cj := some 1 }

/-- The same pair-density task with the `tight` flag set (as the hydro
density pairs of `engine_make_hydroloop_tasks` and the gravity pairs of
`engine_make_gravity_tasks` are created: both pass 1 as the trailing
`scheduler_addtask` argument, engine.c 1592 and 1684). -/
def exPairTight : Task := { exPairLoose with tight := true }

/-- An inactive cell (`ti_end_min = 1 > 0`) whose geometry violates the
displacement tolerance (`h_max = 1 > dmin = 0`). -/
def exCellQuiet : Cell := { dCell with ti_end_min := 1, h_max := 1 }

/-- A self-density task on cell 0. -/
def exSelfTask : Task :=
  { ttype := TaskType.self, subtype := TaskSubtype.density, flags := 0,
    tight := false, skip := true, ci := 0, cj := none }

/-- An active well-formed cell whose task pointers are all out of range (so
the well-formedness side conditions hold vacuously). -/
def exWfCell : Cell :=
  { dCell with sorts := 5, recv_xv := 5, recv_rho := 5, recv_ti := 5 }

/-- Output state of the C1 counterexample run: the single `grav_fft` task
has been activated. -/
def exC1CexSt : MarkState :=
  { tasks := [{ exGravFft with skip := false }], cells := [], rebuild := false }

/-- Output state of the C1 witness run: the self-density task has been
activated. -/
def exC1WitSt : MarkState :=
  { tasks := [{ exSelfTask with skip := false }], cells := [exWfCell],
    rebuild := false }

/-- Output state of the C2 witness run: the tight pair violating the
tolerance has set the rebuild flag (and nothing else happened: both cells
are inactive). -/
def exC2WitSt : MarkState :=
  { tasks := [exPairTight], cells := [exCellQuiet, exCellQuiet],
    rebuild := true }

/-- Claim C5 as stated (sort-task part): an activated pair-density task
always activates the sort tasks of both participating cells, with no
qualification on the cells' sorted masks. -/
def c5OrigClaim : Prop :=
  ∀ (e : MarkCtx) (tasks : List Task) (cells : List Cell) (st' : MarkState),
    engine_marktasks e tasks cells = some st' →
    ∀ i, i < tasks.length →
      (taskAt (initState tasks cells) i).ttype = TaskType.pair →
      (taskAt (initState tasks cells) i).subtype = TaskSubtype.density →
      ∀ cjx, (taskAt (initState tasks cells) i).cj = some cjx →
      (cell_is_active e (initState tasks cells)
          (taskAt (initState tasks cells) i).ci = true ∨
        cell_is_active e (initState tasks cells) cjx = true) →
      (skipAt st' (cellAt (initState tasks cells)
          (taskAt (initState tasks cells) i).ci).sorts = false ∧
        skipAt st' (cellAt (initState tasks cells) cjx).sorts = false)

/-- A sort task (initially unskipped, empty flag word). -/
def exSortTask : Task :=
  { ttype := TaskType.sort, subtype := TaskSubtype.nosub, flags := 0,
    tight := false, skip := true, ci := 0, cj := none }

/-- An active cell already sorted along axis 0 (`sorted = 1`), whose sort
task is task 1. -/
def exCellSortedA : Cell :=
  { dCell with sorted := 1, sorts := 1, recv_xv := 5, recv_rho := 5, recv_ti := 5 }

/-- An active unsorted cell whose sort task is task 2. -/
def exCellPlainB : Cell :=
  { dCell with sorts := 2, recv_xv := 5, recv_rho := 5, recv_ti := 5 }

/-- Task list of the C5 instance: one pair-density task and the two sort
tasks of its cells. -/
def exC5Tasks : List Task := [exPairLoose, exSortTask, exSortTask]

/-- Cell list of the C5 instance. -/
def exC5Cells : List Cell := [exCellSortedA, exCellPlainB]

/-- Output state of the C5 instance: the pair is activated; cell 0 is
already sorted along axis 0, so its sort task (task 1) stays skipped; cell
1's sort task (task 2) gets the axis bit and is activated. -/
def exC5St : MarkState :=
  { tasks := [{ exPairLoose with skip := false }, exSortTask,
      { ttype := TaskType.sort, subtype := TaskSubtype.nosub, flags := 1,
        tight := false, skip := false, ci := 0, cj := none }],
    cells := exC5Cells, rebuild := false }

/-! ## C3: top-level hydro-loop task enumeration (`engine_make_hydroloop_tasks`)

`engine_make_hydroloop_tasks` (engine.c 1632-1691) walks the top-level cell
grid `cdim[0] × cdim[1] × cdim[2]`, emits a self-density task for every
non-empty local cell, and for each of the 27 offsets `(ii,jj,kk) ∈ {-1,0,1}³`
emits a pair-density task towards the (periodically wrapped) neighbour,
guarded by `cid >= cjd || cj->count == 0 || (both cells foreign)`.  Cells are
modelled by their grid id; per-cell particle counts and node ownership are
functions of the id. -/

/-- Modelled from the spec: the `sortlistID` table (declared in a header not
present in `src/`) maps an offset index `(kk+1)+3*((jj+1)+3*(ii+1))` to one of
the 13 sort-axis ids; opposite offsets share an axis, so the table is
palindromic. -/
def sortlistID : List Nat :=
  [0, 1, 2, 3, 4, 5, 6, 7, 8, 9, 10, 11, 12,
   0,
   12, 11, 10, 9, 8, 7, 6, 5, 4, 3, 2, 1, 0]

/-- The data of `struct space` read by `engine_make_hydroloop_tasks`: the
top-level grid dimensions `cdim`, the periodicity flag, and per top-cell (by
grid id) the particle count and owning node. -/
structure HydroGrid where
  cdim0 : Nat
  cdim1 : Nat
  cdim2 : Nat
  periodic : Bool
  count : Nat → Nat
  cellNode : Nat → Int

/-- Modelled from the spec: `cell_getid(cdim, i, j, k) = i·cdim[1]·cdim[2] +
j·cdim[2] + k` (the function lives in a header not present in `src/`). -/
def cell_getid (g : HydroGrid) (i j k : Nat) : Nat :=
  i * (g.cdim1 * g.cdim2) + j * g.cdim2 + k

/-- One neighbour coordinate of the C loop: `continue` when the space is not
periodic and the raw coordinate is out of range, else wrap with
`(x + cdim) % cdim`. -/
def wrapCoord (periodic : Bool) (dim : Nat) (x : Int) : Option Nat :=
  if periodic = false ∧ (x < 0 ∨ (dim : Int) ≤ x) then none
  else some ((x + dim) % dim).toNat

/-- The task built by `scheduler_addtask(sched, task_type_self,
task_subtype_density, 0, 0, ci, NULL, 0)`. -/
def mkSelfDensity (cid : Nat) : Task :=
  { ttype := TaskType.self, subtype := TaskSubtype.density, flags := 0,
    tight := false, skip := false, ci := cid, cj := none }

/-- The task built by `scheduler_addtask(sched, task_type_pair,
task_subtype_density, sid, 0, ci, cj, 1)`. -/
def mkPairDensity (sid : Nat) (cid cjd : Nat) : Task :=
  { ttype := TaskType.pair, subtype := TaskSubtype.density, flags := sid,
    tight := true, skip := false, ci := cid, cj := some cjd }

/-- Innermost body of the neighbour loop: skip when `cid >= cjd`, the
neighbour is empty, or both cells are foreign; otherwise emit the pair task
with `sid = sortlistID[idx]`. -/
def hydro_pair_body (g : HydroGrid) (n : Int) (cid : Nat) (cjd : Nat)
    (idx : Nat) : List Task :=
  if cjd ≤ cid ∨ g.count cjd = 0 ∨
      (g.cellNode cid ≠ n ∧ g.cellNode cjd ≠ n) then []
  else [mkPairDensity (sortlistID.getD idx 0) cid cjd]

/-- The `kk` loop of `engine_make_hydroloop_tasks` (offsets shifted to
`ka = kk + 1 ∈ {0,1,2}`). -/
def hydro_pair_kk (g : HydroGrid) (n : Int) (i j k : Nat) (ia ja : Nat)
    (iii jjj : Nat) : List Task :=
  (List.range 3).flatMap fun ka =>
    match wrapCoord g.periodic g.cdim2 ((k : Int) + ((ka : Int) - 1)) with
    | none => []
    | some kkk =>
      hydro_pair_body g n (cell_getid g i j k) (cell_getid g iii jjj kkk)
        (ka + 3 * (ja + 3 * ia))

/-- The `jj` loop of `engine_make_hydroloop_tasks`. -/
def hydro_pair_jj (g : HydroGrid) (n : Int) (i j k : Nat) (ia : Nat)
    (iii : Nat) : List Task :=
  (List.range 3).flatMap fun ja =>
    match wrapCoord g.periodic g.cdim1 ((j : Int) + ((ja : Int) - 1)) with
    | none => []
    | some jjj => hydro_pair_kk g n i j k ia ja iii jjj

/-- The `ii` loop of `engine_make_hydroloop_tasks`: all pair tasks emitted
from base cell `(i,j,k)`. -/
def pair_tasks_at (g : HydroGrid) (n : Int) (i j k : Nat) : List Task :=
  (List.range 3).flatMap fun ia =>
    match wrapCoord g.periodic g.cdim0 ((i : Int) + ((ia : Int) - 1)) with
    | none => []
    | some iii => hydro_pair_jj g n i j k ia iii

/-- The body of the outer triple loop for one base cell: skip empty cells,
emit the self task when the cell is local, then the neighbour loop. -/
def hydro_cell_block (g : HydroGrid) (n : Int) (i j k : Nat) : List Task :=
  if g.count (cell_getid g i j k) = 0 then []
  else
    (if g.cellNode (cell_getid g i j k) = n then
        [mkSelfDensity (cell_getid g i j k)]
      else []) ++ pair_tasks_at g n i j k

/-- `engine_make_hydroloop_tasks` (engine.c 1632-1691): the list of tasks
added to the scheduler, in emission order. -/
def engine_make_hydroloop_tasks (g : HydroGrid) (n : Int) : List Task :=
  (List.range g.cdim0).flatMap fun i =>
    (List.range g.cdim1).flatMap fun j =>
      (List.range g.cdim2).flatMap fun k => hydro_cell_block g n i j k

/-- A concrete 3×3×3 periodic grid, all cells non-empty and local to node 0. -/
def exGrid : HydroGrid :=
  { cdim0 := 3, cdim1 := 3, cdim2 := 3, periodic := true,
    count := fun _ => 1, cellNode := fun _ => 0 }

/-! ## C4: hierarchical per-super-cell tasks and hydro-loop dependencies

`engine_make_hierarchical_tasks` (engine.c 131-207) walks a cell hierarchy;
at every cell that is its own super-cell (`c->super == c`) and is local it
creates the per-cell tasks (`init`, `kick1`, `kick2`, `timestep`, `drift`,
plus conditional `ghost`/`extra_ghost`/`cooling`/`sourceterms`) and their
unlock edges; above the super level it recurses into the (non-NULL)
progeny when the cell is split.  `engine_make_hydro_loops_dependencies`
(engine.c 1931-1981, two `#ifdef EXTRA_HYDRO_LOOP` variants) wires a
density task and its duplicated force (and gradient) loop task into the
per-super-cell chain. -/

/-- A cell of the hierarchy as read by `engine_make_hierarchical_tasks`:
its id, whether `c->super == c`, its owning node, the `split` flag, and the
non-NULL progeny. -/
inductive HCell where
  | node (cid : Nat) (isSuper : Bool) (nID : Int) (split : Bool)
      (progeny : List HCell)

/-- The engine policy bits and node id read by the task constructors;
`extraLoop` models the `EXTRA_HYDRO_LOOP` compile-time flag. -/
structure EnginePolicy where
  hydro : Bool
  cooling : Bool
  sourceterms : Bool
  extraLoop : Bool
  nodeID : Int

/-- Scheduler state touched by `engine_make_hierarchical_tasks`: the tasks
(identified by their type and owning cell id) and the unlock edges. -/
structure Sched where
  tasks : List (TaskType × Nat)
  unlocks : List ((TaskType × Nat) × (TaskType × Nat))

/-- `scheduler_addtask` for the hierarchical per-cell tasks: appends the
task, identified by `(type, cell id)`. -/
def scheduler_addtask (s : Sched) (tt : TaskType × Nat) : Sched :=
  { s with tasks := s.tasks ++ [tt] }

/-- `scheduler_addunlock`: appends an unlock edge. -/
def scheduler_addunlock (s : Sched) (ta tb : TaskType × Nat) : Sched :=
  { s with unlocks := s.unlocks ++ [(ta, tb)] }

/-- The body of `engine_make_hierarchical_tasks` at a local super-cell
(engine.c 144-192), in call order. -/
def engine_make_hierarchical_tasks_at (e : EnginePolicy) (cid : Nat)
    (s : Sched) : Sched :=
  let s := scheduler_addtask s (TaskType.init, cid)
  let s := scheduler_addtask s (TaskType.kick1, cid)
  let s := scheduler_addtask s (TaskType.kick2, cid)
  let s := scheduler_addtask s (TaskType.timestep, cid)
  let s := scheduler_addunlock s (TaskType.kick2, cid) (TaskType.timestep, cid)
  let s := scheduler_addtask s (TaskType.drift, cid)
  let s := scheduler_addunlock s (TaskType.kick1, cid) (TaskType.drift, cid)
  let s := scheduler_addunlock s (TaskType.drift, cid) (TaskType.init, cid)
  let s := if e.hydro then scheduler_addtask s (TaskType.ghost, cid) else s
  let s := if e.extraLoop && e.hydro then
      scheduler_addtask s (TaskType.extra_ghost, cid) else s
  let s := if e.cooling then
      scheduler_addunlock (scheduler_addtask s (TaskType.cooling, cid))
        (TaskType.cooling, cid) (TaskType.kick2, cid) else s
  let s := if e.sourceterms then
      scheduler_addtask s (TaskType.sourceterms, cid) else s
  s

mutual

/-- `engine_make_hierarchical_tasks` (engine.c 131-207): make the per-cell
tasks at the super level, or recurse into split cells above it. -/
def engine_make_hierarchical_tasks (e : EnginePolicy) (c : HCell)
    (s : Sched) : Sched :=
  match c with
  | .node cid isSuper nID split prog =>
    if isSuper then
      if nID = e.nodeID then engine_make_hierarchical_tasks_at e cid s else s
    else if split then hierList e prog s else s

/-- The `for (k = 0; k < 8; k++)` recursion over the non-NULL progeny. -/
def hierList (e : EnginePolicy) (cs : List HCell) (s : Sched) : Sched :=
  match cs with
  | [] => s
  | c :: rest => hierList e rest (engine_make_hierarchical_tasks e c s)

end

mutual

/-- The super cells reached by `engine_make_hierarchical_tasks`, with their
owning nodes, in visit order. -/
def supersOf : HCell → List (Nat × Int)
  | .node cid isSuper nID split prog =>
    if isSuper then [(cid, nID)]
    else if split then supersOfList prog else []

/-- `supersOf` over a progeny list. -/
def supersOfList : List HCell → List (Nat × Int)
  | [] => []
  | c :: rest => supersOf c ++ supersOfList rest

end

/-- The tasks created at one local super cell, in creation order. -/
def hierBlockTasks (e : EnginePolicy) (cid : Nat) : List (TaskType × Nat) :=
  [(TaskType.init, cid), (TaskType.kick1, cid), (TaskType.kick2, cid),
    (TaskType.timestep, cid), (TaskType.drift, cid)]
  ++ (if e.hydro then [(TaskType.ghost, cid)] else [])
  ++ (if e.extraLoop && e.hydro then [(TaskType.extra_ghost, cid)] else [])
  ++ (if e.cooling then [(TaskType.cooling, cid)] else [])
  ++ (if e.sourceterms then [(TaskType.sourceterms, cid)] else [])

/-- The unlock edges created at one local super cell, in creation order. -/
def hierBlockUnlocks (e : EnginePolicy) (cid : Nat) :
    List ((TaskType × Nat) × (TaskType × Nat)) :=
  [((TaskType.kick2, cid), (TaskType.timestep, cid)),
    ((TaskType.kick1, cid), (TaskType.drift, cid)),
    ((TaskType.drift, cid), (TaskType.init, cid))]
  ++ (if e.cooling then
        [((TaskType.cooling, cid), (TaskType.kick2, cid))] else [])

/-- The per-block task list of a visited super cell: empty when foreign. -/
def hierTasksF (e : EnginePolicy) (x : Nat × Int) : List (TaskType × Nat) :=
  if x.2 = e.nodeID then hierBlockTasks e x.1 else []

/-- The per-block unlock list of a visited super cell: empty when foreign. -/
def hierUnlocksF (e : EnginePolicy) (x : Nat × Int) :
    List ((TaskType × Nat) × (TaskType × Nat)) :=
  if x.2 = e.nodeID then hierBlockUnlocks e x.1 else []

/-- The empty scheduler. -/
def emptySched : Sched := { tasks := [], unlocks := [] }

/-- The super-cell task pointers read by
`engine_make_hydro_loops_dependencies` (`c->super->init` etc.), as abstract
task ids. -/
structure CSuper where
  init : Nat
  ghost : Nat
  extra_ghost : Nat
  cooling : Nat
  kick2 : Nat

/-- `scheduler_addunlock` on a bare edge list (ids abstract). -/
def addunlockN (u : List (Nat × Nat)) (a b : Nat) : List (Nat × Nat) :=
  u ++ [(a, b)]

/-- `engine_make_hydro_loops_dependencies` (engine.c 1962-1979, the variant
without `EXTRA_HYDRO_LOOP`): `init -> density -> ghost -> force`, then
`force -> cooling` or `force -> kick2`. -/
def engine_make_hydro_loops_dependencies (u : List (Nat × Nat))
    (density force : Nat) (c : CSuper) (with_cooling : Bool) :
    List (Nat × Nat) :=
  let u := addunlockN u c.init density
  let u := addunlockN u density c.ghost
  let u := addunlockN u c.ghost force
  if with_cooling then addunlockN u force c.cooling
  else addunlockN u force c.kick2

/-- `engine_make_hydro_loops_dependencies` (engine.c 1931-1949, the
`EXTRA_HYDRO_LOOP` variant): `init -> density -> ghost -> gradient ->
extra_ghost -> force`, then `force -> cooling` or `force -> kick2`. -/
def engine_make_hydro_loops_dependencies_extra (u : List (Nat × Nat))
    (density gradient force : Nat) (c : CSuper) (with_cooling : Bool) :
    List (Nat × Nat) :=
  let u := addunlockN u c.init density
  let u := addunlockN u density c.ghost
  let u := addunlockN u c.ghost gradient
  let u := addunlockN u gradient c.extra_ghost
  let u := addunlockN u c.extra_ghost force
  if with_cooling then addunlockN u force c.cooling
  else addunlockN u force c.kick2

/-- A one-cell hierarchy: the root is its own super cell, local to node 0. -/
def exHCell : HCell := HCell.node 0 true 0 false []

/-- A hydro+cooling policy on node 0 without the extra hydro loop. -/
def exPolicy : EnginePolicy :=
  { hydro := true, cooling := true, sourceterms := false, extraLoop := false,
    nodeID := 0 }

/-! ## C7: the repartition check of `engine_step` (engine.c 3029-3067)

On rank 0, after gathering the per-rank elapsed CPU times of the last step,
`engine_step` considers a repartition only when all particles (or all
g-particles) were updated this step; it then scans the gathered times for
their minimum and maximum and sets `e->forcerepart = repartition->type`
when `(max - min) / min` exceeds `repartition->fractionaltime`.  CPU times
are modelled as rationals. -/

/-- The engine/repartition fields read by the check. -/
structure RepartCtx where
  updates : Nat
  total_nr_parts : Nat
  g_updates : Nat
  total_nr_gparts : Nat
  fractionaltime : ℚ
  repart_type : Int
  forcerepart : Int

/-- One iteration of the min/max scan (engine.c 3051-3054): the
accumulator holds `(mintime, maxtime)`. -/
def repart_fold (acc : ℚ × ℚ) (x : ℚ) : ℚ × ℚ :=
  (if x < acc.1 then x else acc.1, if x > acc.2 then x else acc.2)

/-- The repartition check of `engine_step` (engine.c 3043-3063): returns
the new value of `e->forcerepart`.  `times` is the gathered
`elapsed_cputimes` array (one entry per rank, never empty). -/
def engine_step_repart (e : RepartCtx) (nodeID : Int) (times : List ℚ) :
    Int :=
  if nodeID = 0 then
    if (e.updates ≠ 0 ∧ e.updates = e.total_nr_parts) ∨
        (e.g_updates ≠ 0 ∧ e.g_updates = e.total_nr_gparts) then
      match times with
      | [] => e.forcerepart
      | t0 :: rest =>
        let mm := rest.foldl repart_fold (t0, t0)
        if (mm.2 - mm.1) / mm.1 > e.fractionaltime then e.repart_type
        else e.forcerepart
    else e.forcerepart
  else e.forcerepart

/-- The claim C7 as literally stated: the force-repartition flag is set iff
the dispersion of the gathered times exceeds the fractional threshold
(no qualification on the number of updated particles). -/
def c7OrigClaim : Prop :=
  ∀ (e : RepartCtx) (t0 : ℚ) (rest : List ℚ),
    e.forcerepart = 0 → e.repart_type ≠ 0 →
    (engine_step_repart e 0 (t0 :: rest) ≠ 0 ↔
      ((rest.foldl repart_fold (t0, t0)).2 -
          (rest.foldl repart_fold (t0, t0)).1) /
        (rest.foldl repart_fold (t0, t0)).1 > e.fractionaltime)

/-- A rank-0 engine state whose particles were all updated this step. -/
def exRepart : RepartCtx :=
  { updates := 5, total_nr_parts := 5, g_updates := 0, total_nr_gparts := 7,
    fractionaltime := 1, repart_type := 2, forcerepart := 0 }

/-- A rank-0 engine state with no particle updated this step. -/
def exRepartIdle : RepartCtx :=
  { updates := 0, total_nr_parts := 5, g_updates := 0, total_nr_gparts := 7,
    fractionaltime := 1, repart_type := 2, forcerepart := 0 }

/-! ## C8: the integer-time mapping constant (engine.c 3757-3772)

`engine_init` rejects `timeBegin >= timeEnd` and then sets
`e->timeBase = (e->timeEnd - e->timeBegin) / max_nr_timesteps`.  Double
values are modelled as rationals together with a rounding function `rnd`
standing for the double rounding of the division; `repr64` describes the
values exactly representable in an IEEE double (sign-magnitude
`m * 2^ex` with a 53-bit mantissa), on which a faithful rounding is the
identity. -/

/-- Modelled from the spec: the number of integer ticks on the time line
(`max_nr_timesteps` lives in a header not present in `src/`; the spec's
integer-time scenario uses `2^28`). -/
def max_nr_timesteps : Nat := 2 ^ 28

/-- `q` is exactly representable as an IEEE-754 double (unbounded
exponent): a mantissa of at most 53 bits times a power of two. -/
def repr64 (q : ℚ) : Prop :=
  ∃ (m : Int) (ex : Int), |m| ≤ 2 ^ 53 ∧ q = m * (2 : ℚ) ^ ex

/-- The timeBase computation of `engine_init` (engine.c 3757-3772): `none`
models the `error()` on non-increasing time bounds; `rnd` is the double
rounding of the division. -/
def engine_init_timeBase (rnd : ℚ → ℚ) (timeBegin timeEnd : ℚ) :
    Option ℚ :=
  if timeBegin ≥ timeEnd then none
  else some (rnd ((timeEnd - timeBegin) / (max_nr_timesteps : ℚ)))

/-! ## C9: the chunked hashmap (src/unnamed/part_000)

The hashmap stores elements in chunks of `HASHMAP_ELEMENTS_PER_CHUNK`
slots; occupancy is tracked by bit masks of `HASHMAP_BITS_PER_MASK` bits.
`hashmap_find` first rejects any access once `size >= table_size / 2`,
hashes the key (`rand_r`, modelled as an abstract per-key draw sequence)
to a global offset, allocates the chunk on demand, and probes at most
`MAX_CHAIN_LENGTH` slots inside the chunk, re-hashing on collisions.
Geometry constants and the hash live in `hashmap.h` (not in `src/`) and
are parameters; chunk mask words are modelled as one word per slot index
(reads and writes use the same `offset/BPM` arithmetic as the C, so the
extra words are never touched).  The double mask/bit loop of
`hashmap_grow` is flattened to the equivalent single loop over slot
indices `mid*BPM+eid` in the same order.  Keys and values are `Nat`;
`error()` paths and exhausted growth loops return `none`. -/

/-- The geometry constants of `hashmap.h` and the `rand_r` hash:
`rand key i` is the `i`-th draw of `rand_r` seeded with `key`. -/
structure HashParams where
  EPC : Nat
  BPM : Nat
  MCL : Nat
  G : Nat
  rand : Nat → Nat → Nat

/-- A `hashmap_chunk_t`: the occupancy mask words and the `(key, value)`
slots. -/
structure HashChunk where
  masks : List Nat
  data : List (Nat × Nat)
  deriving DecidableEq, Repr

/-- A `hashmap_t`: the table size, the (drifting) element counter, and the
chunk pointer array (`none` = NULL). -/
structure Hashmap where
  table_size : Nat
  size : Nat
  chunks : List (Option HashChunk)
  deriving DecidableEq, Repr

/-- A freshly allocated (zeroed) chunk. -/
def emptyChunk (P : HashParams) : HashChunk :=
  { masks := List.replicate P.EPC 0,
    data := List.replicate P.EPC (0, 0) }

/-- The occupancy bit of slot `i` of chunk `co` (false when the chunk is
NULL). -/
def bitAt (P : HashParams) (m : Hashmap) (co i : Nat) : Bool :=
  match m.chunks.getD co none with
  | none => false
  | some ch => (ch.masks.getD (i / P.BPM) 0).testBit (i - i / P.BPM * P.BPM)

/-- The key stored in slot `i` of chunk `co`. -/
def keyAt (P : HashParams) (m : Hashmap) (co i : Nat) : Nat :=
  match m.chunks.getD co none with
  | none => 0
  | some ch => (ch.data.getD i (0, 0)).1

/-- The value stored in slot `i` of chunk `co`. -/
def valueAt (P : HashParams) (m : Hashmap) (co i : Nat) : Nat :=
  match m.chunks.getD co none with
  | none => 0
  | some ch => (ch.data.getD i (0, 0)).2

/-- The state change of a successful insertion in `hashmap_find`
(part_000 175-179): set the mask bit, bump `size`, write the key
(the value slot is left as is). -/
def probeInsert (P : HashParams) (m : Hashmap) (co oic key : Nat) :
    Hashmap :=
  match m.chunks.getD co none with
  | none => m
  | some ch =>
    { m with
      chunks := m.chunks.set co (some
        { masks := ch.masks.set (oic / P.BPM)
            ((ch.masks.getD (oic / P.BPM) 0) |||
              (1 <<< (oic - oic / P.BPM * P.BPM))),
          data := ch.data.set oic (key, (ch.data.getD oic (0, 0)).2) }),
      size := m.size + 1 }

/-- `element->value = v` through the pointer returned by `hashmap_find`
(`pos` is the element's `(chunk, slot)` position). -/
def setElemValue (m : Hashmap) (pos : Nat × Nat) (v : Nat) : Hashmap :=
  match m.chunks.getD pos.1 none with
  | none => m
  | some ch =>
    { m with
      chunks := m.chunks.set pos.1 (some
        { ch with
          data := ch.data.set pos.2 ((ch.data.getD pos.2 (0, 0)).1, v) }) }

/-- The probing loop of `hashmap_find` (part_000 162-195): `fuel` counts
the remaining `MAX_CHAIN_LENGTH` iterations, `draw` the next `rand_r`
draw, `oic` the current offset in chunk `co`. -/
def hashmap_probe (P : HashParams) (create_new : Bool) (key co : Nat) :
    Nat → Nat → Nat → Hashmap → Hashmap × Option (Nat × Nat)
  | 0, _, _, m => (m, none)
  | fuel + 1, draw, oic, m =>
    match m.chunks.getD co none with
    | none => (m, none)
    | some ch =>
      if ((ch.masks.getD (oic / P.BPM) 0).testBit
          (oic - oic / P.BPM * P.BPM)) = false then
        if create_new = false then (m, none)
        else (probeInsert P m co oic key, some (co, oic))
      else if (ch.data.getD oic (0, 0)).1 = key then (m, some (co, oic))
      else hashmap_probe P create_new key co fuel (draw + 1)
        (P.rand key draw % P.EPC) m

/-- `hashmap_find` (part_000 139-199): returns the updated map and the
position of the element, or `none` for NULL. -/
def hashmap_find (P : HashParams) (m : Hashmap) (key : Nat)
    (create_new : Bool) : Hashmap × Option (Nat × Nat) :=
  if m.table_size / 2 ≤ m.size then (m, none)
  else
    let offset := P.rand key 0 % m.table_size
    let co := offset / P.EPC
    let oic := offset - co * P.EPC
    match m.chunks.getD co none with
    | none =>
      if create_new = false then (m, none)
      else hashmap_probe P create_new key co P.MCL 1 oic
        { m with chunks := m.chunks.set co (some (emptyChunk P)) }
    | some _ => hashmap_probe P create_new key co P.MCL 1 oic m

/-- One re-insertion of `hashmap_grow` (part_000 236-241): find a slot for
the key (`error` when that fails) and copy the value. -/
def growInsert (P : HashParams) (acc : Option Hashmap) (k v : Nat) :
    Option Hashmap :=
  acc.bind fun m =>
    match hashmap_find P m k true with
    | (_, none) => none
    | (m2, some pos) => some (setElemValue m2 pos v)

/-- The occupied `(key, value)` slots of a chunk, in the order of the
mask/bit loops of `hashmap_grow` (part_000 224-243). -/
def chunkElems (P : HashParams) (ch : HashChunk) : List (Nat × Nat) :=
  (List.range P.EPC).filterMap fun oic =>
    if (ch.masks.getD (oic / P.BPM) 0).testBit
        (oic - oic / P.BPM * P.BPM) then
      some (ch.data.getD oic (0, 0))
    else none

/-- `hashmap_grow` (part_000 204-252): double the table, re-insert every
occupied element (`none` models the re-hash `error()`).  Note that the C
code never resets `m->size`, so the counter keeps the old count on top of
the re-insertions; the model reproduces this faithfully. -/
def hashmap_grow (P : HashParams) (m : Hashmap) : Option Hashmap :=
  let m0 : Hashmap :=
    { table_size := P.G * m.table_size, size := m.size,
      chunks := List.replicate (P.G * m.table_size / P.EPC) none }
  (List.range (m.table_size / P.EPC)).foldl (fun acc cid =>
    match m.chunks.getD cid none with
    | none => acc
    | some ch => (chunkElems P ch).foldl
        (fun acc2 kv => growInsert P acc2 kv.1 kv.2) acc)
    (some m0)

/-- `hashmap_put` (part_000 254-266): find-or-insert, growing on failure;
`fuel` bounds the grow loop (`none` = the loop did not terminate within
`fuel` grows or a grow aborted). -/
def hashmap_put (P : HashParams) :
    Nat → Hashmap → Nat → Nat → Option Hashmap
  | fuel, m, key, v =>
    match hashmap_find P m key true with
    | (m2, some pos) => some (setElemValue m2 pos v)
    | (m2, none) =>
      match fuel with
      | 0 => none
      | fuel + 1 => (hashmap_grow P m2).bind fun m3 =>
          hashmap_put P fuel m3 key v

/-- `hashmap_lookup` (part_000 278-281): find without creating; returns
the value behind the returned pointer. -/
def hashmap_lookup (P : HashParams) (m : Hashmap) (key : Nat) :
    Option Nat :=
  match hashmap_find P m key false with
  | (m1, some pos) => some (valueAt P m1 pos.1 pos.2)
  | (_, none) => none

/-- Chunk well-formedness: mask and data arrays cover the slot indices. -/
def chunkWF (P : HashParams) (ch : HashChunk) : Prop :=
  ch.masks.length = P.EPC ∧ ch.data.length = P.EPC

/-- Map well-formedness: positive geometry, chunk array sized
`table_size / EPC`, and well-formed allocated chunks. -/
def mapWF (P : HashParams) (m : Hashmap) : Prop :=
  0 < P.EPC ∧ 0 < P.BPM ∧ m.chunks.length * P.EPC = m.table_size ∧
  ∀ och ∈ m.chunks, ∀ ch ∈ och, chunkWF P ch

/-- The claim C9 as literally stated: a `hashmap_put` that returns is
always followed by a successful `hashmap_lookup` of the stored value. -/
def c9OrigClaim : Prop :=
  ∀ (P : HashParams) (m : Hashmap) (key v fuel : Nat) (m2 : Hashmap),
    hashmap_put P fuel m key v = some m2 →
    hashmap_lookup P m2 key = some v

/-- Tiny geometry for concrete instances: 4 slots per chunk, 4 bits per
mask word, chain length 8, growth factor 2, and a hash whose first draw
is the key itself. -/
def exHP : HashParams :=
  { EPC := 4, BPM := 4, MCL := 8, G := 2, rand := fun k _ => k }

/-- A one-chunk table of 4 slots, one slot occupied (key 5, value 9):
inserting one more element makes it half full. -/
def exMap0 : Hashmap :=
  { table_size := 4, size := 1,
    chunks := [some { masks := [1, 0, 0, 0],
                      data := [(5, 9), (0, 0), (0, 0), (0, 0)] }] }

/-- The map `exMap0` after `hashmap_put` of key 1, value 7. -/
def exMap1 : Hashmap :=
  { table_size := 4, size := 2,
    chunks := [some { masks := [3, 0, 0, 0],
                      data := [(5, 9), (1, 7), (0, 0), (0, 0)] }] }

/-- A two-chunk table of 8 slots, one slot occupied: an insertion leaves
it under half full. -/
def exMapW : Hashmap :=
  { table_size := 8, size := 1,
    chunks := [some { masks := [1, 0, 0, 0],
                      data := [(5, 9), (0, 0), (0, 0), (0, 0)] }, none] }

/-- The map `exMapW` after `hashmap_put` of key 1, value 7: two of eight
slots used, still under half full. -/
def exMapW2 : Hashmap :=
  { table_size := 8, size := 2,
    chunks := [some { masks := [3, 0, 0, 0],
                      data := [(5, 9), (1, 7), (0, 0), (0, 0)] }, none] }

/-- Predicate: `t` is a pair task between cells `a` and `b` (either
orientation). -/
def pairBetween (a b : Nat) (t : Task) : Bool :=
  decide (t.ttype = TaskType.pair ∧
    ((t.ci = a ∧ t.cj = some b) ∨ (t.ci = b ∧ t.cj = some a)))

/-- Predicate: `t` is a self task on cell `a`. -/
def selfAt (a : Nat) (t : Task) : Bool :=
  decide (t.ttype = TaskType.self ∧ t.ci = a)

/-! ## Particle logger (src/unnamed/part_001) -/

/-- Bit positions of the `logger_mask_*` constants. Modelled from the
spec: the constants live in `logger.h`, which is not in `src/`; each is a
single-bit mask `2 ^ i` and we quantify over the bit positions, so no
concrete values are assumed. -/
structure LoggerMasks where
  x : Nat
  v : Nat
  a : Nat
  u : Nat
  h : Nat
  rho : Nat
  timestamp : Nat
deriving DecidableEq

/-- `logger_size` (part_001 lines 45-88): 8 header bytes plus the sizes
of the mask-selected fields; a timestamp mask carrying any other bit is
an `error()` (`none`). Sizes: double 8, float 4, long long 8,
unsigned long long 8. The rho bit is tested twice, the second time adding
the mass float and the long-long id. -/
def logger_size (L : LoggerMasks) (mask : Nat) : Option Nat :=
  if mask.testBit L.timestamp then
    if mask ≠ 2 ^ L.timestamp then none
    else some (8 + 8)
  else
    some (8 + (if mask.testBit L.x then 24 else 0)
            + (if mask.testBit L.v then 12 else 0)
            + (if mask.testBit L.a then 12 else 0)
            + (if mask.testBit L.u then 4 else 0)
            + (if mask.testBit L.h then 4 else 0)
            + (if mask.testBit L.rho then 4 else 0)
            + (if mask.testBit L.rho then 4 + 8 else 0))

/-- The fields of a `struct part` the logger reads, as raw byte lists
(x: three doubles = 24 bytes, v and a_hydro: three floats = 12 bytes,
u, h, rho, mass: one float = 4 bytes, id: a long long = 8 bytes). -/
structure Part where
  x : List Nat
  v : List Nat
  a_hydro : List Nat
  u : List Nat
  h : List Nat
  rho : List Nat
  mass : List Nat
  id : List Nat
deriving DecidableEq

/-- The byte lengths a C `struct part` guarantees for the logged fields. -/
def partWF (p : Part) : Prop :=
  p.x.length = 24 ∧ p.v.length = 12 ∧ p.a_hydro.length = 12 ∧
  p.u.length = 4 ∧ p.h.length = 4 ∧ p.rho.length = 4 ∧
  p.mass.length = 4 ∧ p.id.length = 8

/-- The 8 bytes of a `uint64_t` in memory order (little-endian `memcpy`). -/
def bytes64 (n : Nat) : List Nat :=
  (List.range 8).map (fun i => n / 2 ^ (8 * i) % 256)

/-- `logger_log_part` (part_001 lines 99-169): `error()` (`none`) on a
timestamp mask; otherwise allocates `logger_size mask` bytes from the
dump (`dump_get` is not in `src/` and is modelled as handing back a fresh
buffer and the new offset `dofs`), writes the 8-byte header
`(*offset & 0xffffffffffffffL) | ((uint64_t)mask << 56)` and then the
mask-selected fields in bit order x, v, a, u, h, rho, (mass, id), and
stores the new offset through `*offset`. Returns the written bytes and
the updated `*offset`. -/
def logger_log_part (L : LoggerMasks) (p : Part) (mask offset dofs : Nat) :
    Option (List Nat × Nat) :=
  if mask.testBit L.timestamp then none
  else
    (logger_size L mask).bind fun _ =>
      some (bytes64 ((offset % 2 ^ 56) ||| ((mask <<< 56) % 2 ^ 64))
        ++ (if mask.testBit L.x then p.x else [])
        ++ (if mask.testBit L.v then p.v else [])
        ++ (if mask.testBit L.a then p.a_hydro else [])
        ++ (if mask.testBit L.u then p.u else [])
        ++ (if mask.testBit L.h then p.h else [])
        ++ (if mask.testBit L.rho then p.rho else [])
        ++ (if mask.testBit L.rho then p.mass ++ p.id else []),
        dofs)

/-- The standard bit layout of `logger.h` for the witness: x, v, a, u, h,
rho on bits 0-5 and timestamp on bit 7 (bit 6 is the unused consts
mask). -/
def exLM : LoggerMasks :=
  { x := 0, v := 1, a := 2, u := 3, h := 4, rho := 5, timestamp := 7 }

/-- A concrete particle with distinguishable field bytes. -/
def exPart : Part :=
  { x := List.replicate 24 1, v := List.replicate 12 2,
    a_hydro := List.replicate 12 3, u := List.replicate 4 4,
    h := List.replicate 4 5, rho := List.replicate 4 6,
    mass := List.replicate 4 7, id := List.replicate 8 8 }

/-! ## List and bit helper lemmas -/

theorem getD_set_self {α : Type} (l : List α) (i : Nat) (a d : α)
    (h : i < l.length) : (l.set i a).getD i d = a := by
  simp [List.getD_eq_getElem?_getD, List.getElem?_set_self, h]

theorem getD_set_ne {α : Type} (l : List α) {i j : Nat} (a d : α)
    (h : j ≠ i) : (l.set i a).getD j d = l.getD j d := by
  simp [List.getD_eq_getElem?_getD, List.getElem?_set_ne (Ne.symm h)]

theorem set_getD_self {α : Type} (l : List α) (i : Nat) (d : α) :
    l.set i (l.getD i d) = l := by
  rcases Nat.lt_or_ge i l.length with h | h
  · apply List.ext_getElem?
    intro j
    by_cases hj : j = i
    · subst hj
      simp [List.getElem?_set_self, h, List.getD_eq_getElem?_getD,
        List.getElem?_eq_getElem h]
    · simp [List.getElem?_set_ne (Ne.symm hj)]
  · exact List.set_eq_of_length_le h

theorem bitLe_or_self (b f : Nat) : bitLe b (f ||| b) := by
  simp [bitLe, Nat.or_assoc]

theorem bitLe_of_bitLe_or (b f c : Nat) (h : bitLe b f) : bitLe b (f ||| c) := by
  unfold bitLe at h ⊢
  calc f ||| c ||| b = f ||| b ||| c := by
        rw [Nat.or_assoc, Nat.or_assoc, Nat.or_comm c b]
    _ = f ||| c := by rw [h]

/-! ## Reading the state after a primitive update -/

theorem taskAt_set (st : MarkState) (i : Nat) (v : Task) (j : Nat) :
    taskAt { st with tasks := st.tasks.set i v } j =
      if j = i ∧ i < st.tasks.length then v else taskAt st j := by
  by_cases hj : j = i
  · subst hj
    by_cases hi : j < st.tasks.length
    · simp [taskAt, getD_set_self _ _ _ _ hi, hi]
    · rw [if_neg (by simp [hi])]
      simp [taskAt, List.set_eq_of_length_le (Nat.le_of_not_lt hi)]
  · rw [if_neg (by simp [hj])]
    simp [taskAt, List.getD_eq_getElem?_getD, List.getElem?_set_ne (Ne.symm hj)]

theorem cellAt_set (st : MarkState) (i : Nat) (v : Cell) (j : Nat) :
    cellAt { st with cells := st.cells.set i v } j =
      if j = i ∧ i < st.cells.length then v else cellAt st j := by
  by_cases hj : j = i
  · subst hj
    by_cases hi : j < st.cells.length
    · simp [cellAt, getD_set_self _ _ _ _ hi, hi]
    · rw [if_neg (by simp [hi])]
      simp [cellAt, List.set_eq_of_length_le (Nat.le_of_not_lt hi)]
  · rw [if_neg (by simp [hj])]
    simp [cellAt, List.getD_eq_getElem?_getD, List.getElem?_set_ne (Ne.symm hj)]

theorem taskAt_activate (st : MarkState) (i j : Nat) :
    taskAt (scheduler_activate st i) j =
      if j = i ∧ i < st.tasks.length then { taskAt st i with skip := false }
      else taskAt st j :=
  taskAt_set st i _ j

theorem taskAt_or_flags (st : MarkState) (i : Nat) (bits : Nat) (j : Nat) :
    taskAt (task_or_flags st i bits) j =
      if j = i ∧ i < st.tasks.length then
        { taskAt st i with flags := (taskAt st i).flags ||| bits }
      else taskAt st j :=
  taskAt_set st i _ j

theorem cellAt_activate (st : MarkState) (i c : Nat) :
    cellAt (scheduler_activate st i) c = cellAt st c := rfl

theorem cellAt_or_flags (st : MarkState) (i bits c : Nat) :
    cellAt (task_or_flags st i bits) c = cellAt st c := rfl

theorem cellAt_reset (st : MarkState) (cidx j : Nat) :
    cellAt (reset_counters st cidx) j =
      if j = cidx ∧ cidx < st.cells.length then
        { cellAt st cidx with updated := 0, g_updated := 0, s_updated := 0 }
      else cellAt st j :=
  cellAt_set st cidx _ j

theorem taskAt_reset (st : MarkState) (cidx j : Nat) :
    taskAt (reset_counters st cidx) j = taskAt st j := rfl

/-! ## Core stability and monotonicity of the primitives -/

theorem taskCore_ttype (t : Task) : (taskCore t).ttype = t.ttype := rfl

theorem taskCore_subtype (t : Task) : (taskCore t).subtype = t.subtype := rfl

theorem taskCore_tight (t : Task) : (taskCore t).tight = t.tight := rfl

theorem taskCore_ci (t : Task) : (taskCore t).ci = t.ci := rfl

theorem taskCore_cj (t : Task) : (taskCore t).cj = t.cj := rfl

theorem coreEq_rfl (s : MarkState) : CoreEq s s :=
  ⟨rfl, rfl, fun _ => rfl, fun _ => rfl⟩

theorem coreEq_trans {a b c : MarkState} (h1 : CoreEq a b) (h2 : CoreEq b c) :
    CoreEq a c :=
  ⟨h2.tlen.trans h1.tlen, h2.clen.trans h1.clen,
   fun j => (h2.task j).trans (h1.task j),
   fun j => (h2.cell j).trans (h1.cell j)⟩

theorem stepOK_rfl (s : MarkState) : StepOK s s :=
  ⟨coreEq_rfl s, fun _ h => h, fun _ _ h => h, fun h => h, fun _ h => h⟩

theorem stepOK_trans {a b c : MarkState} (h1 : StepOK a b) (h2 : StepOK b c) :
    StepOK a c :=
  ⟨coreEq_trans h1.core h2.core,
   fun j h => h2.skipm j (h1.skipm j h),
   fun j b hb => h2.flagm j b (h1.flagm j b hb),
   fun h => h2.rebm (h1.rebm h),
   fun cx h => h2.cntm cx (h1.cntm cx h)⟩

theorem stepOK_activate (st : MarkState) (i : Nat) :
    StepOK st (scheduler_activate st i) := by
  refine ⟨⟨?_, rfl, ?_, fun _ => rfl⟩, ?_, ?_, fun h => h, ?_⟩
  · simp [scheduler_activate]
  · intro j
    rw [taskAt_activate]
    split
    · next hcond =>
      obtain ⟨hj, _⟩ := hcond
      subst hj
      rfl
    · rfl
  · intro j h
    unfold skipAt at h ⊢
    rw [taskAt_activate]
    split
    · rfl
    · exact h
  · intro j b hb
    unfold flagsAt at hb ⊢
    rw [taskAt_activate]
    split
    · next hcond =>
      obtain ⟨hj, _⟩ := hcond
      subst hj
      exact hb
    · exact hb
  · intro c h
    exact h

theorem stepOK_or_flags (st : MarkState) (i bits : Nat) :
    StepOK st (task_or_flags st i bits) := by
  refine ⟨⟨?_, rfl, ?_, fun _ => rfl⟩, ?_, ?_, fun h => h, ?_⟩
  · simp [task_or_flags]
  · intro j
    rw [taskAt_or_flags]
    split
    · next hcond =>
      obtain ⟨hj, _⟩ := hcond
      subst hj
      rfl
    · rfl
  · intro j h
    unfold skipAt at h ⊢
    rw [taskAt_or_flags]
    split
    · next hcond =>
      obtain ⟨hj, _⟩ := hcond
      subst hj
      exact h
    · exact h
  · intro j b hb
    unfold flagsAt at hb ⊢
    rw [taskAt_or_flags]
    split
    · next hcond =>
      obtain ⟨hj, _⟩ := hcond
      subst hj
      exact bitLe_of_bitLe_or _ _ _ hb
    · exact hb
  · intro c h
    exact h

theorem stepOK_reset (st : MarkState) (cidx : Nat) :
    StepOK st (reset_counters st cidx) := by
  refine ⟨⟨rfl, ?_, fun _ => rfl, ?_⟩, fun _ h => h, fun _ _ h => h, fun h => h, ?_⟩
  · simp [reset_counters]
  · intro j
    rw [cellAt_reset]
    split
    · next hcond =>
      obtain ⟨hj, _⟩ := hcond
      subst hj
      rfl
    · rfl
  · intro c h
    unfold countersZero at h ⊢
    rw [cellAt_reset]
    split
    · exact ⟨rfl, rfl, rfl⟩
    · exact h

theorem stepOK_set_rebuild (st : MarkState) :
    StepOK st { st with rebuild := true } :=
  ⟨⟨rfl, rfl, fun _ => rfl, fun _ => rfl⟩, fun _ h => h, fun _ _ h => h,
   fun _ => rfl, fun _ h => h⟩

theorem stepOK_activate_sorts (st : MarkState) (cidx bit : Nat) :
    StepOK st (activate_sorts st cidx bit) := by
  simp only [activate_sorts]
  split
  · exact stepOK_trans (stepOK_or_flags st _ bit) (stepOK_activate _ _)
  · exact stepOK_rfl st

/-! ## Stability of the mapper's decisions under core equality -/

@[simp] theorem cellCore_ti_end_min (c : Cell) : (cellCore c).ti_end_min = c.ti_end_min := rfl

@[simp] theorem cellCore_h_max (c : Cell) : (cellCore c).h_max = c.h_max := rfl

@[simp] theorem cellCore_dx_max (c : Cell) : (cellCore c).dx_max = c.dx_max := rfl

@[simp] theorem cellCore_dmin (c : Cell) : (cellCore c).dmin = c.dmin := rfl

@[simp] theorem cellCore_sorted (c : Cell) : (cellCore c).sorted = c.sorted := rfl

@[simp] theorem cellCore_nodeID (c : Cell) : (cellCore c).nodeID = c.nodeID := rfl

@[simp] theorem cellCore_sorts (c : Cell) : (cellCore c).sorts = c.sorts := rfl

@[simp] theorem cellCore_super (c : Cell) : (cellCore c).super = c.super := rfl

@[simp] theorem cellCore_drift (c : Cell) : (cellCore c).drift = c.drift := rfl

@[simp] theorem cellCore_recv_xv (c : Cell) : (cellCore c).recv_xv = c.recv_xv := rfl

@[simp] theorem cellCore_recv_rho (c : Cell) : (cellCore c).recv_rho = c.recv_rho := rfl

@[simp] theorem cellCore_recv_ti (c : Cell) : (cellCore c).recv_ti = c.recv_ti := rfl

@[simp] theorem cellCore_send_xv (c : Cell) : (cellCore c).send_xv = c.send_xv := rfl

@[simp] theorem cellCore_send_rho (c : Cell) : (cellCore c).send_rho = c.send_rho := rfl

@[simp] theorem cellCore_send_ti (c : Cell) : (cellCore c).send_ti = c.send_ti := rfl

theorem coreEq_cell_field {s s' : MarkState} (h : CoreEq s s') {α : Type}
    (f : Cell → α) (hf : ∀ c, f (cellCore c) = f c) (c : Nat) :
    f (cellAt s' c) = f (cellAt s c) := by
  have := congrArg f (h.cell c)
  rwa [hf, hf] at this

theorem coreEq_task_field {s s' : MarkState} (h : CoreEq s s') {α : Type}
    (f : Task → α) (hf : ∀ t, f (taskCore t) = f t) (j : Nat) :
    f (taskAt s' j) = f (taskAt s j) := by
  have := congrArg f (h.task j)
  rwa [hf, hf] at this

theorem coreEq_ttype {s s' : MarkState} (h : CoreEq s s') (j : Nat) :
    (taskAt s' j).ttype = (taskAt s j).ttype :=
  coreEq_task_field h Task.ttype (fun _ => rfl) j

theorem coreEq_subtype {s s' : MarkState} (h : CoreEq s s') (j : Nat) :
    (taskAt s' j).subtype = (taskAt s j).subtype :=
  coreEq_task_field h Task.subtype (fun _ => rfl) j

theorem coreEq_tight {s s' : MarkState} (h : CoreEq s s') (j : Nat) :
    (taskAt s' j).tight = (taskAt s j).tight :=
  coreEq_task_field h Task.tight (fun _ => rfl) j

theorem coreEq_ci {s s' : MarkState} (h : CoreEq s s') (j : Nat) :
    (taskAt s' j).ci = (taskAt s j).ci :=
  coreEq_task_field h Task.ci (fun _ => rfl) j

theorem coreEq_cj {s s' : MarkState} (h : CoreEq s s') (j : Nat) :
    (taskAt s' j).cj = (taskAt s j).cj :=
  coreEq_task_field h Task.cj (fun _ => rfl) j

theorem coreEq_active {s s' : MarkState} (h : CoreEq s s') (e : MarkCtx) (c : Nat) :
    cell_is_active e s' c = cell_is_active e s c := by
  unfold cell_is_active
  rw [coreEq_cell_field h Cell.ti_end_min (fun _ => rfl) c]

theorem coreEq_sendTargetNode {s s' : MarkState} (h : CoreEq s s') (li : Nat) :
    sendTargetNode s' li = sendTargetNode s li := by
  unfold sendTargetNode
  rw [coreEq_cj h li]
  cases (taskAt s li).cj with
  | none => rfl
  | some cjx => exact coreEq_cell_field h Cell.nodeID (fun _ => rfl) cjx

theorem coreEq_find_send_link {s s' : MarkState} (h : CoreEq s s')
    (links : List Nat) (node : Int) :
    find_send_link s' links node = find_send_link s links node := by
  unfold find_send_link
  have hp : (fun li => sendTargetNode s' li == node) =
      (fun li => sendTargetNode s li == node) := by
    funext li
    rw [coreEq_sendTargetNode h li]
  rw [hp]

theorem coreEq_rebuildCond {s s' : MarkState} (h : CoreEq s s') (e : MarkCtx)
    (a b : Nat) :
    rebuildCond e (cellAt s' a) (cellAt s' b) =
      rebuildCond e (cellAt s a) (cellAt s b) := by
  unfold rebuildCond
  rw [coreEq_cell_field h Cell.h_max (fun _ => rfl) a,
    coreEq_cell_field h Cell.h_max (fun _ => rfl) b,
    coreEq_cell_field h Cell.dx_max (fun _ => rfl) a,
    coreEq_cell_field h Cell.dx_max (fun _ => rfl) b,
    coreEq_cell_field h Cell.dmin (fun _ => rfl) b]

theorem coreEq_triggerOwn {s s' : MarkState} (h : CoreEq s s') (e : MarkCtx)
    (i : Nat) :
    triggerOwn e s' i = triggerOwn e s i := by
  simp only [triggerOwn]
  rw [coreEq_ttype h i, coreEq_ci h i, coreEq_cj h i, coreEq_active h e]
  cases (taskAt s i).cj with
  | none => rfl
  | some cjx => simp [coreEq_active h e]

theorem coreEq_WF {s s' : MarkState} (h : CoreEq s s') (hwf : WF s) : WF s' := by
  obtain ⟨hcell, hpair⟩ := hwf
  constructor
  · intro cx hcx
    have hcx' : cx < s.cells.length := by rw [← h.clen]; exact hcx
    have hc := hcell cx hcx'
    unfold cellWF at hc ⊢
    rw [coreEq_cell_field h Cell.sorts (fun _ => rfl) cx,
      coreEq_cell_field h Cell.recv_xv (fun _ => rfl) cx,
      coreEq_cell_field h Cell.recv_rho (fun _ => rfl) cx,
      coreEq_cell_field h Cell.recv_ti (fun _ => rfl) cx,
      coreEq_cell_field h Cell.send_xv (fun _ => rfl) cx,
      coreEq_cell_field h Cell.send_rho (fun _ => rfl) cx,
      coreEq_cell_field h Cell.send_ti (fun _ => rfl) cx,
      coreEq_cell_field h Cell.drift (fun _ => rfl) cx]
    obtain ⟨h1, h2, h3, h4, h5, h6, h7, h8⟩ := hc
    have conv : ∀ i ty, typeOkAt s i ty → typeOkAt s' i ty := by
      intro i ty hi hlen
      rw [coreEq_ttype h i]
      exact hi (by rw [← h.tlen]; exact hlen)
    exact ⟨conv _ _ h1, conv _ _ h2, conv _ _ h3, conv _ _ h4,
      fun li hli => conv _ _ (h5 li hli), fun li hli => conv _ _ (h6 li hli),
      fun li hli => conv _ _ (h7 li hli), fun di hdi => conv _ _ (h8 di hdi)⟩
  · intro i hi hty
    have hi' : i < s.tasks.length := by rw [← h.tlen]; exact hi
    rw [coreEq_ttype h i] at hty
    rw [coreEq_ci h i, coreEq_cj h i, h.clen]
    exact hpair i hi' hty

/-! ## StepOK for the composite mapper stages -/

theorem stepOK_mpi_send_rho_ti {e : MarkCtx} {st : MarkState} {fidx lidx : Nat}
    {st' : MarkState} (h : mpi_send_rho_ti e st fidx lidx = some st') :
    StepOK st st' := by
  unfold mpi_send_rho_ti at h
  split at h
  · split at h
    · exact absurd h (by simp)
    · split at h
      · exact absurd h (by simp)
      · obtain rfl := Option.some.inj h
        exact stepOK_trans (stepOK_activate st _) (stepOK_activate _ _)
  · obtain rfl := Option.some.inj h
    exact stepOK_rfl st

theorem stepOK_mpi_drift_part {e : MarkCtx} {st : MarkState} {fidx lidx : Nat}
    {st' : MarkState} (h : mpi_drift_part e st fidx lidx = some st') :
    StepOK st st' := by
  unfold mpi_drift_part at h
  split at h
  · exact absurd h (by simp)
  · exact stepOK_trans (stepOK_activate st _) (stepOK_mpi_send_rho_ti h)

theorem stepOK_mpi_send_xv_part {e : MarkCtx} {st : MarkState} {fidx lidx : Nat}
    {st' : MarkState} (h : mpi_send_xv_part e st fidx lidx = some st') :
    StepOK st st' := by
  unfold mpi_send_xv_part at h
  split at h
  · exact absurd h (by simp)
  · exact stepOK_trans (stepOK_activate st _) (stepOK_mpi_drift_part h)

theorem stepOK_activate_mpi_dir {e : MarkCtx} {st : MarkState} {fidx lidx : Nat}
    {st' : MarkState} (h : activate_mpi_dir e st fidx lidx = some st') :
    StepOK st st' := by
  simp only [activate_mpi_dir] at h
  split at h
  · exact stepOK_trans (stepOK_activate st _)
      (stepOK_trans (stepOK_activate _ _)
        (stepOK_trans (stepOK_activate _ _) (stepOK_mpi_send_xv_part h)))
  · exact stepOK_trans (stepOK_activate st _) (stepOK_mpi_send_xv_part h)

theorem stepOK_process_pair_active {e : MarkCtx} {st : MarkState} {t : Task}
    {cjx : Nat} {st' : MarkState} (h : process_pair_active e st t cjx = some st') :
    StepOK st st' := by
  simp only [process_pair_active] at h
  by_cases hd : t.subtype ≠ TaskSubtype.density
  · rw [if_pos hd] at h
    obtain rfl := Option.some.inj h
    exact stepOK_rfl st
  · rw [if_neg hd] at h
    by_cases hp : t.ttype = TaskType.pair
    · rw [if_pos hp] at h
      have h2 : StepOK st
          (activate_sorts (activate_sorts st t.ci (1 <<< t.flags)) cjx (1 <<< t.flags)) :=
        stepOK_trans (stepOK_activate_sorts st _ _) (stepOK_activate_sorts _ _ _)
      split at h
      · exact stepOK_trans h2 (stepOK_activate_mpi_dir h)
      · split at h
        · exact stepOK_trans h2 (stepOK_activate_mpi_dir h)
        · obtain rfl := Option.some.inj h
          exact h2
    · rw [if_neg hp] at h
      split at h
      · exact stepOK_activate_mpi_dir h
      · split at h
        · exact stepOK_activate_mpi_dir h
        · obtain rfl := Option.some.inj h
          exact stepOK_rfl st

theorem stepOK_process_pair {e : MarkCtx} {st0 : MarkState} {i : Nat} {t : Task}
    {cjx : Nat} {st' : MarkState} (h : process_pair e st0 i t cjx = some st') :
    StepOK st0 st' := by
  simp only [process_pair] at h
  by_cases hr : (t.tight && rebuildCond e (cellAt st0 t.ci) (cellAt st0 cjx)) = true
  · rw [if_pos hr] at h
    split at h
    · exact stepOK_trans (stepOK_set_rebuild st0)
        (stepOK_trans (stepOK_activate _ _) (stepOK_process_pair_active h))
    · obtain rfl := Option.some.inj h
      exact stepOK_set_rebuild st0
  · rw [if_neg hr] at h
    split at h
    · exact stepOK_trans (stepOK_activate _ _) (stepOK_process_pair_active h)
    · obtain rfl := Option.some.inj h
      exact stepOK_rfl st0

theorem stepOK_process_task {e : MarkCtx} {st : MarkState} {i : Nat}
    {st' : MarkState} (h : process_task e st i = some st') : StepOK st st' := by
  simp only [process_task] at h
  split at h
  · obtain rfl := Option.some.inj h
    split
    · exact stepOK_activate st i
    · exact stepOK_rfl st
  · split at h
    · split at h
      · exact stepOK_process_pair h
      · exact absurd h (by simp)
    · split at h
      · obtain rfl := Option.some.inj h
        split
        · exact stepOK_activate st i
        · exact stepOK_rfl st
      · split at h
        · obtain rfl := Option.some.inj h
          split
          · exact stepOK_trans (stepOK_reset st _) (stepOK_activate _ i)
          · exact stepOK_reset st _
        · split at h
          · obtain rfl := Option.some.inj h
            exact stepOK_activate st i
          · obtain rfl := Option.some.inj h
            exact stepOK_rfl st

theorem stepOK_run_tasks {e : MarkCtx} : ∀ {L : List Nat} {st st' : MarkState},
    run_tasks e st L = some st' → StepOK st st' := by
  intro L
  induction L with
  | nil =>
    intro st st' h
    obtain rfl := Option.some.inj h
    exact stepOK_rfl st
  | cons a rest ih =>
    intro st st' h
    unfold run_tasks at h
    split at h
    · exact absurd h (by simp)
    · next st1 hst1 =>
      exact stepOK_trans (stepOK_process_task hst1) (ih h)

/-! ## Clean tasks are untouched by side-effect activations -/

theorem taskAt_oob {st : MarkState} {i : Nat} (h : st.tasks.length ≤ i) :
    taskAt st i = dTask := by
  unfold taskAt
  rw [List.getD_eq_getElem?_getD, List.getElem?_eq_none (by simpa using h)]
  rfl

theorem cellAt_oob {st : MarkState} {i : Nat} (h : st.cells.length ≤ i) :
    cellAt st i = dCell := by
  unfold cellAt
  rw [List.getD_eq_getElem?_getD, List.getElem?_eq_none (by simpa using h)]
  rfl

theorem typeOkAt_core {s s' : MarkState} (h : CoreEq s s') {x : Nat}
    {ty : TaskType} (hx : typeOkAt s x ty) : typeOkAt s' x ty := by
  intro hlen
  rw [coreEq_ttype h x]
  exact hx (by rw [← h.tlen]; exact hlen)

theorem cleanTy_core {s s' : MarkState} (h : CoreEq s s') (j : Nat) :
    cleanTy (taskAt s' j).ttype = cleanTy (taskAt s j).ttype := by
  rw [coreEq_ttype h j]

theorem skipAt_activate_ne {st : MarkState} {i j : Nat} (h : j ≠ i) :
    skipAt (scheduler_activate st i) j = skipAt st j := by
  unfold skipAt
  rw [taskAt_activate, if_neg (by simp [h])]

theorem skipAt_activate_self {st : MarkState} {i : Nat} (h : i < st.tasks.length) :
    skipAt (scheduler_activate st i) i = false := by
  unfold skipAt
  rw [taskAt_activate, if_pos ⟨rfl, h⟩]

theorem skipAt_or_flags (st : MarkState) (i bits j : Nat) :
    skipAt (task_or_flags st i bits) j = skipAt st j := by
  unfold skipAt
  rw [taskAt_or_flags]
  split
  · next hc =>
    obtain ⟨hj, _⟩ := hc
    subst hj
    rfl
  · rfl

theorem skipAt_reset (st : MarkState) (c j : Nat) :
    skipAt (reset_counters st c) j = skipAt st j := rfl

theorem skipAt_activate_safe {st : MarkState} {x j : Nat} {ty : TaskType}
    (hx : typeOkAt st x ty) (hty : cleanTy ty = false)
    (hj : cleanTy (taskAt st j).ttype = true) :
    skipAt (scheduler_activate st x) j = skipAt st j := by
  by_cases hji : j = x
  · subst hji
    by_cases hlen : j < st.tasks.length
    · rw [hx hlen] at hj
      rw [hj] at hty
      exact absurd hty (by simp)
    · unfold skipAt
      rw [taskAt_activate, if_neg (by simp [hlen])]
  · exact skipAt_activate_ne hji

theorem untouched_mpi_send_rho_ti {e : MarkCtx} {st : MarkState}
    {fidx lidx : Nat} {st' : MarkState} {j : Nat} (hwf : WF st)
    (hll : lidx < st.cells.length)
    (h : mpi_send_rho_ti e st fidx lidx = some st')
    (hj : cleanTy (taskAt st j).ttype = true) :
    skipAt st' j = skipAt st j := by
  unfold mpi_send_rho_ti at h
  obtain ⟨hsorts, hrxv, hrrho, hrti, hsxv, hsrho, hsti, hdrift⟩ := hwf.1 lidx hll
  split at h
  · split at h
    · exact absurd h (by simp)
    · next lr hlr =>
      have hlrmem : lr ∈ (cellAt st lidx).send_rho :=
        List.mem_of_find?_eq_some hlr
      have hlrty : typeOkAt st lr TaskType.send := hsrho lr hlrmem
      split at h
      · exact absurd h (by simp)
      · next lt hlt =>
        obtain rfl := Option.some.inj h
        have hltmem : lt ∈ (cellAt st lidx).send_ti :=
          List.mem_of_find?_eq_some hlt
        have hltty : typeOkAt st lt TaskType.send := hsti lt hltmem
        have hcore1 := (stepOK_activate st lr).core
        rw [skipAt_activate_safe (typeOkAt_core hcore1 hltty) (by simp [cleanTy])
            ((cleanTy_core hcore1 j).trans hj)]
        exact skipAt_activate_safe hlrty (by simp [cleanTy]) hj
  · obtain rfl := Option.some.inj h
    rfl

theorem untouched_mpi_drift_part {e : MarkCtx} {st : MarkState}
    {fidx lidx : Nat} {st' : MarkState} {j : Nat} (hwf : WF st)
    (hll : lidx < st.cells.length)
    (h : mpi_drift_part e st fidx lidx = some st')
    (hj : cleanTy (taskAt st j).ttype = true) :
    skipAt st' j = skipAt st j := by
  unfold mpi_drift_part at h
  split at h
  · exact absurd h (by simp)
  · next di hdi =>
    by_cases hsup : (cellAt st lidx).super < st.cells.length
    · have hdity : typeOkAt st di TaskType.drift :=
        (hwf.1 _ hsup).2.2.2.2.2.2.2 di (Option.mem_def.mpr hdi)
      have hcore1 := (stepOK_activate st di).core
      have := untouched_mpi_send_rho_ti (coreEq_WF hcore1 hwf)
        (by rw [hcore1.clen]; exact hll) h ((cleanTy_core hcore1 j).trans hj)
      rw [this]
      exact skipAt_activate_safe hdity (by simp [cleanTy]) hj
    · rw [cellAt_oob (Nat.le_of_not_lt hsup)] at hdi
      exact absurd hdi (by simp [dCell])

theorem untouched_mpi_send_xv_part {e : MarkCtx} {st : MarkState}
    {fidx lidx : Nat} {st' : MarkState} {j : Nat} (hwf : WF st)
    (hll : lidx < st.cells.length)
    (h : mpi_send_xv_part e st fidx lidx = some st')
    (hj : cleanTy (taskAt st j).ttype = true) :
    skipAt st' j = skipAt st j := by
  unfold mpi_send_xv_part at h
  split at h
  · exact absurd h (by simp)
  · next li hli =>
    have hlimem : li ∈ (cellAt st lidx).send_xv :=
      List.mem_of_find?_eq_some hli
    have hlity : typeOkAt st li TaskType.send :=
      (hwf.1 lidx hll).2.2.2.2.1 li hlimem
    have hcore1 := (stepOK_activate st li).core
    have := untouched_mpi_drift_part (coreEq_WF hcore1 hwf)
      (by rw [hcore1.clen]; exact hll) h ((cleanTy_core hcore1 j).trans hj)
    rw [this]
    exact skipAt_activate_safe hlity (by simp [cleanTy]) hj

theorem untouched_activate_mpi_dir {e : MarkCtx} {st : MarkState}
    {fidx lidx : Nat} {st' : MarkState} {j : Nat} (hwf : WF st)
    (hfl : fidx < st.cells.length) (hll : lidx < st.cells.length)
    (h : activate_mpi_dir e st fidx lidx = some st')
    (hj : cleanTy (taskAt st j).ttype = true) :
    skipAt st' j = skipAt st j := by
  simp only [activate_mpi_dir, cellAt_activate] at h
  have hfwf := hwf.1 fidx hfl
  have hcore1 := (stepOK_activate st (cellAt st fidx).recv_xv).core
  split at h
  · have hcore2 : CoreEq st
        (scheduler_activate (scheduler_activate st (cellAt st fidx).recv_xv)
          (cellAt st fidx).recv_rho) :=
      coreEq_trans hcore1 (stepOK_activate _ _).core
    have hcore3 : CoreEq st
        (scheduler_activate
          (scheduler_activate (scheduler_activate st (cellAt st fidx).recv_xv)
            (cellAt st fidx).recv_rho) (cellAt st fidx).recv_ti) :=
      coreEq_trans hcore2 (stepOK_activate _ _).core
    have := untouched_mpi_send_xv_part (coreEq_WF hcore3 hwf)
      (by rw [hcore3.clen]; exact hll) h ((cleanTy_core hcore3 j).trans hj)
    rw [this]
    rw [skipAt_activate_safe (typeOkAt_core hcore2 hfwf.2.2.2.1) (by simp [cleanTy])
      ((cleanTy_core hcore2 j).trans hj)]
    rw [skipAt_activate_safe (typeOkAt_core hcore1 hfwf.2.2.1) (by simp [cleanTy])
      ((cleanTy_core hcore1 j).trans hj)]
    exact skipAt_activate_safe hfwf.2.1 (by simp [cleanTy]) hj
  · have := untouched_mpi_send_xv_part (coreEq_WF hcore1 hwf)
      (by rw [hcore1.clen]; exact hll) h ((cleanTy_core hcore1 j).trans hj)
    rw [this]
    exact skipAt_activate_safe hfwf.2.1 (by simp [cleanTy]) hj

theorem untouched_activate_sorts {st : MarkState} {cidx : Nat} (bit : Nat)
    {j : Nat} (hwf : WF st) (hcx : cidx < st.cells.length)
    (hj : cleanTy (taskAt st j).ttype = true) :
    skipAt (activate_sorts st cidx bit) j = skipAt st j := by
  simp only [activate_sorts]
  split
  · have hsty : typeOkAt st (cellAt st cidx).sorts TaskType.sort :=
      (hwf.1 cidx hcx).1
    have hcore1 := (stepOK_or_flags st (cellAt st cidx).sorts bit).core
    rw [skipAt_activate_safe (typeOkAt_core hcore1 hsty) (by simp [cleanTy])
      ((cleanTy_core hcore1 j).trans hj)]
    exact skipAt_or_flags st _ bit j
  · rfl

@[simp] theorem cellAt_activate_sorts (st : MarkState) (c b x : Nat) :
    cellAt (activate_sorts st c b) x = cellAt st x := by
  simp only [activate_sorts]
  split
  · rfl
  · rfl

@[simp] theorem active_set_rebuild (e : MarkCtx) (st : MarkState) (c : Nat) :
    cell_is_active e { st with rebuild := true } c = cell_is_active e st c := rfl

theorem skipAt_set_rebuild (st : MarkState) (j : Nat) :
    skipAt { st with rebuild := true } j = skipAt st j := rfl

theorem untouched_process_pair_active {e : MarkCtx} {st : MarkState} {t : Task}
    {cjx : Nat} {st' : MarkState} {j : Nat} (hwf : WF st)
    (hci : t.ci < st.cells.length) (hcj : cjx < st.cells.length)
    (h : process_pair_active e st t cjx = some st')
    (hj : cleanTy (taskAt st j).ttype = true) :
    skipAt st' j = skipAt st j := by
  simp only [process_pair_active, cellAt_activate_sorts] at h
  by_cases hd : t.subtype ≠ TaskSubtype.density
  · rw [if_pos hd] at h
    obtain rfl := Option.some.inj h
    rfl
  · rw [if_neg hd] at h
    by_cases hp : t.ttype = TaskType.pair
    · rw [if_pos hp] at h
      have hso1 := (stepOK_activate_sorts st t.ci (1 <<< t.flags)).core
      have hso2 : CoreEq st
          (activate_sorts (activate_sorts st t.ci (1 <<< t.flags)) cjx (1 <<< t.flags)) :=
        coreEq_trans hso1 (stepOK_activate_sorts _ _ _).core
      have heq2 : skipAt
          (activate_sorts (activate_sorts st t.ci (1 <<< t.flags)) cjx (1 <<< t.flags)) j =
          skipAt st j := by
        rw [untouched_activate_sorts _ (coreEq_WF hso1 hwf)
          (by rw [hso1.clen]; exact hcj) ((cleanTy_core hso1 j).trans hj)]
        exact untouched_activate_sorts _ hwf hci hj
      split at h
      · rw [untouched_activate_mpi_dir (coreEq_WF hso2 hwf)
          (by rw [hso2.clen]; exact hci) (by rw [hso2.clen]; exact hcj) h
          ((cleanTy_core hso2 j).trans hj)]
        exact heq2
      · split at h
        · rw [untouched_activate_mpi_dir (coreEq_WF hso2 hwf)
            (by rw [hso2.clen]; exact hcj) (by rw [hso2.clen]; exact hci) h
            ((cleanTy_core hso2 j).trans hj)]
          exact heq2
        · obtain rfl := Option.some.inj h
          exact heq2
    · rw [if_neg hp] at h
      split at h
      · exact untouched_activate_mpi_dir hwf hci hcj h hj
      · split at h
        · exact untouched_activate_mpi_dir hwf hcj hci h hj
        · obtain rfl := Option.some.inj h
          rfl

theorem untouched_single_branch {e : MarkCtx} {st : MarkState} {i : Nat}
    (j : Nat) (hsk : singleKind (taskAt st i).ttype = true)
    (hilen : i < st.tasks.length) :
    skipAt (if cell_is_active e st (taskAt st i).ci = true then
      scheduler_activate st i else st) j =
      if j = i ∧ triggerOwn e st i = true then false else skipAt st j := by
  by_cases hact : cell_is_active e st (taskAt st i).ci = true
  · have htr : triggerOwn e st i = true := by
      simp [triggerOwn, hsk, hact]
    rw [if_pos hact]
    by_cases hji : j = i
    · subst hji
      rw [if_pos ⟨rfl, htr⟩]
      exact skipAt_activate_self hilen
    · rw [if_neg (by simp [hji])]
      exact skipAt_activate_ne hji
  · rw [if_neg hact, if_neg (by
      intro hcon
      obtain ⟨hji, htr⟩ := hcon
      rw [triggerOwn] at htr
      simp only [hsk, if_pos] at htr
      exact hact htr)]

theorem process_untouched {e : MarkCtx} {st : MarkState} {i : Nat}
    {st' : MarkState} {j : Nat} (hwf : WF st)
    (h : process_task e st i = some st')
    (hj : cleanTy (taskAt st j).ttype = true) :
    skipAt st' j =
      if j = i ∧ triggerOwn e st i = true then false else skipAt st j := by
  have hlen : TaskType.sort ≠ (taskAt st i).ttype → i < st.tasks.length := by
    intro hne
    by_contra hge
    rw [taskAt_oob (Nat.le_of_not_lt hge)] at hne
    exact hne rfl
  simp only [process_task] at h
  split at h
  · next hc =>
    obtain rfl := Option.some.inj h
    have hsk : singleKind (taskAt st i).ttype = true := by
      rcases hc with h1 | h1 | h1 | h1 | h1 | h1 <;> rw [h1] <;> rfl
    have hilen : i < st.tasks.length := by
      apply hlen
      rcases hc with h1 | h1 | h1 | h1 | h1 | h1 <;> rw [h1] <;> simp
    exact untouched_single_branch j hsk hilen
  · split at h
    · next hc =>
      split at h
      case _ cjx hcj =>
        have hilen : i < st.tasks.length := by
          apply hlen
          rcases hc with h1 | h1 <;> rw [h1] <;> simp
        obtain ⟨hcil, hcjl⟩ := hwf.2 i hilen hc
        have hcjxl : cjx < st.cells.length := hcjl cjx (Option.mem_def.mpr hcj)
        simp only [process_pair] at h
        have hmain : ∀ sr : MarkState, sr.cells = st.cells → sr.tasks = st.tasks →
            (if (cell_is_active e sr (taskAt st i).ci ||
                cell_is_active e sr cjx) = true then
              process_pair_active e (scheduler_activate sr i) (taskAt st i) cjx
            else some sr) = some st' →
            skipAt st' j =
              if j = i ∧ triggerOwn e st i = true then false else skipAt st j := by
          intro sr hcells htasks hh
          have hskips : skipAt sr j = skipAt st j := by
            unfold skipAt taskAt
            rw [htasks]
          have hsreq : ∀ c, cell_is_active e sr c = cell_is_active e st c := by
            intro c
            unfold cell_is_active cellAt
            rw [hcells]
          have hcore : CoreEq st sr := by
            refine ⟨by rw [htasks], by rw [hcells], ?_, ?_⟩
            · intro jx
              unfold taskAt
              rw [htasks]
            · intro jx
              unfold cellAt
              rw [hcells]
          rw [hsreq, hsreq] at hh
          have htrdef : triggerOwn e st i =
              (cell_is_active e st (taskAt st i).ci || cell_is_active e st cjx) := by
            have hpk : pairKind (taskAt st i).ttype = true := by
              rcases hc with h1 | h1 <;> rw [h1] <;> rfl
            have hsk : singleKind (taskAt st i).ttype = false := by
              rcases hc with h1 | h1 <;> rw [h1] <;> rfl
            simp [triggerOwn, hpk, hsk, hcj]
          by_cases hact : (cell_is_active e st (taskAt st i).ci ||
              cell_is_active e st cjx) = true
          · rw [if_pos hact] at hh
            have hcore2 : CoreEq st (scheduler_activate sr i) :=
              coreEq_trans hcore (stepOK_activate sr i).core
            have := untouched_process_pair_active (coreEq_WF hcore2 hwf)
              (by rw [hcore2.clen]; exact hcil) (by rw [hcore2.clen]; exact hcjxl)
              hh ((cleanTy_core hcore2 j).trans hj)
            rw [this]
            have htr : triggerOwn e st i = true := htrdef.trans hact
            by_cases hji : j = i
            · subst hji
              rw [if_pos ⟨rfl, htr⟩]
              apply skipAt_activate_self
              rw [htasks]
              exact hilen
            · rw [if_neg (by simp [hji]), skipAt_activate_ne hji]
              exact hskips
          · rw [if_neg hact] at hh
            obtain rfl := Option.some.inj hh
            rw [hskips, if_neg]
            intro hcon
            exact hact (htrdef ▸ hcon.2)
        split at h
        · exact hmain { st with rebuild := true } rfl rfl h
        · exact hmain st rfl rfl h
      case _ hcj =>
        exact absurd h (by simp)
    · split at h
      · next hc =>
        obtain rfl := Option.some.inj h
        have hsk : singleKind (taskAt st i).ttype = true := by
          rcases hc with h1 | h1 | h1 | h1 <;> rw [h1] <;> rfl
        have hilen : i < st.tasks.length := by
          apply hlen
          rcases hc with h1 | h1 | h1 | h1 <;> rw [h1] <;> simp
        exact untouched_single_branch j hsk hilen
      · split at h
        · next hc =>
          obtain rfl := Option.some.inj h
          have hstep := stepOK_reset st (taskAt st i).ci
          have hsk : singleKind (taskAt st i).ttype = true := by
            rw [hc]
            rfl
          have hilen : i < st.tasks.length := by
            apply hlen
            rw [hc]
            simp
          have hsk1 : singleKind (taskAt (reset_counters st (taskAt st i).ci) i).ttype = true := by
            rw [coreEq_ttype hstep.core i]
            exact hsk
          have hilen1 : i < (reset_counters st (taskAt st i).ci).tasks.length := by
            rw [hstep.core.tlen]
            exact hilen
          have hres := @untouched_single_branch e
            (reset_counters st (taskAt st i).ci) i j hsk1 hilen1
          rw [coreEq_triggerOwn hstep.core e i] at hres
          have hci1 : (taskAt (reset_counters st (taskAt st i).ci) i).ci =
              (taskAt st i).ci := rfl
          rw [hci1] at hres
          rw [hres]
          rfl
        · split at h
          · next hc =>
            obtain rfl := Option.some.inj h
            have hji : j ≠ i := by
              intro hcon
              subst hcon
              rcases hc with h1 | h1 <;> rw [h1] at hj <;>
                exact absurd hj (by simp [cleanTy])
            rw [skipAt_activate_ne hji, if_neg]
            intro hcon
            exact hji hcon.1
          · next hc1 hc2 hc3 hc4 hc5 =>
            obtain rfl := Option.some.inj h
            rw [if_neg]
            intro hcon
            obtain ⟨hji, htr⟩ := hcon
            rw [triggerOwn] at htr
            have hsk : singleKind (taskAt st i).ttype = false := by
              cases hty : (taskAt st i).ttype <;> rw [hty] at hc1 hc2 hc3 hc4 hc5 <;>
                simp_all [singleKind]
            have hpk : pairKind (taskAt st i).ttype = false := by
              cases hty : (taskAt st i).ttype <;> rw [hty] at hc1 hc2 hc3 hc4 hc5 <;>
                simp_all [pairKind]
            simp only [hsk, hpk] at htr
            simp at htr

/-! ## Run-level characterisation of the activation pass -/

theorem run_clean_char {e : MarkCtx} : ∀ {L : List Nat} {st st' : MarkState},
    WF st → run_tasks e st L = some st' →
    ∀ j, cleanTy (taskAt st j).ttype = true →
    (skipAt st' j = false ↔
      (skipAt st j = false ∨ (j ∈ L ∧ triggerOwn e st j = true))) := by
  intro L
  induction L with
  | nil =>
    intro st st' hwf h j hj
    obtain rfl := Option.some.inj h
    simp
  | cons a rest ih =>
    intro st st' hwf h j hj
    unfold run_tasks at h
    split at h
    · exact absurd h (by simp)
    · next s1 hs1 =>
      have hcore1 := (stepOK_process_task hs1).core
      have hstep := process_untouched hwf hs1 hj
      have hIH := ih (coreEq_WF hcore1 hwf) h j ((cleanTy_core hcore1 j).trans hj)
      rw [coreEq_triggerOwn hcore1 e j] at hIH
      by_cases hcase : j = a ∧ triggerOwn e st a = true
      · rw [if_pos hcase] at hstep
        rw [hIH, hstep]
        obtain ⟨rfl, htr⟩ := hcase
        simp [htr]
      · rw [if_neg hcase] at hstep
        rw [hIH, hstep]
        constructor
        · rintro (hs | ⟨hmem, htr⟩)
          · exact Or.inl hs
          · exact Or.inr ⟨List.mem_cons_of_mem a hmem, htr⟩
        · rintro (hs | ⟨hmem, htr⟩)
          · exact Or.inl hs
          · rcases List.mem_cons.mp hmem with rfl | hmem2
            · exact absurd ⟨rfl, htr⟩ hcase
            · exact Or.inr ⟨hmem2, htr⟩

theorem run_always_on {e : MarkCtx} : ∀ {L : List Nat} {st st' : MarkState},
    run_tasks e st L = some st' →
    ∀ j ∈ L, j < st.tasks.length →
    ((taskAt st j).ttype = TaskType.grav_gather_m ∨
      (taskAt st j).ttype = TaskType.grav_fft) →
    skipAt st' j = false := by
  intro L
  induction L with
  | nil =>
    intro st st' h j hmem
    exact absurd hmem (by simp)
  | cons a rest ih =>
    intro st st' h j hmem hjlen hty
    unfold run_tasks at h
    split at h
    · exact absurd h (by simp)
    · next s1 hs1 =>
      have hcore1 := (stepOK_process_task hs1).core
      rcases List.mem_cons.mp hmem with rfl | hmem2
      · have hskip1 : skipAt s1 j = false := by
          rcases hty with h1 | h1 <;>
          · simp only [process_task, h1] at hs1
            simp at hs1
            obtain rfl := hs1.symm
            exact skipAt_activate_self hjlen
        exact (stepOK_run_tasks h).skipm j hskip1
      · exact ih h j hmem2 (by rw [hcore1.tlen]; exact hjlen)
          (by rw [coreEq_ttype hcore1 j]; exact hty)

/-! ## The rebuild flag: exact characterisation -/

theorem coreEq_pairRebuildTrig {s s' : MarkState} (h : CoreEq s s') (e : MarkCtx)
    (i : Nat) : pairRebuildTrig e s' i = pairRebuildTrig e s i := by
  simp only [pairRebuildTrig]
  rw [coreEq_ttype h i, coreEq_tight h i, coreEq_cj h i, coreEq_ci h i]
  cases (taskAt s i).cj with
  | none => rfl
  | some cjx => simp [coreEq_rebuildCond h e]

theorem rebuild_activate (st : MarkState) (i : Nat) :
    (scheduler_activate st i).rebuild = st.rebuild := rfl

theorem rebuild_reset (st : MarkState) (c : Nat) :
    (reset_counters st c).rebuild = st.rebuild := rfl

theorem rebuild_or_flags (st : MarkState) (i b : Nat) :
    (task_or_flags st i b).rebuild = st.rebuild := rfl

theorem rebuild_activate_sorts (st : MarkState) (c b : Nat) :
    (activate_sorts st c b).rebuild = st.rebuild := by
  simp only [activate_sorts]
  split
  · rfl
  · rfl

theorem rebuild_mpi_send_rho_ti {e : MarkCtx} {st : MarkState} {f l : Nat}
    {st' : MarkState} (h : mpi_send_rho_ti e st f l = some st') :
    st'.rebuild = st.rebuild := by
  unfold mpi_send_rho_ti at h
  split at h
  · split at h
    · exact absurd h (by simp)
    · split at h
      · exact absurd h (by simp)
      · obtain rfl := Option.some.inj h
        rfl
  · obtain rfl := Option.some.inj h
    rfl

theorem rebuild_mpi_drift_part {e : MarkCtx} {st : MarkState} {f l : Nat}
    {st' : MarkState} (h : mpi_drift_part e st f l = some st') :
    st'.rebuild = st.rebuild := by
  unfold mpi_drift_part at h
  split at h
  · exact absurd h (by simp)
  · rw [rebuild_mpi_send_rho_ti h]
    rfl

theorem rebuild_mpi_send_xv_part {e : MarkCtx} {st : MarkState} {f l : Nat}
    {st' : MarkState} (h : mpi_send_xv_part e st f l = some st') :
    st'.rebuild = st.rebuild := by
  unfold mpi_send_xv_part at h
  split at h
  · exact absurd h (by simp)
  · rw [rebuild_mpi_drift_part h]
    rfl

theorem rebuild_activate_mpi_dir {e : MarkCtx} {st : MarkState} {f l : Nat}
    {st' : MarkState} (h : activate_mpi_dir e st f l = some st') :
    st'.rebuild = st.rebuild := by
  simp only [activate_mpi_dir] at h
  split at h
  · rw [rebuild_mpi_send_xv_part h]
    rfl
  · rw [rebuild_mpi_send_xv_part h]
    rfl

theorem rebuild_process_pair_active {e : MarkCtx} {st : MarkState} {t : Task}
    {cjx : Nat} {st' : MarkState} (h : process_pair_active e st t cjx = some st') :
    st'.rebuild = st.rebuild := by
  simp only [process_pair_active] at h
  by_cases hd : t.subtype ≠ TaskSubtype.density
  · rw [if_pos hd] at h
    obtain rfl := Option.some.inj h
    rfl
  · rw [if_neg hd] at h
    by_cases hp : t.ttype = TaskType.pair
    · rw [if_pos hp] at h
      split at h
      · rw [rebuild_activate_mpi_dir h, rebuild_activate_sorts, rebuild_activate_sorts]
      · split at h
        · rw [rebuild_activate_mpi_dir h, rebuild_activate_sorts, rebuild_activate_sorts]
        · obtain rfl := Option.some.inj h
          rw [rebuild_activate_sorts, rebuild_activate_sorts]
    · rw [if_neg hp] at h
      split at h
      · exact rebuild_activate_mpi_dir h
      · split at h
        · exact rebuild_activate_mpi_dir h
        · obtain rfl := Option.some.inj h
          rfl

theorem process_rebuild_char {e : MarkCtx} {st : MarkState} {i : Nat}
    {st' : MarkState} (h : process_task e st i = some st') :
    (st'.rebuild = true ↔
      (st.rebuild = true ∨ pairRebuildTrig e st i = true)) := by
  simp only [process_task] at h
  split at h
  · next hc =>
    obtain rfl := Option.some.inj h
    have hpk : pairKind (taskAt st i).ttype = false := by
      rcases hc with h1 | h1 | h1 | h1 | h1 | h1 <;> rw [h1] <;> rfl
    simp only [pairRebuildTrig, hpk]
    split <;> simp [rebuild_activate]
  · split at h
    · next hc =>
      split at h
      case _ cjx hcj =>
        have hpk : pairKind (taskAt st i).ttype = true := by
          rcases hc with h1 | h1 <;> rw [h1] <;> rfl
        simp only [process_pair] at h
        have htrig : pairRebuildTrig e st i =
            ((taskAt st i).tight &&
              rebuildCond e (cellAt st (taskAt st i).ci) (cellAt st cjx)) := by
          simp [pairRebuildTrig, hpk, hcj]
        have hmain : ∀ sr : MarkState,
            (if (cell_is_active e sr (taskAt st i).ci ||
                cell_is_active e sr cjx) = true then
              process_pair_active e (scheduler_activate sr i) (taskAt st i) cjx
            else some sr) = some st' →
            st'.rebuild = sr.rebuild := by
          intro sr hh
          split at hh
          · rw [rebuild_process_pair_active hh]
            rfl
          · obtain rfl := Option.some.inj hh
            rfl
        split at h
        · next hcond =>
          have hfin : st'.rebuild = true := hmain { st with rebuild := true } h
          rw [hfin, htrig, hcond]
          simp
        · next hcond =>
          have hfin : st'.rebuild = st.rebuild := hmain st h
          simp only [Bool.not_eq_true] at hcond
          rw [hfin, htrig, hcond]
          simp
      case _ hcj =>
        exact absurd h (by simp)
    · split at h
      · next hc =>
        obtain rfl := Option.some.inj h
        have hpk : pairKind (taskAt st i).ttype = false := by
          rcases hc with h1 | h1 | h1 | h1 <;> rw [h1] <;> rfl
        simp only [pairRebuildTrig, hpk]
        split <;> simp [rebuild_activate]
      · split at h
        · next hc =>
          obtain rfl := Option.some.inj h
          have hpk : pairKind (taskAt st i).ttype = false := by
            rw [hc]
            rfl
          simp only [pairRebuildTrig, hpk]
          split <;> simp [rebuild_activate, rebuild_reset]
        · split at h
          · next hc =>
            obtain rfl := Option.some.inj h
            have hpk : pairKind (taskAt st i).ttype = false := by
              rcases hc with h1 | h1 <;> rw [h1] <;> rfl
            simp only [pairRebuildTrig, hpk]
            simp [rebuild_activate]
          · obtain rfl := Option.some.inj h
            next hc1 hc2 hc3 hc4 hc5 =>
            have hpk : pairKind (taskAt st i).ttype = false := by
              cases hty : (taskAt st i).ttype <;> rw [hty] at hc2 <;>
                simp_all [pairKind]
            simp only [pairRebuildTrig, hpk]
            simp

theorem run_rebuild_char {e : MarkCtx} : ∀ {L : List Nat} {st st' : MarkState},
    run_tasks e st L = some st' →
    (st'.rebuild = true ↔
      (st.rebuild = true ∨ ∃ i ∈ L, pairRebuildTrig e st i = true)) := by
  intro L
  induction L with
  | nil =>
    intro st st' h
    obtain rfl := Option.some.inj h
    simp
  | cons a rest ih =>
    intro st st' h
    unfold run_tasks at h
    split at h
    · exact absurd h (by simp)
    · next s1 hs1 =>
      have hcore1 := (stepOK_process_task hs1).core
      have hstep := process_rebuild_char hs1
      have hIH := ih h
      have htr : ∀ i, pairRebuildTrig e s1 i = pairRebuildTrig e st i :=
        fun i => coreEq_pairRebuildTrig hcore1 e i
      rw [hstep] at hIH
      rw [hIH]
      constructor
      · rintro ((hreb | htrig) | ⟨i, hmem, htrig⟩)
        · exact Or.inl hreb
        · exact Or.inr ⟨a, by simp, htrig⟩
        · exact Or.inr ⟨i, List.mem_cons_of_mem a hmem, (htr i).symm.trans htrig⟩
      · rintro (hreb | ⟨i, hmem, htrig⟩)
        · exact Or.inl (Or.inl hreb)
        · rcases List.mem_cons.mp hmem with rfl | hmem2
          · exact Or.inl (Or.inr htrig)
          · exact Or.inr ⟨i, hmem2, (htr i).trans htrig⟩

/-! ## Claims C1 and C2 -/

theorem cmax_eq_max (a b : ℚ) : cmax a b = max a b := by
  unfold cmax
  rcases le_or_lt a b with h | h
  · rw [if_neg (not_lt.mpr h), max_eq_right h]
  · rw [if_pos h, max_eq_left h.le]

theorem singleKind_pairKind_false {ty : TaskType} (h : singleKind ty = true) :
    pairKind ty = false := by
  cases ty <;> simp_all [singleKind, pairKind]

theorem triggerOwn_iff_spec (e : MarkCtx) (st : MarkState) (j : Nat) :
    triggerOwn e st j = true ↔ triggerSpec e st j := by
  simp only [triggerOwn, triggerSpec]
  by_cases hsk : singleKind (taskAt st j).ttype = true
  · have hpk := singleKind_pairKind_false hsk
    simp [hsk, hpk]
  · rw [Bool.not_eq_true] at hsk
    simp only [hsk, Bool.false_eq_true, if_false, false_and, false_or]
    by_cases hpk : pairKind (taskAt st j).ttype = true
    · simp only [hpk, if_pos, true_and]
      cases hcj : (taskAt st j).cj with
      | none => simp
      | some cjx =>
        simp only [Option.some.injEq]
        constructor
        · intro hor
          rcases Bool.or_eq_true_iff.mp hor with h1 | h1
          · exact ⟨cjx, rfl, Or.inl h1⟩
          · exact ⟨cjx, rfl, Or.inr h1⟩
        · rintro ⟨cjx2, rfl, h1 | h1⟩
          · exact Bool.or_eq_true_iff.mpr (Or.inl h1)
          · exact Bool.or_eq_true_iff.mpr (Or.inr h1)
    · simp [hpk]

theorem skip_init {tasks : List Task} (cells : List Cell)
    (hskip : ∀ t ∈ tasks, t.skip = true) {j : Nat} (hj : j < tasks.length) :
    skipAt (initState tasks cells) j = true := by
  unfold skipAt taskAt initState
  simp only []
  rw [List.getD_eq_getElem?_getD, List.getElem?_eq_getElem hj]
  exact hskip _ (List.getElem_mem hj)

/-- C1 (amended).  In the `engine_marktasks` pass (all tasks initially
skipped), a task whose type is not one of the side-effect targets (sort,
send, recv, drift) and not one of the two parameterless gravity tasks is
activated if and only if it is a single-cell task on an active cell or a
pair task with at least one active participating cell; the `grav_gather_m`
and `grav_fft` tasks are always activated.  (The claim's unqualified "if and
only if" fails for the always-activated gravity tasks and for the
side-effect activations of sort/send/recv/drift tasks; those side effects
are the subject of claim C5.)  Well-formedness: cells' task pointers carry
the matching task types and pair tasks reference in-range cells. -/
theorem C1_marktasks_activation (e : MarkCtx) (tasks : List Task)
    (cells : List Cell) (st' : MarkState)
    (hwf : WF (initState tasks cells))
    (hskip : ∀ t ∈ tasks, t.skip = true)
    (hrun : engine_marktasks e tasks cells = some st') :
    (∀ j, j < tasks.length →
      cleanTy (taskAt (initState tasks cells) j).ttype = true →
      (skipAt st' j = false ↔ triggerSpec e (initState tasks cells) j)) ∧
    (∀ j, j < tasks.length →
      ((taskAt (initState tasks cells) j).ttype = TaskType.grav_gather_m ∨
        (taskAt (initState tasks cells) j).ttype = TaskType.grav_fft) →
      skipAt st' j = false) := by
  have hrun' : run_tasks e (initState tasks cells) (List.range tasks.length) =
      some st' := hrun
  constructor
  · intro j hj hclean
    have h1 := run_clean_char hwf hrun' j hclean
    have h2 : skipAt (initState tasks cells) j = true := skip_init cells hskip hj
    rw [h1, h2]
    simp only [Bool.true_eq_false, false_or, List.mem_range]
    rw [triggerOwn_iff_spec]
    simp [hj]
  · intro j hj hty
    exact run_always_on hrun' j (List.mem_range.mpr hj) hj hty

/-- C1 as literally stated is false: a `grav_fft` task is activated by the
pass although it is neither a single-cell task on an active cell nor a pair
task (concrete input: one `grav_fft` task, no cells). -/
theorem C1_counterexample : ¬ c1OrigClaim := by
  intro hcl
  have h0 := hcl exCtx [exGravFft] [] exC1CexSt
      (by decide) (by with_unfolding_all rfl) 0 (by decide)
  have hfalse := h0.mp (by decide)
  rcases hfalse with ⟨hsk, _⟩ | ⟨hpk, _⟩
  · exact absurd hsk (by decide)
  · exact absurd hpk (by decide)

/-- Witness for C1: a self-density task on an active cell is activated. -/
theorem C1_marktasks_activation_witness : skipAt exC1WitSt 0 = false := by
  have h := (C1_marktasks_activation exCtx [exSelfTask] [exWfCell] exC1WitSt
      (by unfold WF cellWF typeOkAt; decide) (by decide)
      (by with_unfolding_all rfl)).1 0 (by decide) (by decide)
  exact h.mpr (Or.inl ⟨by decide, by decide⟩)

/-- C2 (amended).  The pass reports a rebuild (nonzero return of
`engine_marktasks`) iff some pair or sub-pair task carrying the `tight`
creation flag has cells exceeding the displacement tolerance
`max(ci.h_max, cj.h_max) + ci.dx_max + cj.dx_max > cj.dmin ∨
ci.dx_max > space_maxreldx·ci.h_max ∨ cj.dx_max > space_maxreldx·cj.h_max`.
(The claim omits the `tight` qualification: non-tight pair tasks — the
force and gradient pair duplicates created by
`engine_make_extra_hydroloop_tasks` with a trailing 0 — never trigger a
rebuild; density and gravity pairs are created tight.) -/
theorem C2_rebuild_flag (e : MarkCtx) (tasks : List Task) (cells : List Cell)
    (st' : MarkState) (hrun : engine_marktasks e tasks cells = some st') :
    (st'.rebuild = true ↔
      ∃ i, i < tasks.length ∧
        pairKind (taskAt (initState tasks cells) i).ttype = true ∧
        (taskAt (initState tasks cells) i).tight = true ∧
        ∃ cjx, (taskAt (initState tasks cells) i).cj = some cjx ∧
          rebuildCond e
            (cellAt (initState tasks cells) (taskAt (initState tasks cells) i).ci)
            (cellAt (initState tasks cells) cjx) = true) := by
  have hrun' : run_tasks e (initState tasks cells) (List.range tasks.length) =
      some st' := hrun
  rw [run_rebuild_char hrun']
  have hreb0 : (initState tasks cells).rebuild = false := rfl
  rw [hreb0]
  simp only [Bool.false_eq_true, false_or]
  constructor
  · rintro ⟨i, hmem, htrig⟩
    refine ⟨i, List.mem_range.mp hmem, ?_⟩
    revert htrig
    simp only [pairRebuildTrig, Bool.and_eq_true]
    rintro ⟨⟨hpk, htight⟩, hcond⟩
    refine ⟨hpk, htight, ?_⟩
    cases hcj : (taskAt (initState tasks cells) i).cj with
    | none =>
      rw [hcj] at hcond
      simp at hcond
    | some cjx =>
      rw [hcj] at hcond
      exact ⟨cjx, rfl, hcond⟩
  · rintro ⟨i, hi, hpk, htight, cjx, hcj, hcond⟩
    exact ⟨i, List.mem_range.mpr hi,
      by simp [pairRebuildTrig, hpk, htight, hcj, hcond]⟩

/-- C2 as literally stated is false: a pair task without the `tight` flag
whose cells exceed the displacement tolerance does not set the rebuild flag
(concrete input: one non-tight pair-density task on two inactive cells with
`h_max = 1 > dmin = 0`). -/
theorem C2_counterexample : ¬ c2OrigClaim := by
  intro hcl
  have h0 := hcl exCtx [exPairLoose] [exCellQuiet, exCellQuiet]
      (initState [exPairLoose] [exCellQuiet, exCellQuiet])
      (by with_unfolding_all rfl)
  have hcond : rebuildCond exCtx exCellQuiet exCellQuiet = true := by
    simp only [rebuildCond, cmax, exCellQuiet, dCell, exCtx]
    norm_num
  have hreb := h0.mpr ⟨0, by decide, by decide, 1, by decide, by
    have : cellAt (initState [exPairLoose] [exCellQuiet, exCellQuiet])
        (taskAt (initState [exPairLoose] [exCellQuiet, exCellQuiet]) 0).ci =
        exCellQuiet := by decide
    have h2 : cellAt (initState [exPairLoose] [exCellQuiet, exCellQuiet]) 1 =
        exCellQuiet := by decide
    rw [this, h2]
    exact hcond⟩
  exact absurd hreb (by decide)

/-- Witness for C2: a tight pair-density task over cells violating the
tolerance makes the pass report a rebuild. -/
theorem C2_rebuild_flag_witness : exC2WitSt.rebuild = true := by
  have h := C2_rebuild_flag exCtx [exPairTight] [exCellQuiet, exCellQuiet]
      exC2WitSt (by with_unfolding_all rfl)
  have hcond : rebuildCond exCtx exCellQuiet exCellQuiet = true := by
    simp only [rebuildCond, cmax, exCellQuiet, dCell, exCtx]
    norm_num
  exact h.mpr ⟨0, by decide, by decide, by decide, 1, by decide, by
    have h1 : cellAt (initState [exPairTight] [exCellQuiet, exCellQuiet])
        (taskAt (initState [exPairTight] [exCellQuiet, exCellQuiet]) 0).ci =
        exCellQuiet := by decide
    have h2 : cellAt (initState [exPairTight] [exCellQuiet, exCellQuiet]) 1 =
        exCellQuiet := by decide
    rw [h1, h2]
    exact hcond⟩

/-! ## Flag words of non-sort tasks are never written -/

theorem flagsAt_activate (st : MarkState) (i j : Nat) :
    flagsAt (scheduler_activate st i) j = flagsAt st j := by
  unfold flagsAt
  rw [taskAt_activate]
  split
  · next hc =>
    obtain ⟨hj, _⟩ := hc
    subst hj
    rfl
  · rfl

theorem flagsAt_reset (st : MarkState) (c j : Nat) :
    flagsAt (reset_counters st c) j = flagsAt st j := rfl

theorem flagsAt_or_flags_safe {st : MarkState} {x j : Nat} (b : Nat)
    (hx : typeOkAt st x TaskType.sort)
    (hj : (taskAt st j).ttype ≠ TaskType.sort) :
    flagsAt (task_or_flags st x b) j = flagsAt st j := by
  unfold flagsAt
  rw [taskAt_or_flags]
  split
  · next hc =>
    obtain ⟨hjx, hlt⟩ := hc
    subst hjx
    exact absurd (hx hlt) hj
  · rfl

theorem flags_mpi_send_rho_ti {e : MarkCtx} {st : MarkState} {f l : Nat}
    {st' : MarkState} (h : mpi_send_rho_ti e st f l = some st') (j : Nat) :
    flagsAt st' j = flagsAt st j := by
  unfold mpi_send_rho_ti at h
  split at h
  · split at h
    · exact absurd h (by simp)
    · split at h
      · exact absurd h (by simp)
      · obtain rfl := Option.some.inj h
        rw [flagsAt_activate, flagsAt_activate]
  · obtain rfl := Option.some.inj h
    rfl

theorem flags_mpi_drift_part {e : MarkCtx} {st : MarkState} {f l : Nat}
    {st' : MarkState} (h : mpi_drift_part e st f l = some st') (j : Nat) :
    flagsAt st' j = flagsAt st j := by
  unfold mpi_drift_part at h
  split at h
  · exact absurd h (by simp)
  · rw [flags_mpi_send_rho_ti h j, flagsAt_activate]

theorem flags_mpi_send_xv_part {e : MarkCtx} {st : MarkState} {f l : Nat}
    {st' : MarkState} (h : mpi_send_xv_part e st f l = some st') (j : Nat) :
    flagsAt st' j = flagsAt st j := by
  unfold mpi_send_xv_part at h
  split at h
  · exact absurd h (by simp)
  · rw [flags_mpi_drift_part h j, flagsAt_activate]

theorem flags_activate_mpi_dir {e : MarkCtx} {st : MarkState} {f l : Nat}
    {st' : MarkState} (h : activate_mpi_dir e st f l = some st') (j : Nat) :
    flagsAt st' j = flagsAt st j := by
  simp only [activate_mpi_dir, cellAt_activate] at h
  split at h
  · rw [flags_mpi_send_xv_part h j, flagsAt_activate, flagsAt_activate,
      flagsAt_activate]
  · rw [flags_mpi_send_xv_part h j, flagsAt_activate]

theorem flags_activate_sorts {st : MarkState} {cidx : Nat} (b : Nat) {j : Nat}
    (hwf : WF st) (hcx : cidx < st.cells.length)
    (hj : (taskAt st j).ttype ≠ TaskType.sort) :
    flagsAt (activate_sorts st cidx b) j = flagsAt st j := by
  simp only [activate_sorts]
  split
  · rw [flagsAt_activate]
    exact flagsAt_or_flags_safe b (hwf.1 cidx hcx).1 hj
  · rfl

theorem flags_process_pair_active {e : MarkCtx} {st : MarkState} {t : Task}
    {cjx : Nat} {st' : MarkState} {j : Nat} (hwf : WF st)
    (hci : t.ci < st.cells.length) (hcj : cjx < st.cells.length)
    (h : process_pair_active e st t cjx = some st')
    (hj : (taskAt st j).ttype ≠ TaskType.sort) :
    flagsAt st' j = flagsAt st j := by
  simp only [process_pair_active, cellAt_activate_sorts] at h
  by_cases hd : t.subtype ≠ TaskSubtype.density
  · rw [if_pos hd] at h
    obtain rfl := Option.some.inj h
    rfl
  · rw [if_neg hd] at h
    by_cases hp : t.ttype = TaskType.pair
    · rw [if_pos hp] at h
      have hso1 := (stepOK_activate_sorts st t.ci (1 <<< t.flags)).core
      have hso2 : CoreEq st
          (activate_sorts (activate_sorts st t.ci (1 <<< t.flags)) cjx (1 <<< t.flags)) :=
        coreEq_trans hso1 (stepOK_activate_sorts _ _ _).core
      have hj1 : (taskAt (activate_sorts st t.ci (1 <<< t.flags)) j).ttype ≠
          TaskType.sort := by
        rw [coreEq_ttype hso1 j]
        exact hj
      have heq2 : flagsAt
          (activate_sorts (activate_sorts st t.ci (1 <<< t.flags)) cjx (1 <<< t.flags)) j =
          flagsAt st j := by
        rw [flags_activate_sorts _ (coreEq_WF hso1 hwf)
          (by rw [hso1.clen]; exact hcj) hj1]
        exact flags_activate_sorts _ hwf hci hj
      split at h
      · rw [flags_activate_mpi_dir h j]
        exact heq2
      · split at h
        · rw [flags_activate_mpi_dir h j]
          exact heq2
        · obtain rfl := Option.some.inj h
          exact heq2
    · rw [if_neg hp] at h
      split at h
      · exact flags_activate_mpi_dir h j
      · split at h
        · exact flags_activate_mpi_dir h j
        · obtain rfl := Option.some.inj h
          rfl

theorem flags_process_task {e : MarkCtx} {st : MarkState} {i : Nat}
    {st' : MarkState} {j : Nat} (hwf : WF st)
    (h : process_task e st i = some st')
    (hj : (taskAt st j).ttype ≠ TaskType.sort) :
    flagsAt st' j = flagsAt st j := by
  simp only [process_task] at h
  split at h
  · obtain rfl := Option.some.inj h
    split
    · exact flagsAt_activate st i j
    · rfl
  · split at h
    · next hc =>
      split at h
      case _ cjx hcj =>
        have hilen : i < st.tasks.length := by
          by_contra hge
          rw [taskAt_oob (Nat.le_of_not_lt hge)] at hc
          rcases hc with h1 | h1 <;> exact absurd h1 (by simp [dTask])
        obtain ⟨hcil, hcjl⟩ := hwf.2 i hilen hc
        have hcjxl : cjx < st.cells.length := hcjl cjx (Option.mem_def.mpr hcj)
        simp only [process_pair] at h
        have hmain : ∀ sr : MarkState, sr.cells = st.cells → sr.tasks = st.tasks →
            (if (cell_is_active e sr (taskAt st i).ci ||
                cell_is_active e sr cjx) = true then
              process_pair_active e (scheduler_activate sr i) (taskAt st i) cjx
            else some sr) = some st' →
            flagsAt st' j = flagsAt st j := by
          intro sr hcells htasks hh
          have hcore : CoreEq st sr := by
            refine ⟨by rw [htasks], by rw [hcells], ?_, ?_⟩
            · intro jx
              unfold taskAt
              rw [htasks]
            · intro jx
              unfold cellAt
              rw [hcells]
          have hflsr : ∀ jx, flagsAt sr jx = flagsAt st jx := by
            intro jx
            unfold flagsAt taskAt
            rw [htasks]
          split at hh
          · have hcore2 : CoreEq st (scheduler_activate sr i) :=
              coreEq_trans hcore (stepOK_activate sr i).core
            rw [flags_process_pair_active (coreEq_WF hcore2 hwf)
              (by rw [hcore2.clen]; exact hcil) (by rw [hcore2.clen]; exact hcjxl)
              hh (by rw [coreEq_ttype hcore2 j]; exact hj)]
            rw [flagsAt_activate]
            exact hflsr j
          · obtain rfl := Option.some.inj hh
            exact hflsr j
        split at h
        · exact hmain { st with rebuild := true } rfl rfl h
        · exact hmain st rfl rfl h
      case _ hcj =>
        exact absurd h (by simp)
    · split at h
      · obtain rfl := Option.some.inj h
        split
        · exact flagsAt_activate st i j
        · rfl
      · split at h
        · obtain rfl := Option.some.inj h
          split
          · rw [flagsAt_activate]
            rfl
          · rfl
        · split at h
          · obtain rfl := Option.some.inj h
            exact flagsAt_activate st i j
          · obtain rfl := Option.some.inj h
            rfl

theorem flags_run_tasks {e : MarkCtx} : ∀ {L : List Nat} {st st' : MarkState},
    WF st → run_tasks e st L = some st' →
    ∀ j, (taskAt st j).ttype ≠ TaskType.sort →
    flagsAt st' j = flagsAt st j := by
  intro L
  induction L with
  | nil =>
    intro st st' hwf h j hj
    obtain rfl := Option.some.inj h
    rfl
  | cons a rest ih =>
    intro st st' hwf h j hj
    unfold run_tasks at h
    split at h
    · exact absurd h (by simp)
    · next s1 hs1 =>
      have hcore1 := (stepOK_process_task hs1).core
      rw [ih (coreEq_WF hcore1 hwf) h j (by rw [coreEq_ttype hcore1 j]; exact hj)]
      exact flags_process_task hwf hs1 hj

/-! ## Monotone preservation of the postconditions -/

theorem offAt_mono {s s' : MarkState} (hok : StepOK s s') {x : Nat}
    (h : offAt s x) : offAt s' x := by
  intro hl
  exact hok.skipm x (h (by rw [← hok.core.tlen]; exact hl))

theorem sortPost_mono {s s' : MarkState} (hok : StepOK s s') {c b : Nat}
    (hp : SortPost s c b) : SortPost s' c b := by
  intro hunsorted
  rw [coreEq_cell_field hok.core Cell.sorted (fun _ => rfl) c] at hunsorted
  obtain ⟨hfl, hoff⟩ := hp hunsorted
  rw [coreEq_cell_field hok.core Cell.sorts (fun _ => rfl) c]
  constructor
  · intro hlen
    exact hok.flagm _ b (hfl (by rw [← hok.core.tlen]; exact hlen))
  · exact offAt_mono hok hoff

theorem mpiPost_mono {e : MarkCtx} {s s' : MarkState} (hok : StepOK s s')
    {f l : Nat} (hp : MpiPost e s f l) : MpiPost e s' f l := by
  obtain ⟨h1, h2, ⟨li, hli, hlio⟩, ⟨di, hdi, hdio⟩, h5⟩ := hp
  refine ⟨?_, ?_, ?_, ?_, ?_⟩
  · rw [coreEq_cell_field hok.core Cell.recv_xv (fun _ => rfl) f]
    exact offAt_mono hok h1
  · intro hact
    rw [coreEq_active hok.core e f] at hact
    obtain ⟨ha, hb⟩ := h2 hact
    rw [coreEq_cell_field hok.core Cell.recv_rho (fun _ => rfl) f,
      coreEq_cell_field hok.core Cell.recv_ti (fun _ => rfl) f]
    exact ⟨offAt_mono hok ha, offAt_mono hok hb⟩
  · refine ⟨li, ?_, offAt_mono hok hlio⟩
    rw [coreEq_cell_field hok.core Cell.send_xv (fun _ => rfl) l,
      coreEq_cell_field hok.core Cell.nodeID (fun _ => rfl) f,
      coreEq_find_send_link hok.core]
    exact hli
  · refine ⟨di, ?_, offAt_mono hok hdio⟩
    rw [coreEq_cell_field hok.core Cell.super (fun _ => rfl) l,
      coreEq_cell_field hok.core Cell.drift (fun _ => rfl)]
    exact hdi
  · intro hact
    rw [coreEq_active hok.core e l] at hact
    obtain ⟨⟨lr, hlr, hlro⟩, ⟨lt, hlt, hlto⟩⟩ := h5 hact
    constructor
    · refine ⟨lr, ?_, offAt_mono hok hlro⟩
      rw [coreEq_cell_field hok.core Cell.send_rho (fun _ => rfl) l,
        coreEq_cell_field hok.core Cell.nodeID (fun _ => rfl) f,
        coreEq_find_send_link hok.core]
      exact hlr
    · refine ⟨lt, ?_, offAt_mono hok hlto⟩
      rw [coreEq_cell_field hok.core Cell.send_ti (fun _ => rfl) l,
        coreEq_cell_field hok.core Cell.nodeID (fun _ => rfl) f,
        coreEq_find_send_link hok.core]
      exact hlt

theorem pairPost_mono {e : MarkCtx} {i cjx : Nat} {s s' : MarkState}
    (hok : StepOK s s') (hfli : flagsAt s' i = flagsAt s i)
    (hpp : PairPost e s i (taskAt s i) cjx) :
    PairPost e s' i (taskAt s' i) cjx := by
  obtain ⟨h1, h2⟩ := hpp
  constructor
  · intro htight hcond
    rw [coreEq_tight hok.core i] at htight
    rw [coreEq_ci hok.core i,
      coreEq_rebuildCond hok.core e (taskAt s i).ci cjx] at hcond
    exact hok.rebm (h1 htight hcond)
  · intro hact
    rw [coreEq_ci hok.core i, coreEq_active hok.core e,
      coreEq_active hok.core e] at hact
    obtain ⟨hoff, hd⟩ := h2 hact
    refine ⟨offAt_mono hok hoff, ?_⟩
    intro hdens
    rw [coreEq_subtype hok.core i] at hdens
    obtain ⟨hsorts, hmpi1, hmpi2⟩ := hd hdens
    have hflval : (taskAt s' i).flags = (taskAt s i).flags := hfli
    refine ⟨?_, ?_, ?_⟩
    · intro hpair
      rw [coreEq_ttype hok.core i] at hpair
      obtain ⟨hs1, hs2⟩ := hsorts hpair
      rw [coreEq_ci hok.core i, hflval]
      exact ⟨sortPost_mono hok hs1, sortPost_mono hok hs2⟩
    · intro hnode
      rw [coreEq_ci hok.core i,
        coreEq_cell_field hok.core Cell.nodeID (fun _ => rfl) _] at hnode
      rw [coreEq_ci hok.core i]
      exact mpiPost_mono hok (hmpi1 hnode)
    · intro hnode1 hnode2
      rw [coreEq_ci hok.core i,
        coreEq_cell_field hok.core Cell.nodeID (fun _ => rfl) _] at hnode1
      rw [coreEq_cell_field hok.core Cell.nodeID (fun _ => rfl) cjx] at hnode2
      rw [coreEq_ci hok.core i]
      exact mpiPost_mono hok (hmpi2 hnode1 hnode2)

theorem post_mono {e : MarkCtx} {i : Nat} {s s' : MarkState}
    (hok : StepOK s s') (hfli : flagsAt s' i = flagsAt s i)
    (hp : Post e s i) : Post e s' i := by
  obtain ⟨hA, hB, hC⟩ := hp
  refine ⟨?_, ?_, ?_⟩
  · intro hsk
    rw [coreEq_ttype hok.core i] at hsk
    obtain ⟨ha, hts⟩ := hA hsk
    constructor
    · intro hact
      rw [coreEq_ci hok.core i, coreEq_active hok.core e] at hact
      exact offAt_mono hok (ha hact)
    · intro hts'
      rw [coreEq_ttype hok.core i] at hts'
      rw [coreEq_ci hok.core i]
      have := hts hts'
      unfold countersZero at this ⊢
      obtain ⟨c1, c2, c3⟩ := hok.cntm _ this
      exact ⟨c1, c2, c3⟩
  · intro hty
    rw [coreEq_ttype hok.core i] at hty
    exact offAt_mono hok (hB hty)
  · intro hpk
    rw [coreEq_ttype hok.core i] at hpk
    obtain ⟨cjx, hcj, hpp⟩ := hC hpk
    exact ⟨cjx, by rw [coreEq_cj hok.core i]; exact hcj,
      pairPost_mono hok hfli hpp⟩

/-! ## No-op lemmas: re-running a step on a state satisfying its
postcondition leaves the state unchanged -/

theorem task_eta_skip {t : Task} (h : t.skip = false) :
    ({ t with skip := false } : Task) = t := by
  cases t
  simp only [Task.mk.injEq]
  simp_all

theorem task_eta_flags {t : Task} {b : Nat} (h : t.flags ||| b = t.flags) :
    ({ t with flags := t.flags ||| b } : Task) = t := by
  cases t
  simp only [Task.mk.injEq]
  simp_all

theorem activate_noop {st : MarkState} {x : Nat} (h : offAt st x) :
    scheduler_activate st x = st := by
  unfold scheduler_activate
  rcases Nat.lt_or_ge x st.tasks.length with hlt | hge
  · rw [task_eta_skip (h hlt)]
    unfold taskAt
    rw [set_getD_self]
  · rw [List.set_eq_of_length_le hge]

theorem or_flags_noop {st : MarkState} {x b : Nat}
    (h : x < st.tasks.length → bitLe b (flagsAt st x)) :
    task_or_flags st x b = st := by
  unfold task_or_flags
  rcases Nat.lt_or_ge x st.tasks.length with hlt | hge
  · rw [task_eta_flags (h hlt)]
    unfold taskAt
    rw [set_getD_self]
  · rw [List.set_eq_of_length_le hge]

theorem set_rebuild_noop {st : MarkState} (h : st.rebuild = true) :
    ({ st with rebuild := true } : MarkState) = st := by
  cases st
  simp only [MarkState.mk.injEq]
  simp_all

theorem cell_eta_counters {c : Cell} (h1 : c.updated = 0) (h2 : c.g_updated = 0)
    (h3 : c.s_updated = 0) :
    ({ c with updated := 0, g_updated := 0, s_updated := 0 } : Cell) = c := by
  cases c
  simp only [Cell.mk.injEq]
  simp_all

theorem reset_noop {st : MarkState} {c : Nat} (h : countersZero st c) :
    reset_counters st c = st := by
  obtain ⟨h1, h2, h3⟩ := h
  simp only [reset_counters]
  rcases Nat.lt_or_ge c st.cells.length with hlt | hge
  · rw [cell_eta_counters h1 h2 h3]
    unfold cellAt
    rw [set_getD_self]
  · rw [List.set_eq_of_length_le hge]

theorem activate_sorts_noop {st : MarkState} {c b : Nat} (h : SortPost st c b) :
    activate_sorts st c b = st := by
  simp only [activate_sorts]
  split
  · next hcond =>
    obtain ⟨hfl, hoff⟩ := h hcond
    rw [or_flags_noop hfl]
    exact activate_noop hoff
  · rfl

/-! ## Forward direction: a processed task satisfies its postcondition -/

theorem offAt_after_activate (st : MarkState) (x : Nat) :
    offAt (scheduler_activate st x) x := by
  intro hl
  have hl' : x < st.tasks.length := by
    have := (stepOK_activate st x).core.tlen
    rw [← this]
    exact hl
  exact skipAt_activate_self hl'

theorem find_send_link_activate (st : MarkState) (x : Nat) (links : List Nat)
    (node : Int) :
    find_send_link (scheduler_activate st x) links node =
      find_send_link st links node :=
  coreEq_find_send_link (stepOK_activate st x).core links node

theorem fwd_mpi_send_rho_ti {e : MarkCtx} {st : MarkState} {f l : Nat}
    {st' : MarkState} (h : mpi_send_rho_ti e st f l = some st') :
    cell_is_active e st l = true →
    (∃ lr, find_send_link st (cellAt st l).send_rho (cellAt st f).nodeID = some lr ∧
      offAt st' lr) ∧
    (∃ lt, find_send_link st (cellAt st l).send_ti (cellAt st f).nodeID = some lt ∧
      offAt st' lt) := by
  intro hact
  unfold mpi_send_rho_ti at h
  rw [if_pos hact] at h
  split at h
  · exact absurd h (by simp)
  · next lr hlr =>
    split at h
    · exact absurd h (by simp)
    · next lt hlt =>
      obtain rfl := Option.some.inj h
      rw [find_send_link_activate] at hlt
      constructor
      · exact ⟨lr, hlr, offAt_mono (stepOK_activate _ _) (offAt_after_activate st lr)⟩
      · exact ⟨lt, hlt, offAt_after_activate _ lt⟩

theorem fwd_mpi_drift_part {e : MarkCtx} {st : MarkState} {f l : Nat}
    {st' : MarkState} (h : mpi_drift_part e st f l = some st') :
    (∃ di, (cellAt st (cellAt st l).super).drift = some di ∧ offAt st' di) ∧
    (cell_is_active e st l = true →
      (∃ lr, find_send_link st (cellAt st l).send_rho (cellAt st f).nodeID = some lr ∧
        offAt st' lr) ∧
      (∃ lt, find_send_link st (cellAt st l).send_ti (cellAt st f).nodeID = some lt ∧
        offAt st' lt)) := by
  unfold mpi_drift_part at h
  split at h
  · exact absurd h (by simp)
  · next di hdi =>
    have hcore := (stepOK_activate st di).core
    have hok : StepOK (scheduler_activate st di) st' := stepOK_mpi_send_rho_ti h
    constructor
    · exact ⟨di, hdi, offAt_mono hok (offAt_after_activate st di)⟩
    · intro hact
      have hfwd := fwd_mpi_send_rho_ti h
        (by rw [coreEq_active hcore e l]; exact hact)
      rw [coreEq_cell_field hcore Cell.send_rho (fun _ => rfl) l,
        coreEq_cell_field hcore Cell.send_ti (fun _ => rfl) l,
        coreEq_cell_field hcore Cell.nodeID (fun _ => rfl) f,
        coreEq_find_send_link hcore, coreEq_find_send_link hcore] at hfwd
      exact hfwd

theorem fwd_mpi_send_xv_part {e : MarkCtx} {st : MarkState} {f l : Nat}
    {st' : MarkState} (h : mpi_send_xv_part e st f l = some st') :
    (∃ li, find_send_link st (cellAt st l).send_xv (cellAt st f).nodeID = some li ∧
      offAt st' li) ∧
    (∃ di, (cellAt st (cellAt st l).super).drift = some di ∧ offAt st' di) ∧
    (cell_is_active e st l = true →
      (∃ lr, find_send_link st (cellAt st l).send_rho (cellAt st f).nodeID = some lr ∧
        offAt st' lr) ∧
      (∃ lt, find_send_link st (cellAt st l).send_ti (cellAt st f).nodeID = some lt ∧
        offAt st' lt)) := by
  unfold mpi_send_xv_part at h
  split at h
  · exact absurd h (by simp)
  · next li hli =>
    have hcore := (stepOK_activate st li).core
    have hok : StepOK (scheduler_activate st li) st' := stepOK_mpi_drift_part h
    obtain ⟨hdr, hrt⟩ := fwd_mpi_drift_part h
    refine ⟨⟨li, hli, offAt_mono hok (offAt_after_activate st li)⟩, ?_, ?_⟩
    · rw [coreEq_cell_field hcore Cell.super (fun _ => rfl) l,
        coreEq_cell_field hcore Cell.drift (fun _ => rfl)] at hdr
      exact hdr
    · intro hact
      have := hrt (by rw [coreEq_active hcore e l]; exact hact)
      rw [coreEq_cell_field hcore Cell.send_rho (fun _ => rfl) l,
        coreEq_cell_field hcore Cell.send_ti (fun _ => rfl) l,
        coreEq_cell_field hcore Cell.nodeID (fun _ => rfl) f,
        coreEq_find_send_link hcore, coreEq_find_send_link hcore] at this
      exact this

theorem fwd_activate_mpi_dir {e : MarkCtx} {st : MarkState} {f l : Nat}
    {st' : MarkState} (h : activate_mpi_dir e st f l = some st') :
    MpiPost e st' f l := by
  have hokall : StepOK st st' := stepOK_activate_mpi_dir h
  simp only [activate_mpi_dir, cellAt_activate] at h
  have hcore1 := (stepOK_activate st (cellAt st f).recv_xv).core
  have hrxv : offAt st' (cellAt st' f).recv_xv := by
    rw [coreEq_cell_field hokall.core Cell.recv_xv (fun _ => rfl) f]
    split at h
    · exact offAt_mono
        (stepOK_trans (stepOK_activate _ _)
          (stepOK_trans (stepOK_activate _ _) (stepOK_mpi_send_xv_part h)))
        (offAt_after_activate st _)
    · exact offAt_mono (stepOK_mpi_send_xv_part h) (offAt_after_activate st _)
  have hassemble : ∀ s2 : MarkState, StepOK s2 st' →
      mpi_send_xv_part e s2 f l = some st' →
      (cell_is_active e st' f = true →
        offAt st' (cellAt st' f).recv_rho ∧ offAt st' (cellAt st' f).recv_ti) →
      MpiPost e st' f l := by
    intro s2 hok2' hxv hrho
    obtain ⟨⟨li, hli, hlio⟩, ⟨di, hdi, hdio⟩, hrt⟩ := fwd_mpi_send_xv_part hxv
    refine ⟨hrxv, hrho, ?_, ?_, ?_⟩
    · refine ⟨li, ?_, hlio⟩
      rw [coreEq_cell_field hok2'.core Cell.send_xv (fun _ => rfl) l,
        coreEq_cell_field hok2'.core Cell.nodeID (fun _ => rfl) f,
        coreEq_find_send_link hok2'.core]
      exact hli
    · refine ⟨di, ?_, hdio⟩
      rw [coreEq_cell_field hok2'.core Cell.super (fun _ => rfl) l,
        coreEq_cell_field hok2'.core Cell.drift (fun _ => rfl)]
      exact hdi
    · intro hact
      have := hrt (by rw [← coreEq_active hok2'.core e l]; exact hact)
      obtain ⟨⟨lr, hlr, hlro⟩, ⟨lt, hlt, hlto⟩⟩ := this
      constructor
      · refine ⟨lr, ?_, hlro⟩
        rw [coreEq_cell_field hok2'.core Cell.send_rho (fun _ => rfl) l,
          coreEq_cell_field hok2'.core Cell.nodeID (fun _ => rfl) f,
          coreEq_find_send_link hok2'.core]
        exact hlr
      · refine ⟨lt, ?_, hlto⟩
        rw [coreEq_cell_field hok2'.core Cell.send_ti (fun _ => rfl) l,
          coreEq_cell_field hok2'.core Cell.nodeID (fun _ => rfl) f,
          coreEq_find_send_link hok2'.core]
        exact hlt
  split at h
  · next hact1 =>
    refine hassemble _ (stepOK_mpi_send_xv_part h) h ?_
    intro _
    constructor
    · rw [coreEq_cell_field hokall.core Cell.recv_rho (fun _ => rfl) f]
      exact offAt_mono
        (stepOK_trans (stepOK_activate _ _) (stepOK_mpi_send_xv_part h))
        (offAt_after_activate _ _)
    · rw [coreEq_cell_field hokall.core Cell.recv_ti (fun _ => rfl) f]
      exact offAt_mono (stepOK_mpi_send_xv_part h) (offAt_after_activate _ _)
  · next hact1 =>
    refine hassemble _ (stepOK_mpi_send_xv_part h) h ?_
    intro hact'
    have : cell_is_active e (scheduler_activate st (cellAt st f).recv_xv) f = true := by
      rw [coreEq_active hcore1 e f,
        ← coreEq_active hokall.core e f]
      exact hact'
    exact absurd this hact1

theorem fwd_activate_sorts (st : MarkState) (c b : Nat) :
    SortPost (activate_sorts st c b) c b := by
  simp only [activate_sorts]
  split
  · next hcond =>
    have hcells : cellAt (scheduler_activate (task_or_flags st (cellAt st c).sorts b)
        (cellAt st c).sorts) c = cellAt st c := rfl
    intro hunsorted
    rw [hcells] at hunsorted ⊢
    constructor
    · intro hlen
      have hlen' : (cellAt st c).sorts < st.tasks.length := by
        have h1 := (stepOK_or_flags st (cellAt st c).sorts b).core.tlen
        have h2 := (stepOK_activate (task_or_flags st (cellAt st c).sorts b)
          (cellAt st c).sorts).core.tlen
        rw [← h1, ← h2]
        exact hlen
      rw [flagsAt_activate]
      unfold flagsAt
      rw [taskAt_or_flags, if_pos ⟨rfl, hlen'⟩]
      exact bitLe_or_self b _
    · exact offAt_after_activate _ _
  · next hcond =>
    intro hunsorted
    exact absurd hunsorted hcond

theorem sortPost_unsorted_false {st : MarkState} {c b : Nat}
    (h : ¬ (cellAt st c).sorted &&& b = 0) : SortPost st c b := by
  intro hcond
  exact absurd hcond h

theorem fwd_process_pair_active {e : MarkCtx} {st : MarkState} {t : Task}
    {cjx : Nat} {st' : MarkState} (h : process_pair_active e st t cjx = some st') :
    t.subtype = TaskSubtype.density →
    ((t.ttype = TaskType.pair →
      SortPost st' t.ci (1 <<< t.flags) ∧ SortPost st' cjx (1 <<< t.flags)) ∧
     ((cellAt st' t.ci).nodeID ≠ e.engine_rank → MpiPost e st' t.ci cjx) ∧
     ((cellAt st' t.ci).nodeID = e.engine_rank →
       (cellAt st' cjx).nodeID ≠ e.engine_rank → MpiPost e st' cjx t.ci)) := by
  intro hdens
  have hokall := stepOK_process_pair_active h
  simp only [process_pair_active, cellAt_activate_sorts] at h
  rw [if_neg (by simp [hdens])] at h
  by_cases hp : t.ttype = TaskType.pair
  · rw [if_pos hp] at h
    have hsp1 : SortPost (activate_sorts (activate_sorts st t.ci (1 <<< t.flags))
        cjx (1 <<< t.flags)) t.ci (1 <<< t.flags) :=
      sortPost_mono (stepOK_activate_sorts _ _ _) (fwd_activate_sorts st t.ci _)
    have hsp2 : SortPost (activate_sorts (activate_sorts st t.ci (1 <<< t.flags))
        cjx (1 <<< t.flags)) cjx (1 <<< t.flags) :=
      fwd_activate_sorts _ cjx _
    split at h
    · next hnode =>
      have hok2 := stepOK_activate_mpi_dir h
      refine ⟨fun _ => ⟨sortPost_mono hok2 hsp1, sortPost_mono hok2 hsp2⟩,
        fun _ => fwd_activate_mpi_dir h, fun hn1 _ => ?_⟩
      rw [coreEq_cell_field hok2.core Cell.nodeID (fun _ => rfl) t.ci] at hn1
      exact absurd hn1 (by simpa using hnode)
    · split at h
      · next hnode1 hnode2 =>
        have hok2 := stepOK_activate_mpi_dir h
        refine ⟨fun _ => ⟨sortPost_mono hok2 hsp1, sortPost_mono hok2 hsp2⟩,
          fun hn1 => ?_, fun _ _ => fwd_activate_mpi_dir h⟩
        rw [coreEq_cell_field hok2.core Cell.nodeID (fun _ => rfl) t.ci] at hn1
        exact absurd (by simpa using hnode1) hn1
      · next hnode1 hnode2 =>
        obtain rfl := Option.some.inj h
        refine ⟨fun _ => ⟨hsp1, hsp2⟩, fun hn1 => ?_, fun _ hn2 => ?_⟩
        · exact absurd (by simpa using hnode1) hn1
        · exact absurd (by simpa using hnode2) hn2
  · rw [if_neg hp] at h
    split at h
    · next hnode =>
      have hok2 := stepOK_activate_mpi_dir h
      refine ⟨fun hpair => absurd hpair hp,
        fun _ => fwd_activate_mpi_dir h, fun hn1 _ => ?_⟩
      rw [coreEq_cell_field hok2.core Cell.nodeID (fun _ => rfl) t.ci] at hn1
      exact absurd hn1 (by simpa using hnode)
    · split at h
      · next hnode1 hnode2 =>
        have hok2 := stepOK_activate_mpi_dir h
        refine ⟨fun hpair => absurd hpair hp, fun hn1 => ?_,
          fun _ _ => fwd_activate_mpi_dir h⟩
        rw [coreEq_cell_field hok2.core Cell.nodeID (fun _ => rfl) t.ci] at hn1
        exact absurd (by simpa using hnode1) hn1
      · next hnode1 hnode2 =>
        obtain rfl := Option.some.inj h
        refine ⟨fun hpair => absurd hpair hp, fun hn1 => ?_, fun _ hn2 => ?_⟩
        · exact absurd (by simpa using hnode1) hn1
        · exact absurd (by simpa using hnode2) hn2

theorem countersZero_reset (st : MarkState) (c : Nat) :
    countersZero (reset_counters st c) c := by
  unfold countersZero
  rw [cellAt_reset]
  split
  · exact ⟨rfl, rfl, rfl⟩
  · next hc =>
    rcases Nat.lt_or_ge c st.cells.length with hlt | hge
    · exact absurd ⟨rfl, hlt⟩ hc
    · rw [cellAt_oob hge]
      exact ⟨rfl, rfl, rfl⟩

theorem fwd_process_pair {e : MarkCtx} {st0 : MarkState} {i : Nat} {t : Task}
    {cjx : Nat} {st' : MarkState} (h : process_pair e st0 i t cjx = some st') :
    PairPost e st' i t cjx := by
  have hokall := stepOK_process_pair h
  simp only [process_pair] at h
  have hmain : ∀ sr : MarkState, sr.cells = st0.cells →
      (if (cell_is_active e sr t.ci || cell_is_active e sr cjx) = true then
        process_pair_active e (scheduler_activate sr i) t cjx
      else some sr) = some st' →
      ((cell_is_active e st' t.ci || cell_is_active e st' cjx) = true →
        offAt st' i ∧
        (t.subtype = TaskSubtype.density →
          (t.ttype = TaskType.pair →
            SortPost st' t.ci (1 <<< t.flags) ∧ SortPost st' cjx (1 <<< t.flags)) ∧
          ((cellAt st' t.ci).nodeID ≠ e.engine_rank → MpiPost e st' t.ci cjx) ∧
          ((cellAt st' t.ci).nodeID = e.engine_rank →
            (cellAt st' cjx).nodeID ≠ e.engine_rank → MpiPost e st' cjx t.ci))) := by
    intro sr hcells hh hact
    have e1 : ∀ c, cell_is_active e sr c = cell_is_active e st0 c := by
      intro c
      unfold cell_is_active cellAt
      rw [hcells]
    have e2 : ∀ c, cell_is_active e st' c = cell_is_active e st0 c :=
      fun c => coreEq_active hokall.core e c
    rw [e1 t.ci, e1 cjx] at hh
    rw [e2 t.ci, e2 cjx] at hact
    rw [if_pos hact] at hh
    refine ⟨offAt_mono (stepOK_process_pair_active hh) (offAt_after_activate sr i), ?_⟩
    intro hdens
    exact fwd_process_pair_active hh hdens
  constructor
  · intro htight hcond
    rw [coreEq_rebuildCond hokall.core e t.ci cjx] at hcond
    have hcondif : (t.tight && rebuildCond e (cellAt st0 t.ci) (cellAt st0 cjx)) = true := by
      rw [htight, hcond]
      rfl
    rw [if_pos hcondif] at h
    split at h
    · rw [rebuild_process_pair_active h]
      rfl
    · obtain rfl := Option.some.inj h
      rfl
  · split at h
    · exact hmain { st0 with rebuild := true } rfl h
    · exact hmain st0 rfl h

theorem pairPost_congr {e : MarkCtx} {s : MarkState} {i cjx : Nat}
    {t t2 : Task} (h1 : t2.ttype = t.ttype) (h2 : t2.subtype = t.subtype)
    (h3 : t2.flags = t.flags) (h4 : t2.tight = t.tight) (h5 : t2.ci = t.ci)
    (hp : PairPost e s i t cjx) : PairPost e s i t2 cjx := by
  cases t
  cases t2
  dsimp only at h1 h2 h3 h4 h5
  subst h1
  subst h2
  subst h3
  subst h4
  subst h5
  exact hp

theorem post_of_single {e : MarkCtx} {st st' : MarkState} {i : Nat}
    (hokall : StepOK st st')
    (hsk : singleKind (taskAt st i).ttype = true)
    (hnotg : ¬((taskAt st i).ttype = TaskType.grav_gather_m ∨
      (taskAt st i).ttype = TaskType.grav_fft))
    (hoff : cell_is_active e st (taskAt st i).ci = true → offAt st' i)
    (hcnt : (taskAt st i).ttype = TaskType.timestep →
      countersZero st' (taskAt st i).ci) :
    Post e st' i := by
  have htyeq := coreEq_ttype hokall.core i
  have hcieq := coreEq_ci hokall.core i
  refine ⟨?_, ?_, ?_⟩
  · intro _
    constructor
    · intro hact
      rw [hcieq, coreEq_active hokall.core e] at hact
      exact hoff hact
    · intro hts
      rw [htyeq] at hts
      rw [hcieq]
      exact hcnt hts
  · intro hg
    rw [htyeq] at hg
    exact absurd hg hnotg
  · intro hpk
    rw [htyeq, singleKind_pairKind_false hsk] at hpk
    exact absurd hpk (by simp)

theorem post_of_inert {e : MarkCtx} {st st' : MarkState} {i : Nat}
    (hokall : StepOK st st')
    (hsk : singleKind (taskAt st i).ttype = false)
    (hnotp : pairKind (taskAt st i).ttype = false)
    (hnotg : ¬((taskAt st i).ttype = TaskType.grav_gather_m ∨
      (taskAt st i).ttype = TaskType.grav_fft)) :
    Post e st' i := by
  have htyeq := coreEq_ttype hokall.core i
  refine ⟨?_, ?_, ?_⟩
  · intro hsk2
    rw [htyeq, hsk] at hsk2
    exact absurd hsk2 (by simp)
  · intro hg
    rw [htyeq] at hg
    exact absurd hg hnotg
  · intro hpk
    rw [htyeq, hnotp] at hpk
    exact absurd hpk (by simp)

theorem post_of_gather {e : MarkCtx} {st st' : MarkState} {i : Nat}
    (hokall : StepOK st st')
    (hsk : singleKind (taskAt st i).ttype = false)
    (hnotp : pairKind (taskAt st i).ttype = false)
    (hoff : offAt st' i) :
    Post e st' i := by
  have htyeq := coreEq_ttype hokall.core i
  refine ⟨?_, fun _ => hoff, ?_⟩
  · intro hsk2
    rw [htyeq, hsk] at hsk2
    exact absurd hsk2 (by simp)
  · intro hpk
    rw [htyeq, hnotp] at hpk
    exact absurd hpk (by simp)

theorem post_process {e : MarkCtx} {st : MarkState} {i : Nat} {st' : MarkState}
    (hwf : WF st) (h : process_task e st i = some st') : Post e st' i := by
  have hokall := stepOK_process_task h
  simp only [process_task] at h
  split at h
  · next hc =>
    obtain rfl := Option.some.inj h
    refine post_of_single hokall
      (by rcases hc with h1 | h1 | h1 | h1 | h1 | h1 <;> rw [h1] <;> rfl)
      (by rcases hc with h1 | h1 | h1 | h1 | h1 | h1 <;> rw [h1] <;> simp)
      ?_ ?_
    · intro hact
      rw [if_pos hact]
      exact offAt_after_activate st i
    · intro hts
      exact absurd hts
        (by rcases hc with h1 | h1 | h1 | h1 | h1 | h1 <;> rw [h1] <;> simp)
  · split at h
    · next hc =>
      split at h
      case _ cjx hcj =>
        have hpk : pairKind (taskAt st i).ttype = true := by
          rcases hc with h1 | h1 <;> rw [h1] <;> rfl
        have hsk : singleKind (taskAt st i).ttype = false := by
          rcases hc with h1 | h1 <;> rw [h1] <;> rfl
        have hnotg : ¬((taskAt st i).ttype = TaskType.grav_gather_m ∨
            (taskAt st i).ttype = TaskType.grav_fft) := by
          rcases hc with h1 | h1 <;> rw [h1] <;> simp
        have hflags : flagsAt st' i = flagsAt st i := by
          have hnotsort : (taskAt st i).ttype ≠ TaskType.sort := by
            rcases hc with h1 | h1 <;> rw [h1] <;> simp
          refine flags_process_task (e := e) (i := i) hwf ?_ hnotsort
          simp only [process_task]
          rw [if_neg (by
            rcases hc with h1 | h1 <;> rw [h1] <;> simp), if_pos hc, hcj]
          exact h
        have htyeq := coreEq_ttype hokall.core i
        refine ⟨?_, ?_, ?_⟩
        · intro hsk2
          rw [htyeq, hsk] at hsk2
          exact absurd hsk2 (by simp)
        · intro hg
          rw [htyeq] at hg
          exact absurd hg hnotg
        · intro _
          refine ⟨cjx, by rw [coreEq_cj hokall.core i]; exact hcj, ?_⟩
          exact pairPost_congr htyeq (coreEq_subtype hokall.core i) hflags
            (coreEq_tight hokall.core i) (coreEq_ci hokall.core i)
            (fwd_process_pair h)
      case _ hcj =>
        exact absurd h (by simp)
    · split at h
      · next hc =>
        obtain rfl := Option.some.inj h
        refine post_of_single hokall
          (by rcases hc with h1 | h1 | h1 | h1 <;> rw [h1] <;> rfl)
          (by rcases hc with h1 | h1 | h1 | h1 <;> rw [h1] <;> simp)
          ?_ ?_
        · intro hact
          rw [if_pos hact]
          exact offAt_after_activate st i
        · intro hts
          exact absurd hts
            (by rcases hc with h1 | h1 | h1 | h1 <;> rw [h1] <;> simp)
      · split at h
        · next hc =>
          obtain rfl := Option.some.inj h
          have hz : countersZero (reset_counters st (taskAt st i).ci)
              (taskAt st i).ci := countersZero_reset st (taskAt st i).ci
          have hacteq : cell_is_active e (reset_counters st (taskAt st i).ci)
              (taskAt st i).ci = cell_is_active e st (taskAt st i).ci :=
            coreEq_active (stepOK_reset st (taskAt st i).ci).core e _
          refine post_of_single hokall (by rw [hc]; rfl) (by rw [hc]; simp)
            ?_ ?_
          · intro hact
            rw [hacteq, if_pos hact]
            exact offAt_after_activate _ i
          · intro _
            rw [hacteq]
            split
            · exact (stepOK_activate _ i).cntm _ hz
            · exact hz
        · split at h
          · next hc =>
            obtain rfl := Option.some.inj h
            refine post_of_gather (stepOK_activate st i)
              (by rcases hc with h1 | h1 <;> rw [h1] <;> rfl)
              (by rcases hc with h1 | h1 <;> rw [h1] <;> rfl)
              (offAt_after_activate st i)
          · next hc1 hc2 hc3 hc4 hc5 =>
            obtain rfl := Option.some.inj h
            refine post_of_inert (stepOK_rfl st) ?_ ?_ hc5
            · cases hty : (taskAt st i).ttype <;> rw [hty] at hc1 hc2 hc3 hc4 hc5 <;>
                simp_all [singleKind]
            · cases hty : (taskAt st i).ttype <;> rw [hty] at hc1 hc2 hc3 hc4 hc5 <;>
                simp_all [pairKind]

/-! ## Fixpoint: re-running a step on a satisfied postcondition is a no-op -/

theorem mpi_fix {e : MarkCtx} {st : MarkState} {f l : Nat}
    (hm : MpiPost e st f l) : activate_mpi_dir e st f l = some st := by
  obtain ⟨h1, h2, ⟨li, hli, hlio⟩, ⟨di, hdi, hdio⟩, h5⟩ := hm
  have hxvfix : mpi_send_xv_part e st f l = some st := by
    unfold mpi_send_xv_part
    simp only [hli]
    rw [activate_noop hlio]
    unfold mpi_drift_part
    simp only [hdi]
    rw [activate_noop hdio]
    unfold mpi_send_rho_ti
    split
    · next hact =>
      obtain ⟨⟨lr, hlr, hlro⟩, ⟨lt, hlt2, hlto⟩⟩ := h5 hact
      simp only [hlr]
      rw [activate_noop hlro]
      simp only [hlt2]
      rw [activate_noop hlto]
    · rfl
  simp only [activate_mpi_dir, cellAt_activate]
  rw [activate_noop h1]
  split
  · next hact =>
    obtain ⟨ha, hb⟩ := h2 hact
    rw [activate_noop ha, activate_noop hb]
    exact hxvfix
  · exact hxvfix

theorem process_pair_active_fix {e : MarkCtx} {st : MarkState} {t : Task}
    {cjx : Nat}
    (hd : t.subtype = TaskSubtype.density →
      ((t.ttype = TaskType.pair →
        SortPost st t.ci (1 <<< t.flags) ∧ SortPost st cjx (1 <<< t.flags)) ∧
       ((cellAt st t.ci).nodeID ≠ e.engine_rank → MpiPost e st t.ci cjx) ∧
       ((cellAt st t.ci).nodeID = e.engine_rank →
         (cellAt st cjx).nodeID ≠ e.engine_rank → MpiPost e st cjx t.ci))) :
    process_pair_active e st t cjx = some st := by
  simp only [process_pair_active, cellAt_activate_sorts]
  by_cases hdn : t.subtype ≠ TaskSubtype.density
  · rw [if_pos hdn]
  · rw [if_neg hdn]
    obtain ⟨hsorts, hmpi1, hmpi2⟩ := hd (not_not.mp hdn)
    have hs2 : (if t.ttype = TaskType.pair then
        activate_sorts (activate_sorts st t.ci (1 <<< t.flags)) cjx (1 <<< t.flags)
      else st) = st := by
      split
      · next hp =>
        obtain ⟨hsa, hsb⟩ := hsorts hp
        rw [activate_sorts_noop hsa]
        exact activate_sorts_noop hsb
      · rfl
    rw [hs2]
    split
    · next hnode =>
      exact mpi_fix (hmpi1 hnode)
    · next hnode =>
      split
      · next hnode2 =>
        exact mpi_fix (hmpi2 (not_not.mp (by simpa using hnode)) hnode2)
      · rfl

theorem process_fix {e : MarkCtx} {st : MarkState} {i : Nat}
    (hp : Post e st i) : process_task e st i = some st := by
  obtain ⟨hA, hB, hC⟩ := hp
  simp only [process_task]
  split
  · next hc =>
    have hsk : singleKind (taskAt st i).ttype = true := by
      rcases hc with h1 | h1 | h1 | h1 | h1 | h1 <;> rw [h1] <;> rfl
    obtain ⟨ha, _⟩ := hA hsk
    split
    · next hact =>
      rw [activate_noop (ha hact)]
    · rfl
  · split
    · next hc =>
      have hpk : pairKind (taskAt st i).ttype = true := by
        rcases hc with h1 | h1 <;> rw [h1] <;> rfl
      obtain ⟨cjx, hcj, hpp⟩ := hC hpk
      simp only [hcj]
      obtain ⟨h1, h2⟩ := hpp
      simp only [process_pair]
      have hrebfix : (if ((taskAt st i).tight &&
          rebuildCond e (cellAt st (taskAt st i).ci) (cellAt st cjx)) = true then
          ({ st with rebuild := true } : MarkState) else st) = st := by
        split
        · next hcond =>
          obtain ⟨ht, hcnd⟩ := Bool.and_eq_true_iff.mp hcond
          exact set_rebuild_noop (h1 ht hcnd)
        · rfl
      rw [hrebfix]
      split
      · next hact =>
        obtain ⟨hoff, hdens⟩ := h2 hact
        rw [activate_noop hoff]
        exact process_pair_active_fix hdens
      · rfl
    · split
      · next hc =>
        have hsk : singleKind (taskAt st i).ttype = true := by
          rcases hc with h1 | h1 | h1 | h1 <;> rw [h1] <;> rfl
        obtain ⟨ha, _⟩ := hA hsk
        split
        · next hact =>
          rw [activate_noop (ha hact)]
        · rfl
      · split
        · next hc =>
          have hsk : singleKind (taskAt st i).ttype = true := by
            rw [hc]
            rfl
          obtain ⟨ha, hts⟩ := hA hsk
          rw [reset_noop (hts hc)]
          split
          · next hact =>
            rw [activate_noop (ha hact)]
          · rfl
        · split
          · next hc =>
            rw [activate_noop (hB hc)]
          · rfl

/-! ## Run-level postconditions and idempotence -/

theorem run_post_preserve {e : MarkCtx} {i : Nat} :
    ∀ {L : List Nat} {st st' : MarkState}, WF st →
    run_tasks e st L = some st' → Post e st i → Post e st' i := by
  intro L
  induction L with
  | nil =>
    intro st st' hwf h hp
    obtain rfl := Option.some.inj h
    exact hp
  | cons a rest ih =>
    intro st st' hwf h hp
    unfold run_tasks at h
    split at h
    · exact absurd h (by simp)
    · next s1 hs1 =>
      by_cases hsort : (taskAt st i).ttype = TaskType.sort
      · exact post_of_inert
          (stepOK_trans (stepOK_process_task hs1) (stepOK_run_tasks h))
          (by rw [hsort]; rfl) (by rw [hsort]; rfl) (by rw [hsort]; simp)
      · exact ih (coreEq_WF (stepOK_process_task hs1).core hwf) h
          (post_mono (stepOK_process_task hs1)
            (flags_process_task hwf hs1 hsort) hp)

theorem run_post {e : MarkCtx} : ∀ {L : List Nat} {st st' : MarkState},
    WF st → run_tasks e st L = some st' → ∀ i ∈ L, Post e st' i := by
  intro L
  induction L with
  | nil =>
    intro st st' hwf h i hi
    exact absurd hi (by simp)
  | cons a rest ih =>
    intro st st' hwf h i hi
    unfold run_tasks at h
    split at h
    · exact absurd h (by simp)
    · next s1 hs1 =>
      rcases List.mem_cons.mp hi with rfl | hi2
      · exact run_post_preserve (coreEq_WF (stepOK_process_task hs1).core hwf) h
          (post_process hwf hs1)
      · exact ih (coreEq_WF (stepOK_process_task hs1).core hwf) h i hi2

theorem run_fix {e : MarkCtx} : ∀ {L : List Nat} {st : MarkState},
    (∀ i ∈ L, Post e st i) → run_tasks e st L = some st := by
  intro L
  induction L with
  | nil =>
    intro st _
    rfl
  | cons a rest ih =>
    intro st hall
    show run_tasks e st (a :: rest) = some st
    unfold run_tasks
    rw [process_fix (hall a (by simp))]
    exact ih (fun i hi => hall i (by simp [hi]))

/-! ## Claims C5 and C6 -/

/-- C5 (amended).  When the pass activates a pair-density task (type `pair`,
subtype `density`, at least one cell active), then in the final state: for
each participating cell whose `sorted` mask lacks the pair's axis bit, that
cell's sort task carries the axis bit in its flag word and is activated
(cells already sorted along the axis are left alone); and when the pair's
`ci` (resp. `cj`) is foreign, the foreign cell's `recv_xv` is activated,
its `recv_rho`/`recv_ti` are activated if the foreign cell is active, the
local cell's matching `send_xv` link and its super-cell drift task are
activated, and the matching `send_rho`/`send_ti` are activated if the local
cell is active.  (The claim as stated omits the sorted-mask qualification
and the activity qualifications on `recv_rho`/`recv_ti`/`send_rho`/`send_ti`.) -/
theorem C5_pair_density_side_effects (e : MarkCtx) (tasks : List Task)
    (cells : List Cell) (st' : MarkState)
    (hwf : WF (initState tasks cells))
    (hrun : engine_marktasks e tasks cells = some st') :
    ∀ i, i < tasks.length →
    (taskAt (initState tasks cells) i).ttype = TaskType.pair →
    (taskAt (initState tasks cells) i).subtype = TaskSubtype.density →
    ∀ cjx, (taskAt (initState tasks cells) i).cj = some cjx →
    (cell_is_active e (initState tasks cells)
        (taskAt (initState tasks cells) i).ci = true ∨
      cell_is_active e (initState tasks cells) cjx = true) →
    (SortPost st' (taskAt (initState tasks cells) i).ci
        (1 <<< (taskAt (initState tasks cells) i).flags) ∧
      SortPost st' cjx (1 <<< (taskAt (initState tasks cells) i).flags)) ∧
    ((cellAt (initState tasks cells)
        (taskAt (initState tasks cells) i).ci).nodeID ≠ e.engine_rank →
      MpiPost e st' (taskAt (initState tasks cells) i).ci cjx) ∧
    ((cellAt (initState tasks cells)
        (taskAt (initState tasks cells) i).ci).nodeID = e.engine_rank →
      (cellAt (initState tasks cells) cjx).nodeID ≠ e.engine_rank →
      MpiPost e st' cjx (taskAt (initState tasks cells) i).ci) := by
  intro i hi hpair hdens cjx hcj hact
  have hrun' : run_tasks e (initState tasks cells) (List.range tasks.length) =
      some st' := hrun
  have hok := stepOK_run_tasks hrun'
  have hpost := run_post hwf hrun' i (List.mem_range.mpr hi)
  have htyeq := coreEq_ttype hok.core i
  have hcieq := coreEq_ci hok.core i
  have hcjeq := coreEq_cj hok.core i
  have hsubeq := coreEq_subtype hok.core i
  have hfleq : flagsAt st' i = flagsAt (initState tasks cells) i :=
    flags_run_tasks hwf hrun' i (by rw [hpair]; simp)
  obtain ⟨_, _, hC⟩ := hpost
  obtain ⟨cjy, hcj2, hpp⟩ := hC (by rw [htyeq, hpair]; rfl)
  rw [hcjeq, hcj] at hcj2
  have hcc : cjx = cjy := Option.some.inj hcj2
  subst hcc
  obtain ⟨_, h2⟩ := hpp
  have hact' : (cell_is_active e st' (taskAt st' i).ci ||
      cell_is_active e st' cjx) = true := by
    rw [hcieq, coreEq_active hok.core e, coreEq_active hok.core e]
    rcases hact with h1 | h1
    · rw [h1]
      rfl
    · rw [h1]
      simp
  obtain ⟨_, hd⟩ := h2 hact'
  obtain ⟨hsorts, hmpi1, hmpi2⟩ := hd (by rw [hsubeq, hdens])
  have hfl2 : (taskAt st' i).flags = (taskAt (initState tasks cells) i).flags :=
    hfleq
  refine ⟨?_, ?_, ?_⟩
  · have := hsorts (by rw [htyeq, hpair])
    rw [hcieq, hfl2] at this
    exact this
  · intro hnode
    have := hmpi1 (by
      rw [hcieq, coreEq_cell_field hok.core Cell.nodeID (fun _ => rfl)]
      exact hnode)
    rw [hcieq] at this
    exact this
  · intro hnode1 hnode2
    have := hmpi2 (by
        rw [hcieq, coreEq_cell_field hok.core Cell.nodeID (fun _ => rfl)]
        exact hnode1)
      (by
        rw [coreEq_cell_field hok.core Cell.nodeID (fun _ => rfl)]
        exact hnode2)
    rw [hcieq] at this
    exact this

/-- C5 as literally stated is false: a cell already sorted along the pair's
axis does not get its sort task activated (concrete input: pair-density task
over cell 0, sorted along axis 0, and cell 1, unsorted; both active). -/
theorem C5_counterexample : ¬ c5OrigClaim := by
  intro hcl
  have h0 := hcl exCtx exC5Tasks exC5Cells exC5St (by with_unfolding_all rfl)
      0 (by decide) (by decide) (by decide) 1 (by decide) (Or.inl (by decide))
  exact absurd h0.1 (by decide)

/-- Witness for C5: the unsorted cell's sort task is activated. -/
theorem C5_pair_density_side_effects_witness : skipAt exC5St 2 = false := by
  have h := C5_pair_density_side_effects exCtx exC5Tasks exC5Cells exC5St
      (by unfold WF cellWF typeOkAt; decide) (by with_unfolding_all rfl)
      0 (by decide) (by decide) (by decide) 1 (by decide) (Or.inl (by decide))
  have hs := h.1.2 (by decide)
  exact hs.2 (by decide)

/-- C6 (confirmed).  Running the marktasks pass a second time on the state
produced by a first run, with the same engine context (same current time)
and no intervening change to cells or tasks, returns the state unchanged —
in particular the set of active (non-skipped) tasks is exactly that of the
single run. -/
theorem C6_unskip_idempotent (e : MarkCtx) (tasks : List Task)
    (cells : List Cell) (st1 : MarkState)
    (hwf : WF (initState tasks cells))
    (h1 : engine_marktasks e tasks cells = some st1) :
    engine_marktasks_mapper e st1 = some st1 := by
  have h1' : run_tasks e (initState tasks cells) (List.range tasks.length) =
      some st1 := h1
  have hposts := run_post hwf h1'
  have hlen : st1.tasks.length = tasks.length := (stepOK_run_tasks h1').core.tlen
  show run_tasks e st1 (List.range st1.tasks.length) = some st1
  rw [hlen]
  exact run_fix (fun i hi => hposts i hi)

/-- Witness for C6: the second pass on the C1 witness state is the identity. -/
theorem C6_unskip_idempotent_witness :
    engine_marktasks_mapper exCtx exC1WitSt = some exC1WitSt :=
  C6_unskip_idempotent exCtx [exSelfTask] [exWfCell] exC1WitSt
    (by unfold WF cellWF typeOkAt; decide) (by with_unfolding_all rfl)

/-! ## C3: counting and membership machinery for the hydro-loop enumeration -/

theorem countP_flatMap {α : Type} (l : List α) (f : α → List Task)
    (p : Task → Bool) :
    (l.flatMap f).countP p = (l.map fun a => (f a).countP p).sum := by
  induction l with
  | nil => rfl
  | cons a l ih =>
    simp only [List.flatMap_cons, List.countP_append, List.map_cons,
      List.sum_cons, ih]

theorem sum_map_range_zero (f : Nat → Nat) :
    ∀ n, (∀ i, i < n → f i = 0) → ((List.range n).map f).sum = 0 := by
  intro n
  induction n with
  | zero => intro _; rfl
  | succ m ih =>
    intro hz
    rw [List.range_succ, List.map_append, List.sum_append,
      ih (fun i hi => hz i (Nat.lt_succ_of_lt hi))]
    simp [hz m (Nat.lt_succ_self m)]

theorem sum_map_range_single (f : Nat → Nat) (i0 : Nat) :
    ∀ n, i0 < n → (∀ i, i < n → i ≠ i0 → f i = 0) →
      ((List.range n).map f).sum = f i0 := by
  intro n
  induction n with
  | zero => intro h0 _; exact absurd h0 (Nat.not_lt_zero i0)
  | succ m ih =>
    intro h0 hz
    rw [List.range_succ, List.map_append, List.sum_append]
    by_cases hc : i0 = m
    · rw [sum_map_range_zero f m
        (fun i hi => hz i (Nat.lt_succ_of_lt hi) (by omega))]
      simp [hc]
    · rw [ih (by omega) (fun i hi hne => hz i (Nat.lt_succ_of_lt hi) hne)]
      have hm0 : f m = 0 := hz m (Nat.lt_succ_self m) (by omega)
      simp [hm0]

theorem countP_flatMap_range_zero (m : Nat) (F : Nat → List Task)
    (p : Task → Bool) (hz : ∀ a, a < m → (F a).countP p = 0) :
    ((List.range m).flatMap F).countP p = 0 := by
  rw [countP_flatMap]
  exact sum_map_range_zero (fun a => (F a).countP p) m hz

theorem countP_flatMap_range_single (m : Nat) (F : Nat → List Task)
    (p : Task → Bool) (a0 : Nat) (h0 : a0 < m)
    (hz : ∀ a, a < m → a ≠ a0 → (F a).countP p = 0) :
    ((List.range m).flatMap F).countP p = (F a0).countP p := by
  rw [countP_flatMap]
  exact sum_map_range_single (fun a => (F a).countP p) a0 m h0 hz

theorem mixedRadix_inj (n a b a2 b2 : Nat) (hb : b < n) (hb2 : b2 < n)
    (h : a * n + b = a2 * n + b2) : a = a2 ∧ b = b2 := by
  have hn : 0 < n := by omega
  have hm : b = b2 := by
    have h2 := congrArg (fun x => x % n) h
    simpa [Nat.add_comm, Nat.add_mul_mod_self_right, Nat.mod_eq_of_lt hb,
      Nat.mod_eq_of_lt hb2] using h2
  refine ⟨Nat.eq_of_mul_eq_mul_right hn (by omega), hm⟩

theorem cell_getid_expand (g : HydroGrid) (i j k : Nat) :
    cell_getid g i j k = (i * g.cdim1 + j) * g.cdim2 + k := by
  unfold cell_getid
  ring

theorem cell_getid_inj (g : HydroGrid) (i j k i2 j2 k2 : Nat)
    (hj : j < g.cdim1) (hk : k < g.cdim2)
    (hj2 : j2 < g.cdim1) (hk2 : k2 < g.cdim2)
    (h : cell_getid g i j k = cell_getid g i2 j2 k2) :
    i = i2 ∧ j = j2 ∧ k = k2 := by
  rw [cell_getid_expand, cell_getid_expand] at h
  obtain ⟨hij, hkk⟩ := mixedRadix_inj g.cdim2 _ k _ k2 hk hk2 h
  obtain ⟨hi, hj⟩ := mixedRadix_inj g.cdim1 _ j _ j2 hj hj2 hij
  exact ⟨hi, hj, hkk⟩

theorem wrapCoord_true (dim : Nat) (x : Int) :
    wrapCoord true dim x = some ((x + dim) % dim).toNat := by
  simp [wrapCoord]

theorem wrapCoord_lt (p : Bool) (dim : Nat) (hd : 0 < dim) (x : Int) (y : Nat)
    (h : wrapCoord p dim x = some y) : y < dim := by
  unfold wrapCoord at h
  split at h
  · exact absurd h (by simp)
  · have h2 := Option.some.inj h
    have hdz : (dim : Int) ≠ 0 := by exact_mod_cast (by omega : dim ≠ 0)
    have h3 : 0 ≤ (x + dim) % dim := Int.emod_nonneg _ hdz
    have h4 : (x + dim) % dim < dim := Int.emod_lt_of_pos _ (by exact_mod_cast hd)
    omega

theorem wrapCoord_inj (dim : Nat) (hd : 3 ≤ dim) (x : Int) (a b : Nat)
    (ha : a < 3) (hb : b < 3) (y : Nat)
    (h1 : wrapCoord true dim (x + ((a : Int) - 1)) = some y)
    (h2 : wrapCoord true dim (x + ((b : Int) - 1)) = some y) : a = b := by
  rw [wrapCoord_true] at h1 h2
  have e1 := Option.some.inj h1
  have e2 := Option.some.inj h2
  have hdz : (dim : Int) ≠ 0 := by exact_mod_cast (by omega : dim ≠ 0)
  have n1 : 0 ≤ (x + ((a : Int) - 1) + dim) % dim := Int.emod_nonneg _ hdz
  have n2 : 0 ≤ (x + ((b : Int) - 1) + dim) % dim := Int.emod_nonneg _ hdz
  have hmod : (x + ((a : Int) - 1) + dim) % dim
      = (x + ((b : Int) - 1) + dim) % dim := by omega
  have hsub := Int.emod_eq_emod_iff_emod_sub_eq_zero.mp hmod
  have hsub2 : ((a : Int) - b) % dim = 0 := by
    have he : (x + ((a : Int) - 1) + dim) - (x + ((b : Int) - 1) + dim)
        = (a : Int) - b := by ring
    rwa [he] at hsub
  have hz : ((a : Int) - b) = 0 :=
    Int.eq_zero_of_abs_lt_dvd (Int.dvd_of_emod_eq_zero hsub2)
      (abs_lt.mpr ⟨by omega, by omega⟩)
  omega

theorem mem_hydro_pair_body {g : HydroGrid} {n : Int} {cid cjd idx : Nat}
    {t : Task} (h : t ∈ hydro_pair_body g n cid cjd idx) :
    cid < cjd ∧ g.count cjd ≠ 0 ∧
    (g.cellNode cid = n ∨ g.cellNode cjd = n) ∧
    t = mkPairDensity (sortlistID.getD idx 0) cid cjd := by
  unfold hydro_pair_body at h
  split at h
  · exact absurd h (List.not_mem_nil t)
  · rename_i hg
    push_neg at hg
    obtain ⟨h1, h2, h3⟩ := hg
    refine ⟨by omega, h2, ?_, List.mem_singleton.mp h⟩
    by_cases hc : g.cellNode cid = n
    · exact Or.inl hc
    · exact Or.inr (h3 hc)

theorem mem_hydro_pair_kk {g : HydroGrid} {n : Int}
    {i j k ia ja iii jjj : Nat} {t : Task}
    (h : t ∈ hydro_pair_kk g n i j k ia ja iii jjj) :
    ∃ (ka : Nat) (kkk : Nat), ka < 3 ∧
      wrapCoord g.periodic g.cdim2 ((k : Int) + ((ka : Int) - 1)) = some kkk ∧
      t ∈ hydro_pair_body g n (cell_getid g i j k) (cell_getid g iii jjj kkk)
          (ka + 3 * (ja + 3 * ia)) := by
  unfold hydro_pair_kk at h
  rw [List.mem_flatMap] at h
  obtain ⟨ka, hka, hmem⟩ := h
  rw [List.mem_range] at hka
  rcases hw : wrapCoord g.periodic g.cdim2 ((k : Int) + ((ka : Int) - 1)) with
    _ | kkk
  · rw [hw] at hmem
    exact absurd hmem (List.not_mem_nil t)
  · rw [hw] at hmem
    exact ⟨ka, kkk, hka, hw, hmem⟩

theorem mem_hydro_pair_jj {g : HydroGrid} {n : Int} {i j k ia iii : Nat}
    {t : Task} (h : t ∈ hydro_pair_jj g n i j k ia iii) :
    ∃ (ja : Nat) (jjj : Nat), ja < 3 ∧
      wrapCoord g.periodic g.cdim1 ((j : Int) + ((ja : Int) - 1)) = some jjj ∧
      t ∈ hydro_pair_kk g n i j k ia ja iii jjj := by
  unfold hydro_pair_jj at h
  rw [List.mem_flatMap] at h
  obtain ⟨ja, hja, hmem⟩ := h
  rw [List.mem_range] at hja
  rcases hw : wrapCoord g.periodic g.cdim1 ((j : Int) + ((ja : Int) - 1)) with
    _ | jjj
  · rw [hw] at hmem
    exact absurd hmem (List.not_mem_nil t)
  · rw [hw] at hmem
    exact ⟨ja, jjj, hja, hw, hmem⟩

theorem mem_pair_tasks_at {g : HydroGrid} {n : Int} {i j k : Nat} {t : Task}
    (h : t ∈ pair_tasks_at g n i j k) :
    ∃ (ia : Nat) (ja : Nat) (ka : Nat) (iii : Nat) (jjj : Nat) (kkk : Nat),
      ia < 3 ∧ ja < 3 ∧ ka < 3 ∧
      wrapCoord g.periodic g.cdim0 ((i : Int) + ((ia : Int) - 1)) = some iii ∧
      wrapCoord g.periodic g.cdim1 ((j : Int) + ((ja : Int) - 1)) = some jjj ∧
      wrapCoord g.periodic g.cdim2 ((k : Int) + ((ka : Int) - 1)) = some kkk ∧
      cell_getid g i j k < cell_getid g iii jjj kkk ∧
      g.count (cell_getid g iii jjj kkk) ≠ 0 ∧
      (g.cellNode (cell_getid g i j k) = n ∨
        g.cellNode (cell_getid g iii jjj kkk) = n) ∧
      t = mkPairDensity (sortlistID.getD (ka + 3 * (ja + 3 * ia)) 0)
            (cell_getid g i j k) (cell_getid g iii jjj kkk) := by
  unfold pair_tasks_at at h
  rw [List.mem_flatMap] at h
  obtain ⟨ia, hia, hmem⟩ := h
  rw [List.mem_range] at hia
  rcases hw : wrapCoord g.periodic g.cdim0 ((i : Int) + ((ia : Int) - 1)) with
    _ | iii
  · rw [hw] at hmem
    exact absurd hmem (List.not_mem_nil t)
  · rw [hw] at hmem
    obtain ⟨ja, jjj, hja, hwj, hmem2⟩ := mem_hydro_pair_jj hmem
    obtain ⟨ka, kkk, hka, hwk, hmem3⟩ := mem_hydro_pair_kk hmem2
    obtain ⟨hlt, hcnt, hloc, heq⟩ := mem_hydro_pair_body hmem3
    exact ⟨ia, ja, ka, iii, jjj, kkk, hia, hja, hka, hw, hwj, hwk, hlt, hcnt,
      hloc, heq⟩

theorem mem_hydro_cell_block {g : HydroGrid} {n : Int} {i j k : Nat} {t : Task}
    (h : t ∈ hydro_cell_block g n i j k) :
    (t = mkSelfDensity (cell_getid g i j k) ∧
      g.count (cell_getid g i j k) ≠ 0 ∧
      g.cellNode (cell_getid g i j k) = n) ∨
    t ∈ pair_tasks_at g n i j k := by
  unfold hydro_cell_block at h
  split at h
  · exact absurd h (List.not_mem_nil t)
  · rename_i hcnt
    rw [List.mem_append] at h
    rcases h with h | h
    · split at h
      · rename_i hloc
        exact Or.inl ⟨List.mem_singleton.mp h, hcnt, hloc⟩
      · exact absurd h (List.not_mem_nil t)
    · exact Or.inr h

theorem wrap_toNat_lt (dim : Nat) (hd : 0 < dim) (x : Int) :
    ((x + dim) % dim).toNat < dim := by
  have hdz : (dim : Int) ≠ 0 := by exact_mod_cast (by omega : dim ≠ 0)
  have h1 : 0 ≤ (x + dim) % dim := Int.emod_nonneg _ hdz
  have h2 : (x + dim) % dim < dim := Int.emod_lt_of_pos _ (by exact_mod_cast hd)
  omega

theorem selfAt_pair_tasks_zero (g : HydroGrid) (n : Int) (a i j k : Nat) :
    (pair_tasks_at g n i j k).countP (selfAt a) = 0 := by
  rw [List.countP_eq_zero]
  intro t ht
  obtain ⟨ia, ja, ka, iii, jjj, kkk, _, _, _, _, _, _, _, _, _, heq⟩ :=
    mem_pair_tasks_at ht
  subst heq
  simp [selfAt, mkPairDensity]

theorem selfAt_block_zero (g : HydroGrid) (n : Int) (i j k i2 j2 k2 : Nat)
    (hj : j < g.cdim1) (hk : k < g.cdim2)
    (hj2 : j2 < g.cdim1) (hk2 : k2 < g.cdim2)
    (hne : ¬(i2 = i ∧ j2 = j ∧ k2 = k)) :
    (hydro_cell_block g n i2 j2 k2).countP
      (selfAt (cell_getid g i j k)) = 0 := by
  rw [List.countP_eq_zero]
  intro t ht
  rcases mem_hydro_cell_block ht with ⟨heq, _, _⟩ | hpt
  · subst heq
    intro hp
    simp only [selfAt, mkSelfDensity, decide_eq_true_eq] at hp
    exact hne (cell_getid_inj g i2 j2 k2 i j k hj2 hk2 hj hk hp.2)
  · exact List.countP_eq_zero.mp (selfAt_pair_tasks_zero g n _ i2 j2 k2) t hpt

theorem selfAt_block_count (g : HydroGrid) (n : Int) (i j k : Nat) :
    (hydro_cell_block g n i j k).countP (selfAt (cell_getid g i j k)) =
      if g.count (cell_getid g i j k) ≠ 0 ∧
          g.cellNode (cell_getid g i j k) = n then 1 else 0 := by
  unfold hydro_cell_block
  split
  · rename_i hc
    rw [if_neg (fun hp => hp.1 hc)]
    rfl
  · rename_i hc
    rw [List.countP_append, selfAt_pair_tasks_zero]
    split
    · rename_i hloc
      rw [if_pos ⟨hc, hloc⟩]
      simp [selfAt, mkSelfDensity]
    · rename_i hloc
      rw [if_neg (fun hp => hloc hp.2)]
      rfl

theorem countP_hydroloop_blocks (g : HydroGrid) (n : Int) (p : Task → Bool)
    (i j k : Nat) (hi : i < g.cdim0) (hj : j < g.cdim1) (hk : k < g.cdim2)
    (hz : ∀ i2 j2 k2, i2 < g.cdim0 → j2 < g.cdim1 → k2 < g.cdim2 →
      ¬(i2 = i ∧ j2 = j ∧ k2 = k) →
      (hydro_cell_block g n i2 j2 k2).countP p = 0) :
    (engine_make_hydroloop_tasks g n).countP p =
      (hydro_cell_block g n i j k).countP p := by
  have h2 : ∀ i2 j2, i2 < g.cdim0 → j2 < g.cdim1 → ¬(i2 = i ∧ j2 = j) →
      ((List.range g.cdim2).flatMap fun k2 =>
        hydro_cell_block g n i2 j2 k2).countP p = 0 := by
    intro i2 j2 hi2 hj2 hne2
    exact countP_flatMap_range_zero _ _ _ (fun k2 hk2 =>
      hz i2 j2 k2 hi2 hj2 hk2 (fun h => hne2 ⟨h.1, h.2.1⟩))
  have h1 : ∀ i2, i2 < g.cdim0 → i2 ≠ i →
      ((List.range g.cdim1).flatMap fun j2 =>
        (List.range g.cdim2).flatMap fun k2 =>
          hydro_cell_block g n i2 j2 k2).countP p = 0 := by
    intro i2 hi2 hne2
    exact countP_flatMap_range_zero _ _ _ (fun j2 hj2 =>
      h2 i2 j2 hi2 hj2 (fun h => hne2 h.1))
  unfold engine_make_hydroloop_tasks
  rw [countP_flatMap_range_single g.cdim0 _ p i hi h1]
  rw [countP_flatMap_range_single g.cdim1 _ p j hj (fun j2 hj2 hne2 =>
    h2 i j2 hi hj2 (fun h => hne2 h.2))]
  rw [countP_flatMap_range_single g.cdim2 _ p k hk (fun k2 hk2 hne2 =>
    hz i j k2 hi hj hk2 (fun h => hne2 h.2.2))]

theorem C3_self_count (g : HydroGrid) (n : Int) (i j k : Nat)
    (hi : i < g.cdim0) (hj : j < g.cdim1) (hk : k < g.cdim2) :
    (engine_make_hydroloop_tasks g n).countP (selfAt (cell_getid g i j k)) =
      if g.count (cell_getid g i j k) ≠ 0 ∧
          g.cellNode (cell_getid g i j k) = n then 1 else 0 := by
  rw [countP_hydroloop_blocks g n _ i j k hi hj hk
    (fun i2 j2 k2 _ hj2 hk2 hne =>
      selfAt_block_zero g n i j k i2 j2 k2 hj hk hj2 hk2 hne)]
  exact selfAt_block_count g n i j k

theorem pairBetween_pair_tasks_zero (g : HydroGrid) (n : Int)
    (i j k i2 j2 k2 : Nat) (hj : j < g.cdim1) (hk : k < g.cdim2)
    (hj2 : j2 < g.cdim1) (hk2 : k2 < g.cdim2)
    (b : Nat) (hab : cell_getid g i j k < b)
    (hne : ¬(i2 = i ∧ j2 = j ∧ k2 = k)) :
    (pair_tasks_at g n i2 j2 k2).countP
      (pairBetween (cell_getid g i j k) b) = 0 := by
  rw [List.countP_eq_zero]
  intro t ht hp
  obtain ⟨ia, ja, ka, iii, jjj, kkk, _, _, _, _, _, _, hlt, _, _, heq⟩ :=
    mem_pair_tasks_at ht
  subst heq
  simp only [pairBetween, mkPairDensity, decide_eq_true_eq] at hp
  rcases hp.2 with ⟨hci, _⟩ | ⟨hci, hcj⟩
  · exact hne (cell_getid_inj g i2 j2 k2 i j k hj2 hk2 hj hk hci)
  · have hcj2 := Option.some.inj hcj
    omega

theorem pairBetween_block_zero (g : HydroGrid) (n : Int)
    (i j k i2 j2 k2 : Nat) (hj : j < g.cdim1) (hk : k < g.cdim2)
    (hj2 : j2 < g.cdim1) (hk2 : k2 < g.cdim2)
    (b : Nat) (hab : cell_getid g i j k < b)
    (hne : ¬(i2 = i ∧ j2 = j ∧ k2 = k)) :
    (hydro_cell_block g n i2 j2 k2).countP
      (pairBetween (cell_getid g i j k) b) = 0 := by
  rw [List.countP_eq_zero]
  intro t ht
  rcases mem_hydro_cell_block ht with ⟨heq, _, _⟩ | hpt
  · subst heq
    simp [pairBetween, mkSelfDensity]
  · exact List.countP_eq_zero.mp
      (pairBetween_pair_tasks_zero g n i j k i2 j2 k2 hj hk hj2 hk2 b hab hne)
      t hpt

theorem pairBetween_jj_zero (g : HydroGrid) (n : Int)
    (i j k ia2 iii2 : Nat) (i2 j2 k2 : Nat)
    (hj2 : j2 < g.cdim1) (hk2 : k2 < g.cdim2)
    (hc1 : 0 < g.cdim1) (hc2 : 0 < g.cdim2)
    (hab : cell_getid g i j k < cell_getid g i2 j2 k2)
    (hiii : iii2 ≠ i2) :
    (hydro_pair_jj g n i j k ia2 iii2).countP
      (pairBetween (cell_getid g i j k) (cell_getid g i2 j2 k2)) = 0 := by
  rw [List.countP_eq_zero]
  intro t ht hp
  obtain ⟨ja, jjj, hja, hwj, hm2⟩ := mem_hydro_pair_jj ht
  obtain ⟨ka, kkk, hka, hwk, hm3⟩ := mem_hydro_pair_kk hm2
  obtain ⟨hlt, _, _, heq⟩ := mem_hydro_pair_body hm3
  subst heq
  simp only [pairBetween, mkPairDensity, decide_eq_true_eq] at hp
  have hjjj := wrapCoord_lt g.periodic g.cdim1 hc1 _ _ hwj
  have hkkk := wrapCoord_lt g.periodic g.cdim2 hc2 _ _ hwk
  rcases hp.2 with ⟨_, hcj⟩ | ⟨hci, _⟩
  · have hcj2 := Option.some.inj hcj
    exact hiii (cell_getid_inj g iii2 jjj kkk i2 j2 k2 hjjj hkkk hj2 hk2
      hcj2).1
  · omega

theorem pairBetween_kk_zero (g : HydroGrid) (n : Int)
    (i j k ia0 ja2 iii2 jjj2 : Nat) (i2 j2 k2 : Nat)
    (hj2 : j2 < g.cdim1) (hk2 : k2 < g.cdim2)
    (hjb : jjj2 < g.cdim1) (hc2 : 0 < g.cdim2)
    (hab : cell_getid g i j k < cell_getid g i2 j2 k2)
    (hjjj : jjj2 ≠ j2) :
    (hydro_pair_kk g n i j k ia0 ja2 iii2 jjj2).countP
      (pairBetween (cell_getid g i j k) (cell_getid g i2 j2 k2)) = 0 := by
  rw [List.countP_eq_zero]
  intro t ht hp
  obtain ⟨ka, kkk, hka, hwk, hm3⟩ := mem_hydro_pair_kk ht
  obtain ⟨hlt, _, _, heq⟩ := mem_hydro_pair_body hm3
  subst heq
  simp only [pairBetween, mkPairDensity, decide_eq_true_eq] at hp
  have hkkk := wrapCoord_lt g.periodic g.cdim2 hc2 _ _ hwk
  rcases hp.2 with ⟨_, hcj⟩ | ⟨hci, _⟩
  · have hcj2 := Option.some.inj hcj
    exact hjjj (cell_getid_inj g iii2 jjj2 kkk i2 j2 k2 hjb hkkk hj2 hk2
      hcj2).2.1
  · omega

theorem pairBetween_body_zero (g : HydroGrid) (n : Int)
    (cid : Nat) (iii2 jjj2 kkk2 idx : Nat) (i2 j2 k2 : Nat)
    (hj2 : j2 < g.cdim1) (hk2 : k2 < g.cdim2)
    (hjb : jjj2 < g.cdim1) (hkb : kkk2 < g.cdim2)
    (hab : cid < cell_getid g i2 j2 k2)
    (hkkk : kkk2 ≠ k2) :
    (hydro_pair_body g n cid (cell_getid g iii2 jjj2 kkk2) idx).countP
      (pairBetween cid (cell_getid g i2 j2 k2)) = 0 := by
  rw [List.countP_eq_zero]
  intro t ht hp
  obtain ⟨hlt, _, _, heq⟩ := mem_hydro_pair_body ht
  subst heq
  simp only [pairBetween, mkPairDensity, decide_eq_true_eq] at hp
  rcases hp.2 with ⟨_, hcj⟩ | ⟨hci, _⟩
  · have hcj2 := Option.some.inj hcj
    exact hkkk (cell_getid_inj g iii2 jjj2 kkk2 i2 j2 k2 hjb hkb hj2 hk2
      hcj2).2.2
  · omega

theorem pairBetween_pairs_count (g : HydroGrid) (n : Int)
    (hp : g.periodic = true)
    (h30 : 3 ≤ g.cdim0) (h31 : 3 ≤ g.cdim1) (h32 : 3 ≤ g.cdim2)
    (i j k i2 j2 k2 ia ja ka : Nat)
    (hia : ia < 3) (hja : ja < 3) (hka : ka < 3)
    (hw1 : wrapCoord g.periodic g.cdim0 ((i : Int) + ((ia : Int) - 1)) =
      some i2)
    (hw2 : wrapCoord g.periodic g.cdim1 ((j : Int) + ((ja : Int) - 1)) =
      some j2)
    (hw3 : wrapCoord g.periodic g.cdim2 ((k : Int) + ((ka : Int) - 1)) =
      some k2)
    (hcnt : g.count (cell_getid g i2 j2 k2) ≠ 0)
    (hab : cell_getid g i j k < cell_getid g i2 j2 k2)
    (hloc : g.cellNode (cell_getid g i j k) = n ∨
      g.cellNode (cell_getid g i2 j2 k2) = n) :
    (pair_tasks_at g n i j k).countP
      (pairBetween (cell_getid g i j k) (cell_getid g i2 j2 k2)) = 1 := by
  have hj2 : j2 < g.cdim1 := wrapCoord_lt _ _ (by omega) _ _ hw2
  have hk2 : k2 < g.cdim2 := wrapCoord_lt _ _ (by omega) _ _ hw3
  rw [hp, wrapCoord_true] at hw1 hw2 hw3
  have e1 := Option.some.inj hw1
  have e2 := Option.some.inj hw2
  have e3 := Option.some.inj hw3
  have hz1 : ∀ a2, a2 < 3 → a2 ≠ ia →
      (hydro_pair_jj g n i j k a2
        ((((i : Int) + ((a2 : Int) - 1)) + g.cdim0) % g.cdim0).toNat).countP
        (pairBetween (cell_getid g i j k) (cell_getid g i2 j2 k2)) = 0 := by
    intro a2 ha2 hne2
    apply pairBetween_jj_zero g n i j k a2 _ i2 j2 k2 hj2 hk2 (by omega)
      (by omega) hab
    intro he
    exact hne2 (wrapCoord_inj g.cdim0 h30 (i : Int) a2 ia ha2 hia i2 (by
        rw [wrapCoord_true]
        exact congrArg some he)
      (by
        rw [wrapCoord_true]
        exact congrArg some e1))
  have hz2 : ∀ a2, a2 < 3 → a2 ≠ ja →
      (hydro_pair_kk g n i j k ia a2 i2
        ((((j : Int) + ((a2 : Int) - 1)) + g.cdim1) % g.cdim1).toNat).countP
        (pairBetween (cell_getid g i j k) (cell_getid g i2 j2 k2)) = 0 := by
    intro a2 ha2 hne2
    apply pairBetween_kk_zero g n i j k ia a2 i2 _ i2 j2 k2 hj2 hk2
      (wrap_toNat_lt g.cdim1 (by omega) _) (by omega) hab
    intro he
    exact hne2 (wrapCoord_inj g.cdim1 h31 (j : Int) a2 ja ha2 hja j2 (by
        rw [wrapCoord_true]
        exact congrArg some he)
      (by
        rw [wrapCoord_true]
        exact congrArg some e2))
  have hz3 : ∀ a2, a2 < 3 → a2 ≠ ka →
      (hydro_pair_body g n (cell_getid g i j k)
        (cell_getid g i2 j2
          ((((k : Int) + ((a2 : Int) - 1)) + g.cdim2) % g.cdim2).toNat)
        (a2 + 3 * (ja + 3 * ia))).countP
        (pairBetween (cell_getid g i j k) (cell_getid g i2 j2 k2)) = 0 := by
    intro a2 ha2 hne2
    apply pairBetween_body_zero g n (cell_getid g i j k) i2 j2 _ _ i2 j2 k2
      hj2 hk2 hj2 (wrap_toNat_lt g.cdim2 (by omega) _) hab
    intro he
    exact hne2 (wrapCoord_inj g.cdim2 h32 (k : Int) a2 ka ha2 hka k2 (by
        rw [wrapCoord_true]
        exact congrArg some he)
      (by
        rw [wrapCoord_true]
        exact congrArg some e3))
  have hguard : ¬(cell_getid g i2 j2 k2 ≤ cell_getid g i j k ∨
      g.count (cell_getid g i2 j2 k2) = 0 ∨
      (g.cellNode (cell_getid g i j k) ≠ n ∧
        g.cellNode (cell_getid g i2 j2 k2) ≠ n)) := by
    intro h
    rcases h with h | h | h
    · omega
    · exact hcnt h
    · rcases hloc with hl | hl
      · exact h.1 hl
      · exact h.2 hl
  unfold pair_tasks_at
  rw [hp]
  simp only [wrapCoord_true]
  rw [countP_flatMap_range_single 3 _ _ ia hia hz1]
  simp only [e1]
  unfold hydro_pair_jj
  rw [hp]
  simp only [wrapCoord_true]
  rw [countP_flatMap_range_single 3 _ _ ja hja hz2]
  simp only [e2]
  unfold hydro_pair_kk
  rw [hp]
  simp only [wrapCoord_true]
  rw [countP_flatMap_range_single 3 _ _ ka hka hz3]
  simp only [e3]
  unfold hydro_pair_body
  rw [if_neg hguard]
  simp [pairBetween, mkPairDensity]

theorem pairBetween_block_count (g : HydroGrid) (n : Int)
    (hp : g.periodic = true)
    (h30 : 3 ≤ g.cdim0) (h31 : 3 ≤ g.cdim1) (h32 : 3 ≤ g.cdim2)
    (i j k i2 j2 k2 ia ja ka : Nat)
    (hia : ia < 3) (hja : ja < 3) (hka : ka < 3)
    (hw1 : wrapCoord g.periodic g.cdim0 ((i : Int) + ((ia : Int) - 1)) =
      some i2)
    (hw2 : wrapCoord g.periodic g.cdim1 ((j : Int) + ((ja : Int) - 1)) =
      some j2)
    (hw3 : wrapCoord g.periodic g.cdim2 ((k : Int) + ((ka : Int) - 1)) =
      some k2)
    (hcnt0 : g.count (cell_getid g i j k) ≠ 0)
    (hcnt : g.count (cell_getid g i2 j2 k2) ≠ 0)
    (hab : cell_getid g i j k < cell_getid g i2 j2 k2)
    (hloc : g.cellNode (cell_getid g i j k) = n ∨
      g.cellNode (cell_getid g i2 j2 k2) = n) :
    (hydro_cell_block g n i j k).countP
      (pairBetween (cell_getid g i j k) (cell_getid g i2 j2 k2)) = 1 := by
  unfold hydro_cell_block
  rw [if_neg hcnt0, List.countP_append]
  have hself : (if g.cellNode (cell_getid g i j k) = n then
      [mkSelfDensity (cell_getid g i j k)] else []).countP
      (pairBetween (cell_getid g i j k) (cell_getid g i2 j2 k2)) = 0 := by
    split
    · simp [pairBetween, mkSelfDensity]
    · rfl
  rw [hself, pairBetween_pairs_count g n hp h30 h31 h32 i j k i2 j2 k2
    ia ja ka hia hja hka hw1 hw2 hw3 hcnt hab hloc]

theorem C3_pair_count (g : HydroGrid) (n : Int)
    (hp : g.periodic = true)
    (h30 : 3 ≤ g.cdim0) (h31 : 3 ≤ g.cdim1) (h32 : 3 ≤ g.cdim2)
    (i j k i2 j2 k2 ia ja ka : Nat)
    (hi : i < g.cdim0) (hj : j < g.cdim1) (hk : k < g.cdim2)
    (hia : ia < 3) (hja : ja < 3) (hka : ka < 3)
    (hw1 : wrapCoord g.periodic g.cdim0 ((i : Int) + ((ia : Int) - 1)) =
      some i2)
    (hw2 : wrapCoord g.periodic g.cdim1 ((j : Int) + ((ja : Int) - 1)) =
      some j2)
    (hw3 : wrapCoord g.periodic g.cdim2 ((k : Int) + ((ka : Int) - 1)) =
      some k2)
    (hcnt0 : g.count (cell_getid g i j k) ≠ 0)
    (hcnt : g.count (cell_getid g i2 j2 k2) ≠ 0)
    (hab : cell_getid g i j k < cell_getid g i2 j2 k2)
    (hloc : g.cellNode (cell_getid g i j k) = n ∨
      g.cellNode (cell_getid g i2 j2 k2) = n) :
    (engine_make_hydroloop_tasks g n).countP
      (pairBetween (cell_getid g i j k) (cell_getid g i2 j2 k2)) = 1 := by
  rw [countP_hydroloop_blocks g n _ i j k hi hj hk
    (fun i3 j3 k3 _ hj3 hk3 hne =>
      pairBetween_block_zero g n i j k i3 j3 k3 hj hk hj3 hk3 _ hab hne)]
  exact pairBetween_block_count g n hp h30 h31 h32 i j k i2 j2 k2 ia ja ka
    hia hja hka hw1 hw2 hw3 hcnt0 hcnt hab hloc

theorem mem_hydroloop_pair (g : HydroGrid) (n : Int)
    (hp : g.periodic = true)
    (i j k i2 j2 k2 ia ja ka : Nat)
    (hi : i < g.cdim0) (hj : j < g.cdim1) (hk : k < g.cdim2)
    (hia : ia < 3) (hja : ja < 3) (hka : ka < 3)
    (hw1 : wrapCoord g.periodic g.cdim0 ((i : Int) + ((ia : Int) - 1)) =
      some i2)
    (hw2 : wrapCoord g.periodic g.cdim1 ((j : Int) + ((ja : Int) - 1)) =
      some j2)
    (hw3 : wrapCoord g.periodic g.cdim2 ((k : Int) + ((ka : Int) - 1)) =
      some k2)
    (hcnt0 : g.count (cell_getid g i j k) ≠ 0)
    (hcnt : g.count (cell_getid g i2 j2 k2) ≠ 0)
    (hab : cell_getid g i j k < cell_getid g i2 j2 k2)
    (hloc : g.cellNode (cell_getid g i j k) = n ∨
      g.cellNode (cell_getid g i2 j2 k2) = n) :
    mkPairDensity (sortlistID.getD (ka + 3 * (ja + 3 * ia)) 0)
        (cell_getid g i j k) (cell_getid g i2 j2 k2) ∈
      engine_make_hydroloop_tasks g n := by
  rw [hp, wrapCoord_true] at hw1 hw2 hw3
  have e1 := Option.some.inj hw1
  have e2 := Option.some.inj hw2
  have e3 := Option.some.inj hw3
  have hguard : ¬(cell_getid g i2 j2 k2 ≤ cell_getid g i j k ∨
      g.count (cell_getid g i2 j2 k2) = 0 ∨
      (g.cellNode (cell_getid g i j k) ≠ n ∧
        g.cellNode (cell_getid g i2 j2 k2) ≠ n)) := by
    intro h
    rcases h with h | h | h
    · omega
    · exact hcnt h
    · rcases hloc with hl | hl
      · exact h.1 hl
      · exact h.2 hl
  unfold engine_make_hydroloop_tasks
  rw [List.mem_flatMap]
  refine ⟨i, List.mem_range.mpr hi, ?_⟩
  rw [List.mem_flatMap]
  refine ⟨j, List.mem_range.mpr hj, ?_⟩
  rw [List.mem_flatMap]
  refine ⟨k, List.mem_range.mpr hk, ?_⟩
  unfold hydro_cell_block
  rw [if_neg hcnt0]
  apply List.mem_append_right
  unfold pair_tasks_at
  rw [hp]
  simp only [wrapCoord_true]
  rw [List.mem_flatMap]
  refine ⟨ia, List.mem_range.mpr hia, ?_⟩
  simp only [e1]
  unfold hydro_pair_jj
  rw [hp]
  simp only [wrapCoord_true]
  rw [List.mem_flatMap]
  refine ⟨ja, List.mem_range.mpr hja, ?_⟩
  simp only [e2]
  unfold hydro_pair_kk
  rw [hp]
  simp only [wrapCoord_true]
  rw [List.mem_flatMap]
  refine ⟨ka, List.mem_range.mpr hka, ?_⟩
  simp only [e3]
  unfold hydro_pair_body
  rw [if_neg hguard]
  exact List.mem_singleton.mpr rfl

theorem mem_hydroloop_shape {g : HydroGrid} {n : Int} {t : Task}
    (h : t ∈ engine_make_hydroloop_tasks g n) :
    ∃ i j k, i < g.cdim0 ∧ j < g.cdim1 ∧ k < g.cdim2 ∧
      t ∈ hydro_cell_block g n i j k := by
  unfold engine_make_hydroloop_tasks at h
  rw [List.mem_flatMap] at h
  obtain ⟨i, hi, h⟩ := h
  rw [List.mem_flatMap] at h
  obtain ⟨j, hj, h⟩ := h
  rw [List.mem_flatMap] at h
  obtain ⟨k, hk, h⟩ := h
  exact ⟨i, j, k, List.mem_range.mp hi, List.mem_range.mp hj,
    List.mem_range.mp hk, h⟩

/-- C3 (confirmed, for a periodic grid with at least three cells per
dimension).  The hydro-loop enumeration emits, for every top cell with
particles that is local, exactly one self-density task; every emitted pair
task is a tight pair-density task oriented `cid(ci) < cid(cj)`; and for
every pair of non-empty neighbouring cells (neighbour offset
`(ia-1, ja-1, ka-1)`, periodically wrapped) with `cid(ci) < cid(cj)` and at
least one of the two cells local, the task list contains exactly one pair
task between the two cells, namely the pair-density task whose `flags` is
the `sortlistID` axis id of the offset. -/
theorem C3_hydroloop_enumeration (g : HydroGrid) (nodeID : Int)
    (hp : g.periodic = true)
    (h30 : 3 ≤ g.cdim0) (h31 : 3 ≤ g.cdim1) (h32 : 3 ≤ g.cdim2) :
    (∀ i j k, i < g.cdim0 → j < g.cdim1 → k < g.cdim2 →
      (engine_make_hydroloop_tasks g nodeID).countP
          (selfAt (cell_getid g i j k)) =
        if g.count (cell_getid g i j k) ≠ 0 ∧
            g.cellNode (cell_getid g i j k) = nodeID then 1 else 0) ∧
    (∀ t ∈ engine_make_hydroloop_tasks g nodeID, t.ttype = TaskType.pair →
      t.subtype = TaskSubtype.density ∧ t.tight = true ∧
      ∃ b, t.cj = some b ∧ t.ci < b) ∧
    (∀ i j k i2 j2 k2 ia ja ka : Nat,
      i < g.cdim0 → j < g.cdim1 → k < g.cdim2 →
      ia < 3 → ja < 3 → ka < 3 →
      wrapCoord g.periodic g.cdim0 ((i : Int) + ((ia : Int) - 1)) = some i2 →
      wrapCoord g.periodic g.cdim1 ((j : Int) + ((ja : Int) - 1)) = some j2 →
      wrapCoord g.periodic g.cdim2 ((k : Int) + ((ka : Int) - 1)) = some k2 →
      g.count (cell_getid g i j k) ≠ 0 →
      g.count (cell_getid g i2 j2 k2) ≠ 0 →
      cell_getid g i j k < cell_getid g i2 j2 k2 →
      (g.cellNode (cell_getid g i j k) = nodeID ∨
        g.cellNode (cell_getid g i2 j2 k2) = nodeID) →
      (engine_make_hydroloop_tasks g nodeID).countP
          (pairBetween (cell_getid g i j k) (cell_getid g i2 j2 k2)) = 1 ∧
      mkPairDensity (sortlistID.getD (ka + 3 * (ja + 3 * ia)) 0)
          (cell_getid g i j k) (cell_getid g i2 j2 k2) ∈
        engine_make_hydroloop_tasks g nodeID) := by
  refine ⟨?_, ?_, ?_⟩
  · intro i j k hi hj hk
    exact C3_self_count g nodeID i j k hi hj hk
  · intro t ht htype
    obtain ⟨i, j, k, hi, hj, hk, hb⟩ := mem_hydroloop_shape ht
    rcases mem_hydro_cell_block hb with ⟨heq, _, _⟩ | hpt
    · rw [heq] at htype
      exact absurd htype (by simp [mkSelfDensity])
    · obtain ⟨ia, ja, ka, iii, jjj, kkk, _, _, _, _, _, _, hlt, _, _, heq⟩ :=
        mem_pair_tasks_at hpt
      subst heq
      exact ⟨rfl, rfl, cell_getid g iii jjj kkk, rfl, hlt⟩
  · intro i j k i2 j2 k2 ia ja ka hi hj hk hia hja hka hw1 hw2 hw3 hcnt0
      hcnt hab hloc
    exact ⟨C3_pair_count g nodeID hp h30 h31 h32 i j k i2 j2 k2 ia ja ka
        hi hj hk hia hja hka hw1 hw2 hw3 hcnt0 hcnt hab hloc,
      mem_hydroloop_pair g nodeID hp i j k i2 j2 k2 ia ja ka hi hj hk
        hia hja hka hw1 hw2 hw3 hcnt0 hcnt hab hloc⟩

/-- Witness for C3 on the 3×3×3 periodic grid: exactly one pair-density
task between cells 0 and 1, and exactly one self-density task on cell 0. -/
theorem C3_hydroloop_enumeration_witness :
    (engine_make_hydroloop_tasks exGrid 0).countP
        (pairBetween (cell_getid exGrid 0 0 0) (cell_getid exGrid 0 0 1))
      = 1 ∧
    (engine_make_hydroloop_tasks exGrid 0).countP
        (selfAt (cell_getid exGrid 0 0 0)) = 1 := by
  have h := C3_hydroloop_enumeration exGrid 0 rfl (by decide) (by decide)
    (by decide)
  constructor
  · exact (h.2.2 0 0 0 0 0 1 1 1 2 (by decide) (by decide) (by decide)
      (by decide) (by decide) (by decide) (by decide) (by decide) (by decide)
      (by decide) (by decide) (by decide) (Or.inl rfl)).1
  · rw [h.1 0 0 0 (by decide) (by decide) (by decide),
      if_pos ⟨by decide, rfl⟩]

/-! ## C4: machinery for the hierarchical task pass -/

theorem mem_if_singleton {α : Type} {p : Prop} [Decidable p] {x t : α}
    (h : t ∈ (if p then [x] else [])) : t = x := by
  split at h
  · exact List.mem_singleton.mp h
  · exact absurd h (List.not_mem_nil t)

theorem engine_make_hierarchical_tasks_at_norm (e : EnginePolicy) (cid : Nat)
    (s : Sched) :
    engine_make_hierarchical_tasks_at e cid s =
      { tasks := s.tasks ++ hierBlockTasks e cid,
        unlocks := s.unlocks ++ hierBlockUnlocks e cid } := by
  cases hh : e.hydro <;> cases hx : e.extraLoop <;> cases hc : e.cooling <;>
    cases hs : e.sourceterms <;>
    simp [engine_make_hierarchical_tasks_at, scheduler_addtask,
      scheduler_addunlock, hierBlockTasks, hierBlockUnlocks, hh, hx, hc, hs]

mutual

theorem engine_make_hierarchical_tasks_norm (e : EnginePolicy) (c : HCell)
    (s : Sched) :
    engine_make_hierarchical_tasks e c s =
      { tasks := s.tasks ++ (supersOf c).flatMap (hierTasksF e),
        unlocks := s.unlocks ++ (supersOf c).flatMap (hierUnlocksF e) } := by
  cases c with
  | node cid isSuper nID split prog =>
    rw [engine_make_hierarchical_tasks, supersOf]
    by_cases hs1 : isSuper = true
    · rw [if_pos hs1, if_pos hs1]
      by_cases hs2 : nID = e.nodeID
      · rw [if_pos hs2, engine_make_hierarchical_tasks_at_norm]
        simp [hierTasksF, hierUnlocksF, hs2]
      · rw [if_neg hs2]
        simp [hierTasksF, hierUnlocksF, hs2]
    · rw [if_neg hs1, if_neg hs1]
      by_cases hsp : split = true
      · rw [if_pos hsp, if_pos hsp, hierList_norm]
      · rw [if_neg hsp, if_neg hsp]
        simp

theorem hierList_norm (e : EnginePolicy) (cs : List HCell) (s : Sched) :
    hierList e cs s =
      { tasks := s.tasks ++ (supersOfList cs).flatMap (hierTasksF e),
        unlocks := s.unlocks ++ (supersOfList cs).flatMap (hierUnlocksF e) }
    := by
  cases cs with
  | nil =>
    rw [hierList, supersOfList]
    simp
  | cons c rest =>
    rw [hierList, supersOfList, hierList_norm,
      engine_make_hierarchical_tasks_norm]
    simp

end

theorem count_flatMap_key {α β : Type} [BEq β] [LawfulBEq β] (k : α → Nat)
    (F : α → List β) (b : β) (x : α) :
    ∀ (l : List α), x ∈ l → ((l.map k).Nodup) →
      (∀ y ∈ l, k y ≠ k x → (F y).count b = 0) →
      (l.flatMap F).count b = (F x).count b := by
  intro l
  induction l with
  | nil => intro hx _ _; cases hx
  | cons a rest ih =>
    intro hx hnodup hz
    rw [List.flatMap_cons, List.count_append]
    rw [List.map_cons] at hnodup
    have hnd := List.nodup_cons.mp hnodup
    rcases List.mem_cons.mp hx with rfl | hx2
    · have hrest : (rest.flatMap F).count b = 0 := by
        rw [List.count_eq_zero]
        intro hb
        obtain ⟨y, hy, hby⟩ := List.mem_flatMap.mp hb
        have hky : k y ≠ k x := fun h =>
          hnd.1 (h ▸ List.mem_map_of_mem k hy)
        have := hz y (List.mem_cons_of_mem _ hy) hky
        rw [List.count_eq_zero] at this
        exact this hby
      rw [hrest]
      omega
    · have hka : k a ≠ k x := fun h =>
        hnd.1 (h.symm ▸ List.mem_map_of_mem k hx2)
      rw [hz a (List.mem_cons_self a rest) hka,
        ih hx2 hnd.2 (fun y hy hne => hz y (List.mem_cons_of_mem _ hy) hne)]
      omega

theorem mem_hierBlockTasks {e : EnginePolicy} {cid : Nat}
    {tc : TaskType × Nat} (h : tc ∈ hierBlockTasks e cid) : tc.2 = cid := by
  unfold hierBlockTasks at h
  rcases List.mem_append.mp h with h | hlast
  · rcases List.mem_append.mp h with h | h3
    · rcases List.mem_append.mp h with h | h2
      · rcases List.mem_append.mp h with h | h1
        · simp only [List.mem_cons, List.not_mem_nil, or_false] at h
          rcases h with rfl | rfl | rfl | rfl | rfl <;> rfl
        · rw [mem_if_singleton h1]
      · rw [mem_if_singleton h2]
    · rw [mem_if_singleton h3]
  · rw [mem_if_singleton hlast]

theorem hierBlockTasks_counts (e : EnginePolicy) (cid : Nat) :
    (hierBlockTasks e cid).count (TaskType.init, cid) = 1 ∧
    (hierBlockTasks e cid).count (TaskType.kick1, cid) = 1 ∧
    (hierBlockTasks e cid).count (TaskType.kick2, cid) = 1 ∧
    (hierBlockTasks e cid).count (TaskType.timestep, cid) = 1 ∧
    (hierBlockTasks e cid).count (TaskType.drift, cid) = 1 ∧
    (hierBlockTasks e cid).count (TaskType.ghost, cid) =
      (if e.hydro then 1 else 0) ∧
    (hierBlockTasks e cid).count (TaskType.extra_ghost, cid) =
      (if e.extraLoop && e.hydro then 1 else 0) ∧
    (hierBlockTasks e cid).count (TaskType.cooling, cid) =
      (if e.cooling then 1 else 0) ∧
    (hierBlockTasks e cid).count (TaskType.sourceterms, cid) =
      (if e.sourceterms then 1 else 0) := by
  cases hh : e.hydro <;> cases hx : e.extraLoop <;> cases hc : e.cooling <;>
    cases hs : e.sourceterms <;>
    simp [hierBlockTasks, hh, hx, hc, hs, List.count_cons, List.count_append,
      List.count_nil]

/-- C4 (confirmed).  At every local super cell of the hierarchy (cells
distinct), `engine_make_hierarchical_tasks` creates exactly one `init`,
`kick1`, `kick2`, `drift` and `timestep` task, a `ghost` iff the hydro
policy is on, an `extra_ghost` iff additionally the scheme has a second
hydro loop, a `cooling`/`sourceterms` task iff the policies are on, and the
unlock edges `kick1 -> drift -> init`, `kick2 -> timestep` and (with
cooling) `cooling -> kick2`; and `engine_make_hydro_loops_dependencies`
places a density task and its force duplicate on the chain
`init -> density -> ghost -> force -> kick2`, with `gradient` and
`extra_ghost` inserted between `ghost` and `force` in the second-loop
scheme, and with `cooling` in place of `kick2` when cooling is on (the
`cooling -> kick2` edge then closes the chain). -/
theorem C4_hierarchical_and_hydro_deps (e : EnginePolicy) (c : HCell)
    (cid : Nat) (nid : Int)
    (hsup : (cid, nid) ∈ supersOf c)
    (hnodup : ((supersOf c).map Prod.fst).Nodup)
    (hlocal : nid = e.nodeID) :
    ((engine_make_hierarchical_tasks e c emptySched).tasks.count
        (TaskType.init, cid) = 1 ∧
      (engine_make_hierarchical_tasks e c emptySched).tasks.count
        (TaskType.kick1, cid) = 1 ∧
      (engine_make_hierarchical_tasks e c emptySched).tasks.count
        (TaskType.kick2, cid) = 1 ∧
      (engine_make_hierarchical_tasks e c emptySched).tasks.count
        (TaskType.timestep, cid) = 1 ∧
      (engine_make_hierarchical_tasks e c emptySched).tasks.count
        (TaskType.drift, cid) = 1 ∧
      (engine_make_hierarchical_tasks e c emptySched).tasks.count
        (TaskType.ghost, cid) = (if e.hydro then 1 else 0) ∧
      (engine_make_hierarchical_tasks e c emptySched).tasks.count
        (TaskType.extra_ghost, cid) =
          (if e.extraLoop && e.hydro then 1 else 0) ∧
      (engine_make_hierarchical_tasks e c emptySched).tasks.count
        (TaskType.cooling, cid) = (if e.cooling then 1 else 0) ∧
      (engine_make_hierarchical_tasks e c emptySched).tasks.count
        (TaskType.sourceterms, cid) = (if e.sourceterms then 1 else 0)) ∧
    (((TaskType.kick1, cid), (TaskType.drift, cid)) ∈
        (engine_make_hierarchical_tasks e c emptySched).unlocks ∧
      ((TaskType.drift, cid), (TaskType.init, cid)) ∈
        (engine_make_hierarchical_tasks e c emptySched).unlocks ∧
      ((TaskType.kick2, cid), (TaskType.timestep, cid)) ∈
        (engine_make_hierarchical_tasks e c emptySched).unlocks ∧
      (e.cooling = true →
        ((TaskType.cooling, cid), (TaskType.kick2, cid)) ∈
          (engine_make_hierarchical_tasks e c emptySched).unlocks)) ∧
    (∀ (u : List (Nat × Nat)) (d f : Nat) (cs : CSuper) (wc : Bool),
      engine_make_hydro_loops_dependencies u d f cs wc =
        u ++ [(cs.init, d), (d, cs.ghost), (cs.ghost, f),
          (f, if wc then cs.cooling else cs.kick2)]) ∧
    (∀ (u : List (Nat × Nat)) (d grad f : Nat) (cs : CSuper) (wc : Bool),
      engine_make_hydro_loops_dependencies_extra u d grad f cs wc =
        u ++ [(cs.init, d), (d, cs.ghost), (cs.ghost, grad),
          (grad, cs.extra_ghost), (cs.extra_ghost, f),
          (f, if wc then cs.cooling else cs.kick2)]) := by
  have hT : (engine_make_hierarchical_tasks e c emptySched).tasks =
      (supersOf c).flatMap (hierTasksF e) := by
    rw [engine_make_hierarchical_tasks_norm]
    simp [emptySched]
  have hU : (engine_make_hierarchical_tasks e c emptySched).unlocks =
      (supersOf c).flatMap (hierUnlocksF e) := by
    rw [engine_make_hierarchical_tasks_norm]
    simp [emptySched]
  have hz1 : ∀ ty : TaskType, ∀ y ∈ supersOf c, y.1 ≠ cid →
      (hierTasksF e y).count (ty, cid) = 0 := by
    intro ty y _ hne
    unfold hierTasksF
    split
    · rw [List.count_eq_zero]
      exact fun hmem => hne (mem_hierBlockTasks hmem).symm
    · rfl
  have hcount : ∀ ty : TaskType,
      ((supersOf c).flatMap (hierTasksF e)).count (ty, cid) =
        (hierBlockTasks e cid).count (ty, cid) := by
    intro ty
    refine (count_flatMap_key Prod.fst (hierTasksF e) (ty, cid) (cid, nid)
      (supersOf c) hsup hnodup (hz1 ty)).trans ?_
    unfold hierTasksF
    rw [if_pos hlocal]
  have hedge : ∀ ed ∈ hierBlockUnlocks e cid,
      ed ∈ (supersOf c).flatMap (hierUnlocksF e) := by
    intro ed hed
    refine List.mem_flatMap.mpr ⟨(cid, nid), hsup, ?_⟩
    unfold hierUnlocksF
    rw [if_pos hlocal]
    exact hed
  obtain ⟨c1, c2, c3, c4, c5, c6, c7, c8, c9⟩ := hierBlockTasks_counts e cid
  refine ⟨?_, ?_, ?_, ?_⟩
  · rw [hT]
    exact ⟨(hcount _).trans c1, (hcount _).trans c2, (hcount _).trans c3,
      (hcount _).trans c4, (hcount _).trans c5, (hcount _).trans c6,
      (hcount _).trans c7, (hcount _).trans c8, (hcount _).trans c9⟩
  · rw [hU]
    refine ⟨hedge _ (by simp [hierBlockUnlocks]),
      hedge _ (by simp [hierBlockUnlocks]),
      hedge _ (by simp [hierBlockUnlocks]), ?_⟩
    intro hcool
    exact hedge _ (by simp [hierBlockUnlocks, hcool])
  · intro u d f cs wc
    cases wc <;>
      simp [engine_make_hydro_loops_dependencies, addunlockN]
  · intro u d grad f cs wc
    cases wc <;>
      simp [engine_make_hydro_loops_dependencies_extra, addunlockN]

/-- Witness for C4 at a one-cell hierarchy (local super cell 0, hydro and
cooling on, no extra loop). -/
theorem C4_hierarchical_and_hydro_deps_witness :
    (engine_make_hierarchical_tasks exPolicy exHCell emptySched).tasks.count
        (TaskType.init, 0) = 1 ∧
    ((TaskType.cooling, 0), (TaskType.kick2, 0)) ∈
      (engine_make_hierarchical_tasks exPolicy exHCell emptySched).unlocks := by
  have h := C4_hierarchical_and_hydro_deps exPolicy exHCell 0 0
    (by simp [supersOf, exHCell]) (by simp [supersOf, exHCell]) rfl
  exact ⟨h.1.1, h.2.1.2.2.2 rfl⟩

/-! ## C7: the repartition trigger -/

theorem repart_fold_bounds :
    ∀ (l : List ℚ) (a b : ℚ),
      (l.foldl repart_fold (a, b)).1 ≤ a ∧ b ≤ (l.foldl repart_fold (a, b)).2 ∧
      (∀ x ∈ l, (l.foldl repart_fold (a, b)).1 ≤ x ∧
        x ≤ (l.foldl repart_fold (a, b)).2) ∧
      ((l.foldl repart_fold (a, b)).1 = a ∨ (l.foldl repart_fold (a, b)).1 ∈ l) ∧
      ((l.foldl repart_fold (a, b)).2 = b ∨ (l.foldl repart_fold (a, b)).2 ∈ l)
    := by
  intro l
  induction l with
  | nil =>
    intro a b
    simp
  | cons x l ih =>
    intro a b
    rw [List.foldl_cons]
    have hfold : repart_fold (a, b) x =
        (if x < a then x else a, if x > b then x else b) := rfl
    rw [hfold]
    obtain ⟨h1, h2, h3, h4, h5⟩ := ih (if x < a then x else a)
      (if x > b then x else b)
    have hma : (if x < a then x else a) ≤ a := by
      split
      · linarith [show x < a from by assumption]
      · exact le_refl a
    have hmx : (if x < a then x else a) ≤ x := by
      split
      · exact le_refl x
      · linarith [not_lt.mp (by assumption)]
    have hMb : b ≤ (if x > b then x else b) := by
      split
      · linarith [show x > b from by assumption]
      · exact le_refl b
    have hMx : x ≤ (if x > b then x else b) := by
      split
      · exact le_refl x
      · linarith [not_lt.mp (by assumption)]
    refine ⟨le_trans h1 hma, le_trans hMb h2, ?_, ?_, ?_⟩
    · intro y hy
      rcases List.mem_cons.mp hy with rfl | hy2
      · exact ⟨le_trans h1 hmx, le_trans hMx h2⟩
      · exact h3 y hy2
    · rcases h4 with h4 | h4
      · rw [h4]
        split
        · exact Or.inr (List.mem_cons_self x l)
        · exact Or.inl rfl
      · exact Or.inr (List.mem_cons_of_mem x h4)
    · rcases h5 with h5 | h5
      · rw [h5]
        split
        · exact Or.inr (List.mem_cons_self x l)
        · exact Or.inl rfl
      · exact Or.inr (List.mem_cons_of_mem x h5)

/-- C7 (amended).  On rank 0, provided all particles (or all g-particles)
were updated this step, the force-repartition flag ends up nonzero iff
`(max - min) / min` of the gathered per-rank CPU times exceeds
`fractionaltime`; the scanned pair really is the minimum and maximum of
the gathered times.  (The claim as stated omits the all-updated guard.) -/
theorem C7_repart_trigger (e : RepartCtx) (t0 : ℚ) (rest : List ℚ)
    (h0 : e.forcerepart = 0) (hr : e.repart_type ≠ 0)
    (hup : (e.updates ≠ 0 ∧ e.updates = e.total_nr_parts) ∨
      (e.g_updates ≠ 0 ∧ e.g_updates = e.total_nr_gparts)) :
    (engine_step_repart e 0 (t0 :: rest) ≠ 0 ↔
      ((rest.foldl repart_fold (t0, t0)).2 -
          (rest.foldl repart_fold (t0, t0)).1) /
        (rest.foldl repart_fold (t0, t0)).1 > e.fractionaltime) ∧
    (∀ x ∈ t0 :: rest, (rest.foldl repart_fold (t0, t0)).1 ≤ x ∧
      x ≤ (rest.foldl repart_fold (t0, t0)).2) ∧
    (rest.foldl repart_fold (t0, t0)).1 ∈ t0 :: rest ∧
    (rest.foldl repart_fold (t0, t0)).2 ∈ t0 :: rest := by
  obtain ⟨h1, h2, h3, h4, h5⟩ := repart_fold_bounds rest t0 t0
  have hrun : engine_step_repart e 0 (t0 :: rest) =
      if ((rest.foldl repart_fold (t0, t0)).2 -
            (rest.foldl repart_fold (t0, t0)).1) /
          (rest.foldl repart_fold (t0, t0)).1 > e.fractionaltime
      then e.repart_type else e.forcerepart := by
    unfold engine_step_repart
    rw [if_pos rfl, if_pos hup]
  refine ⟨?_, ?_, ?_, ?_⟩
  · rw [hrun]
    constructor
    · intro hne
      by_contra hdisp
      rw [if_neg hdisp, h0] at hne
      exact hne rfl
    · intro hdisp
      rw [if_pos hdisp]
      exact hr
  · intro x hx
    rcases List.mem_cons.mp hx with rfl | hx2
    · exact ⟨h1, h2⟩
    · exact h3 x hx2
  · rcases h4 with h4 | h4
    · rw [h4]
      exact List.mem_cons_self t0 rest
    · exact List.mem_cons_of_mem t0 h4
  · rcases h5 with h5 | h5
    · rw [h5]
      exact List.mem_cons_self t0 rest
    · exact List.mem_cons_of_mem t0 h5

/-- C7 as literally stated is false: with no particle updated this step
(`e->updates = 0`, `e->g_updates = 0`) the flag stays clear even though the
time dispersion `(10-1)/1 = 9` exceeds the threshold `1`. -/
theorem C7_counterexample : ¬ c7OrigClaim := by
  intro hcl
  have h2 := hcl exRepartIdle 1 [10] rfl (by decide)
  have hmm : (([10] : List ℚ).foldl repart_fold (1, 1)) = (1, 10) := by
    with_unfolding_all rfl
  have h3 := h2.mpr (by
    rw [hmm]
    show (1 : ℚ) < (10 - 1) / 1
    norm_num)
  exact h3 (by with_unfolding_all rfl)

/-- Witness for C7: all particles updated, dispersion 9 over threshold 1,
and the flag is set. -/
theorem C7_repart_trigger_witness :
    engine_step_repart exRepart 0 [1, 10] ≠ 0 := by
  have h := C7_repart_trigger exRepart 1 [10] rfl (by decide)
    (Or.inl ⟨by decide, rfl⟩)
  apply h.1.mpr
  have hmm : (([10] : List ℚ).foldl repart_fold (1, 1)) = (1, 10) := by
    with_unfolding_all rfl
  rw [hmm]
  show (1 : ℚ) < (10 - 1) / 1
  norm_num

/-! ## C8: the integer-time mapping constant -/

theorem max_nr_timesteps_cast : (max_nr_timesteps : ℚ) = (2 : ℚ) ^ (28 : ℤ)
    := by
  rw [max_nr_timesteps]
  push_cast
  norm_num

theorem repr64_div_max {q : ℚ} (h : repr64 q) :
    repr64 (q / (max_nr_timesteps : ℚ)) := by
  obtain ⟨m, ex, hm, hq⟩ := h
  refine ⟨m, ex - 28, hm, ?_⟩
  rw [hq, max_nr_timesteps_cast, div_eq_mul_inv, mul_assoc, ← zpow_neg,
    ← zpow_add₀ (by norm_num : (2 : ℚ) ≠ 0), sub_eq_add_neg]

/-- C8 (confirmed).  When the engine accepts the time bounds
(`timeBegin < timeEnd`), the stored constant is exactly
`(timeEnd - timeBegin) / max_nr_timesteps` under any rounding that is
exact on representable doubles; if `timeEnd - timeBegin` is representable
the quotient is again representable (division by the power of two
`max_nr_timesteps` only shifts the exponent), so
`timeBase * max_nr_timesteps` equals `timeEnd - timeBegin` exactly — in
particular to within one ULP. -/
theorem C8_timeBase (rnd : ℚ → ℚ) (timeBegin timeEnd tB : ℚ)
    (hrnd : ∀ q, repr64 q → rnd q = q)
    (hlt : timeBegin < timeEnd)
    (hrepr : repr64 (timeEnd - timeBegin))
    (hinit : engine_init_timeBase rnd timeBegin timeEnd = some tB) :
    tB = (timeEnd - timeBegin) / (max_nr_timesteps : ℚ) ∧
    tB * (max_nr_timesteps : ℚ) = timeEnd - timeBegin := by
  unfold engine_init_timeBase at hinit
  rw [if_neg (not_le.mpr hlt)] at hinit
  have htB := Option.some.inj hinit
  have hq := hrnd _ (repr64_div_max hrepr)
  rw [hq] at htB
  have hmax : (max_nr_timesteps : ℚ) ≠ 0 := by
    rw [max_nr_timesteps]
    norm_num
  refine ⟨htB.symm, ?_⟩
  rw [← htB, div_mul_cancel₀ _ hmax]

/-- Witness for C8 at the spec scenario `t_begin = 0`, `t_end = 1`,
`max_nr_timesteps = 2^28`, with the identity as (exact) rounding. -/
theorem C8_timeBase_witness :
    ((1 : ℚ) - 0) / (max_nr_timesteps : ℚ) =
      ((1 : ℚ) - 0) / (max_nr_timesteps : ℚ) ∧
    ((1 : ℚ) - 0) / (max_nr_timesteps : ℚ) * (max_nr_timesteps : ℚ)
      = 1 - 0 := by
  have h := C8_timeBase id 0 1 (((1 : ℚ) - 0) / (max_nr_timesteps : ℚ))
    (fun q _ => rfl) (by norm_num)
    ⟨1, 0, by norm_num, by norm_num⟩
    (by
      unfold engine_init_timeBase
      rw [if_neg (by norm_num)]
      rfl)
  exact ⟨rfl, h.2⟩

/-! ## C9: hashmap machinery -/

theorem sub_div_mul_eq_mod (i b : Nat) : i - i / b * b = i % b := by
  have h := Nat.div_add_mod i b
  have h2 : i / b * b = b * (i / b) := Nat.mul_comm _ _
  omega

theorem eq_of_div_mod_eq {i j b : Nat} (h1 : i / b = j / b)
    (h2 : i % b = j % b) : i = j := by
  rw [← Nat.div_add_mod i b, ← Nat.div_add_mod j b, h1, h2]

theorem lt_length_of_getD_some {α : Type} {l : List (Option α)} {i : Nat}
    {ch : α} (h : l.getD i none = some ch) : i < l.length := by
  by_contra h2
  rw [List.getD_eq_getElem?_getD, List.getElem?_eq_none (by omega)] at h
  simp at h

theorem setElemValue_table_size (m : Hashmap) (pos : Nat × Nat) (v : Nat) :
    (setElemValue m pos v).table_size = m.table_size := by
  unfold setElemValue
  split <;> rfl

theorem setElemValue_size (m : Hashmap) (pos : Nat × Nat) (v : Nat) :
    (setElemValue m pos v).size = m.size := by
  unfold setElemValue
  split <;> rfl

theorem setElemValue_chunks_length (m : Hashmap) (pos : Nat × Nat)
    (v : Nat) : (setElemValue m pos v).chunks.length = m.chunks.length := by
  unfold setElemValue
  split
  · rfl
  · simp

theorem probeInsert_table_size (P : HashParams) (m : Hashmap)
    (co oic key : Nat) :
    (probeInsert P m co oic key).table_size = m.table_size := by
  unfold probeInsert
  split <;> rfl

theorem probeInsert_chunks_length (P : HashParams) (m : Hashmap)
    (co oic key : Nat) :
    (probeInsert P m co oic key).chunks.length = m.chunks.length := by
  unfold probeInsert
  split
  · rfl
  · simp

theorem setElemValue_chunk_ne (m : Hashmap) (pos : Nat × Nat) (v : Nat)
    (co : Nat) (hco : co ≠ pos.1) :
    (setElemValue m pos v).chunks.getD co none =
      m.chunks.getD co none := by
  unfold setElemValue
  cases hch : m.chunks.getD pos.1 none with
  | none => rfl
  | some ch => exact getD_set_ne _ _ _ hco

theorem setElemValue_chunk_self (m : Hashmap) (pos : Nat × Nat) (v : Nat)
    (ch : HashChunk) (hch : m.chunks.getD pos.1 none = some ch) :
    (setElemValue m pos v).chunks.getD pos.1 none =
      some { ch with
        data := ch.data.set pos.2 ((ch.data.getD pos.2 (0, 0)).1, v) } := by
  unfold setElemValue
  rw [hch]
  exact getD_set_self _ _ _ _ (lt_length_of_getD_some hch)

theorem setElemValue_none (m : Hashmap) (pos : Nat × Nat) (v : Nat)
    (hch : m.chunks.getD pos.1 none = none) :
    setElemValue m pos v = m := by
  unfold setElemValue
  rw [hch]

theorem bitAt_setElemValue (P : HashParams) (m : Hashmap) (pos : Nat × Nat)
    (v : Nat) (co i : Nat) :
    bitAt P (setElemValue m pos v) co i = bitAt P m co i := by
  cases hch : m.chunks.getD pos.1 none with
  | none => rw [setElemValue_none m pos v hch]
  | some ch =>
    by_cases hco : co = pos.1
    · subst hco
      unfold bitAt
      rw [setElemValue_chunk_self m pos v ch hch, hch]
    · unfold bitAt
      rw [setElemValue_chunk_ne m pos v co hco]

theorem keyAt_setElemValue (P : HashParams) (m : Hashmap) (pos : Nat × Nat)
    (v : Nat) (co i : Nat) :
    keyAt P (setElemValue m pos v) co i = keyAt P m co i := by
  cases hch : m.chunks.getD pos.1 none with
  | none => rw [setElemValue_none m pos v hch]
  | some ch =>
    by_cases hco : co = pos.1
    · subst hco
      unfold keyAt
      rw [setElemValue_chunk_self m pos v ch hch, hch]
      show ((ch.data.set pos.2 ((ch.data.getD pos.2 (0, 0)).1, v)).getD i
        (0, 0)).1 = (ch.data.getD i (0, 0)).1
      by_cases hi : i = pos.2
      · subst hi
        by_cases hlen : pos.2 < ch.data.length
        · rw [getD_set_self _ _ _ _ hlen]
        · rw [List.set_eq_of_length_le (by omega)]
      · rw [getD_set_ne _ _ _ hi]
    · unfold keyAt
      rw [setElemValue_chunk_ne m pos v co hco]

theorem valueAt_setElemValue_self (P : HashParams) (m : Hashmap)
    (pos : Nat × Nat) (v : Nat) (ch : HashChunk)
    (hch : m.chunks.getD pos.1 none = some ch)
    (hlen : pos.2 < ch.data.length) :
    valueAt P (setElemValue m pos v) pos.1 pos.2 = v := by
  unfold valueAt
  rw [setElemValue_chunk_self m pos v ch hch]
  show ((ch.data.set pos.2 ((ch.data.getD pos.2 (0, 0)).1, v)).getD pos.2
    (0, 0)).2 = v
  rw [getD_set_self _ _ _ _ hlen]

theorem probeInsert_none (P : HashParams) (m : Hashmap) (co oic key : Nat)
    (hch : m.chunks.getD co none = none) :
    probeInsert P m co oic key = m := by
  unfold probeInsert
  rw [hch]

theorem probeInsert_chunk_ne (P : HashParams) (m : Hashmap)
    (co oic key co2 : Nat) (hco : co2 ≠ co) :
    (probeInsert P m co oic key).chunks.getD co2 none =
      m.chunks.getD co2 none := by
  unfold probeInsert
  cases hch : m.chunks.getD co none with
  | none => rfl
  | some ch => exact getD_set_ne _ _ _ hco

theorem probeInsert_chunk_self (P : HashParams) (m : Hashmap)
    (co oic key : Nat) (ch : HashChunk)
    (hch : m.chunks.getD co none = some ch) :
    (probeInsert P m co oic key).chunks.getD co none =
      some (HashChunk.mk
        (ch.masks.set (oic / P.BPM)
          ((ch.masks.getD (oic / P.BPM) 0) |||
            (1 <<< (oic - oic / P.BPM * P.BPM))))
        (ch.data.set oic (key, (ch.data.getD oic (0, 0)).2))) := by
  unfold probeInsert
  rw [hch]
  exact getD_set_self _ _ _ _ (lt_length_of_getD_some hch)

theorem probeInsert_size (P : HashParams) (m : Hashmap) (co oic key : Nat)
    (ch : HashChunk) (hch : m.chunks.getD co none = some ch) :
    (probeInsert P m co oic key).size = m.size + 1 := by
  unfold probeInsert
  rw [hch]

theorem bitAt_probeInsert_self (P : HashParams) (m : Hashmap)
    (co oic key : Nat) (ch : HashChunk)
    (hch : m.chunks.getD co none = some ch) (hwf : chunkWF P ch)
    (hoic : oic < P.EPC) :
    bitAt P (probeInsert P m co oic key) co oic = true := by
  unfold bitAt
  rw [probeInsert_chunk_self P m co oic key ch hch]
  show ((ch.masks.set (oic / P.BPM)
      ((ch.masks.getD (oic / P.BPM) 0) |||
        (1 <<< (oic - oic / P.BPM * P.BPM)))).getD (oic / P.BPM) 0).testBit
      (oic - oic / P.BPM * P.BPM) = true
  rw [getD_set_self _ _ _ _
    (by
      rw [hwf.1]
      exact Nat.lt_of_le_of_lt (Nat.div_le_self oic P.BPM) hoic)]
  rw [Nat.testBit_or, Nat.shiftLeft_eq, one_mul, Nat.testBit_two_pow_self]
  simp

theorem bitAt_probeInsert_ne (P : HashParams) (m : Hashmap)
    (co oic key j : Nat) (ch : HashChunk)
    (hch : m.chunks.getD co none = some ch) (hwf : chunkWF P ch)
    (hoic : oic < P.EPC) (hne : j ≠ oic) :
    bitAt P (probeInsert P m co oic key) co j = bitAt P m co j := by
  unfold bitAt
  rw [probeInsert_chunk_self P m co oic key ch hch, hch]
  show ((ch.masks.set (oic / P.BPM)
      ((ch.masks.getD (oic / P.BPM) 0) |||
        (1 <<< (oic - oic / P.BPM * P.BPM)))).getD (j / P.BPM) 0).testBit
      (j - j / P.BPM * P.BPM)
    = (ch.masks.getD (j / P.BPM) 0).testBit (j - j / P.BPM * P.BPM)
  by_cases hmo : j / P.BPM = oic / P.BPM
  · rw [hmo, getD_set_self _ _ _ _
      (by
        rw [hwf.1]
        exact Nat.lt_of_le_of_lt (Nat.div_le_self oic P.BPM) hoic)]
    rw [Nat.testBit_or, Nat.shiftLeft_eq, one_mul]
    have hmod : oic % P.BPM ≠ j % P.BPM := by
      intro h
      exact hne ((eq_of_div_mod_eq hmo.symm h).symm)
    have e1 : oic - oic / P.BPM * P.BPM = oic % P.BPM :=
      sub_div_mul_eq_mod oic P.BPM
    have e2 : j - oic / P.BPM * P.BPM = j % P.BPM := by
      rw [← hmo]
      exact sub_div_mul_eq_mod j P.BPM
    rw [e1, e2, Nat.testBit_two_pow_of_ne hmod]
    simp
  · rw [getD_set_ne _ _ _ hmo]

theorem bitAt_probeInsert_other (P : HashParams) (m : Hashmap)
    (co oic key co2 j : Nat) (hco : co2 ≠ co) :
    bitAt P (probeInsert P m co oic key) co2 j = bitAt P m co2 j := by
  unfold bitAt
  rw [probeInsert_chunk_ne P m co oic key co2 hco]

theorem keyAt_probeInsert_self (P : HashParams) (m : Hashmap)
    (co oic key : Nat) (ch : HashChunk)
    (hch : m.chunks.getD co none = some ch) (hwf : chunkWF P ch)
    (hoic : oic < P.EPC) :
    keyAt P (probeInsert P m co oic key) co oic = key := by
  unfold keyAt
  rw [probeInsert_chunk_self P m co oic key ch hch]
  show ((ch.data.set oic (key, (ch.data.getD oic (0, 0)).2)).getD oic
    (0, 0)).1 = key
  rw [getD_set_self _ _ _ _ (by rw [hwf.2]; exact hoic)]

theorem keyAt_probeInsert_ne (P : HashParams) (m : Hashmap)
    (co oic key j : Nat) (ch : HashChunk)
    (hch : m.chunks.getD co none = some ch) (hne : j ≠ oic) :
    keyAt P (probeInsert P m co oic key) co j = keyAt P m co j := by
  unfold keyAt
  rw [probeInsert_chunk_self P m co oic key ch hch, hch]
  show ((ch.data.set oic (key, (ch.data.getD oic (0, 0)).2)).getD j
    (0, 0)).1 = (ch.data.getD j (0, 0)).1
  rw [getD_set_ne _ _ _ hne]

theorem keyAt_probeInsert_other (P : HashParams) (m : Hashmap)
    (co oic key co2 j : Nat) (hco : co2 ≠ co) :
    keyAt P (probeInsert P m co oic key) co2 j = keyAt P m co2 j := by
  unfold keyAt
  rw [probeInsert_chunk_ne P m co oic key co2 hco]

theorem valueAt_probeInsert_ne (P : HashParams) (m : Hashmap)
    (co oic key j : Nat) (ch : HashChunk)
    (hch : m.chunks.getD co none = some ch) (hne : j ≠ oic) :
    valueAt P (probeInsert P m co oic key) co j = valueAt P m co j := by
  unfold valueAt
  rw [probeInsert_chunk_self P m co oic key ch hch, hch]
  show ((ch.data.set oic (key, (ch.data.getD oic (0, 0)).2)).getD j
    (0, 0)).2 = (ch.data.getD j (0, 0)).2
  rw [getD_set_ne _ _ _ hne]

theorem valueAt_probeInsert_other (P : HashParams) (m : Hashmap)
    (co oic key co2 j : Nat) (hco : co2 ≠ co) :
    valueAt P (probeInsert P m co oic key) co2 j = valueAt P m co2 j := by
  unfold valueAt
  rw [probeInsert_chunk_ne P m co oic key co2 hco]

theorem valueAt_setElemValue_ne (P : HashParams) (m : Hashmap)
    (pos : Nat × Nat) (v : Nat) (co j : Nat)
    (hne : ¬(co = pos.1 ∧ j = pos.2)) :
    valueAt P (setElemValue m pos v) co j = valueAt P m co j := by
  cases hch : m.chunks.getD pos.1 none with
  | none => rw [setElemValue_none m pos v hch]
  | some ch =>
    by_cases hco : co = pos.1
    · subst hco
      have hj : j ≠ pos.2 := fun h => hne ⟨rfl, h⟩
      unfold valueAt
      rw [setElemValue_chunk_self m pos v ch hch, hch]
      show ((ch.data.set pos.2 ((ch.data.getD pos.2 (0, 0)).1, v)).getD j
        (0, 0)).2 = (ch.data.getD j (0, 0)).2
      rw [getD_set_ne _ _ _ hj]
    · unfold valueAt
      rw [setElemValue_chunk_ne m pos v co hco]

theorem hashmap_probe_succ_of_chunk (P : HashParams) (cn : Bool)
    (key co fuel draw oic : Nat) (m : Hashmap) (ch : HashChunk)
    (hch : m.chunks.getD co none = some ch) :
    hashmap_probe P cn key co (fuel + 1) draw oic m =
      if bitAt P m co oic = false then
        (if cn = false then (m, none)
          else (probeInsert P m co oic key, some (co, oic)))
      else if keyAt P m co oic = key then (m, some (co, oic))
      else hashmap_probe P cn key co fuel (draw + 1)
        (P.rand key draw % P.EPC) m := by
  unfold bitAt keyAt
  rw [hashmap_probe, hch]

theorem hashmap_probe_false_pure (P : HashParams) (key co : Nat) :
    ∀ (fuel draw oic : Nat) (m : Hashmap),
      (hashmap_probe P false key co fuel draw oic m).1 = m := by
  intro fuel
  induction fuel with
  | zero => intro draw oic m; rfl
  | succ f ih =>
    intro draw oic m
    cases hch : m.chunks.getD co none with
    | none =>
      rw [hashmap_probe, hch]
    | some ch =>
      rw [hashmap_probe_succ_of_chunk P false key co f draw oic m ch hch]
      split
      · simp
      · split
        · rfl
        · exact ih _ _ _

theorem hashmap_find_false_pure (P : HashParams) (m : Hashmap) (key : Nat) :
    (hashmap_find P m key false).1 = m := by
  unfold hashmap_find
  split
  · rfl
  · simp only []
    cases hch : m.chunks.getD (P.rand key 0 % m.table_size / P.EPC) none with
    | none => rfl
    | some ch => exact hashmap_probe_false_pure P key _ P.MCL 1 _ m

theorem hashmap_probe_facts (P : HashParams) (key co : Nat)
    (hE : 0 < P.EPC) :
    ∀ (fuel draw oic : Nat) (m m2 : Hashmap) (pos : Nat × Nat),
      oic < P.EPC →
      hashmap_probe P true key co fuel draw oic m = (m2, some pos) →
      pos.1 = co ∧ pos.2 < P.EPC ∧
      m2.table_size = m.table_size ∧
      m2.chunks.length = m.chunks.length ∧
      ((m2 = m ∧ bitAt P m co pos.2 = true ∧ keyAt P m co pos.2 = key) ∨
       (bitAt P m co pos.2 = false ∧
         m2 = probeInsert P m co pos.2 key)) := by
  intro fuel
  induction fuel with
  | zero =>
    intro draw oic m m2 pos _ heq
    have h2 : (none : Option (Nat × Nat)) = some pos := congrArg Prod.snd heq
    exact absurd h2 (by simp)
  | succ f ih =>
    intro draw oic m m2 pos hoic heq
    cases hch : m.chunks.getD co none with
    | none =>
      rw [hashmap_probe, hch] at heq
      have h2 : (none : Option (Nat × Nat)) = some pos :=
        congrArg Prod.snd heq
      exact absurd h2 (by simp)
    | some ch =>
      rw [hashmap_probe_succ_of_chunk P true key co f draw oic m ch hch]
        at heq
      by_cases hb : bitAt P m co oic = false
      · rw [if_pos hb, if_neg (by decide : ¬(true = false))] at heq
        have hm2 : probeInsert P m co oic key = m2 := congrArg Prod.fst heq
        have hpos2 : (co, oic) = pos :=
          Option.some.inj (congrArg Prod.snd heq)
        refine ⟨by rw [← hpos2], by rw [← hpos2]; exact hoic,
          by rw [← hm2]; exact probeInsert_table_size P m co oic key,
          by rw [← hm2]; exact probeInsert_chunks_length P m co oic key,
          Or.inr ⟨by rw [← hpos2]; exact hb, by rw [← hm2, ← hpos2]⟩⟩
      · rw [if_neg hb] at heq
        by_cases hk : keyAt P m co oic = key
        · rw [if_pos hk] at heq
          have hm2 : m = m2 := congrArg Prod.fst heq
          have hpos2 : (co, oic) = pos :=
            Option.some.inj (congrArg Prod.snd heq)
          refine ⟨by rw [← hpos2], by rw [← hpos2]; exact hoic,
            by rw [← hm2], by rw [← hm2],
            Or.inl ⟨hm2.symm, by rw [← hpos2]; simpa using hb,
              by rw [← hpos2]; exact hk⟩⟩
        · rw [if_neg hk] at heq
          exact ih (draw + 1) (P.rand key draw % P.EPC) m m2 pos
            (Nat.mod_lt _ hE) heq

theorem hashmap_probe_retrace (P : HashParams) (key co v : Nat)
    (hE : 0 < P.EPC) :
    ∀ (fuel draw oic : Nat) (m m2 : Hashmap) (pos : Nat × Nat),
      oic < P.EPC →
      (∀ ch, m.chunks.getD co none = some ch → chunkWF P ch) →
      hashmap_probe P true key co fuel draw oic m = (m2, some pos) →
      hashmap_probe P false key co fuel draw oic (setElemValue m2 pos v) =
        (setElemValue m2 pos v, some pos) := by
  intro fuel
  induction fuel with
  | zero =>
    intro draw oic m m2 pos _ _ heq
    have h2 : (none : Option (Nat × Nat)) = some pos := congrArg Prod.snd heq
    exact absurd h2 (by simp)
  | succ f ih =>
    intro draw oic m m2 pos hoic hwf heq
    cases hch : m.chunks.getD co none with
    | none =>
      rw [hashmap_probe, hch] at heq
      have h2 : (none : Option (Nat × Nat)) = some pos := congrArg Prod.snd heq
      exact absurd h2 (by simp)
    | some ch =>
      have hchwf := hwf ch hch
      rw [hashmap_probe_succ_of_chunk P true key co f draw oic m ch hch]
        at heq
      by_cases hb : bitAt P m co oic = false
      · rw [if_pos hb, if_neg (by decide : ¬(true = false))] at heq
        have hm2 : probeInsert P m co oic key = m2 := congrArg Prod.fst heq
        have hpos2 : (co, oic) = pos := Option.some.inj (congrArg Prod.snd heq)
        subst hm2
        subst hpos2
        have hch2 := probeInsert_chunk_self P m co oic key ch hch
        have hch3 := setElemValue_chunk_self (probeInsert P m co oic key)
          (co, oic) v _ hch2
        rw [hashmap_probe_succ_of_chunk P false key co f draw oic _ _ hch3]
        have hbit : bitAt P (setElemValue (probeInsert P m co oic key)
            (co, oic) v) co oic = true := by
          rw [bitAt_setElemValue]
          exact bitAt_probeInsert_self P m co oic key ch hch hchwf hoic
        rw [if_neg (by simp [hbit])]
        have hkey : keyAt P (setElemValue (probeInsert P m co oic key)
            (co, oic) v) co oic = key := by
          rw [keyAt_setElemValue]
          exact keyAt_probeInsert_self P m co oic key ch hch hchwf hoic
        rw [if_pos hkey]
      · rw [if_neg hb] at heq
        have hbt : bitAt P m co oic = true := by
          revert hb
          cases bitAt P m co oic <;> simp
        by_cases hk : keyAt P m co oic = key
        · rw [if_pos hk] at heq
          have hm2 : m = m2 := congrArg Prod.fst heq
          have hpos2 : (co, oic) = pos :=
            Option.some.inj (congrArg Prod.snd heq)
          subst hpos2
          cases hm2
          have hch3 := setElemValue_chunk_self m (co, oic) v ch hch
          rw [hashmap_probe_succ_of_chunk P false key co f draw oic _ _ hch3]
          have hbit : bitAt P (setElemValue m (co, oic) v) co oic = true := by
            rw [bitAt_setElemValue]
            exact hbt
          rw [if_neg (by simp [hbit])]
          have hkey : keyAt P (setElemValue m (co, oic) v) co oic = key := by
            rw [keyAt_setElemValue]
            exact hk
          rw [if_pos hkey]
        · rw [if_neg hk] at heq
          obtain ⟨hp1, hp2, _, _, hrel⟩ := hashmap_probe_facts P key co hE
            f (draw + 1) (P.rand key draw % P.EPC) m m2 pos
            (Nat.mod_lt _ hE) heq
          have hposne : oic ≠ pos.2 := by
            rcases hrel with ⟨_, _, hkt⟩ | ⟨hbf, _⟩
            · intro h
              rw [← h] at hkt
              exact hk hkt
            · intro h
              rw [← h] at hbf
              rw [hbf] at hbt
              exact Bool.noConfusion hbt
          obtain ⟨ch2, hch2⟩ : ∃ ch2, m2.chunks.getD co none = some ch2 := by
            rcases hrel with ⟨hm2, _, _⟩ | ⟨_, hm2⟩
            · exact ⟨ch, hm2 ▸ hch⟩
            · exact ⟨_, by
                rw [hm2]
                exact probeInsert_chunk_self P m co pos.2 key ch hch⟩
          have hch3 : (setElemValue m2 pos v).chunks.getD co none =
              some (HashChunk.mk ch2.masks (ch2.data.set pos.2
                ((ch2.data.getD pos.2 (0, 0)).1, v))) := by
            rw [← hp1] at hch2 ⊢
            exact setElemValue_chunk_self m2 pos v ch2 hch2
          rw [hashmap_probe_succ_of_chunk P false key co f draw oic _ _ hch3]
          have hbit : bitAt P (setElemValue m2 pos v) co oic = true := by
            rw [bitAt_setElemValue]
            rcases hrel with ⟨hm2, _, _⟩ | ⟨_, hm2⟩
            · rw [hm2]
              exact hbt
            · rw [hm2, bitAt_probeInsert_ne P m co pos.2 key oic ch hch
                hchwf hp2 hposne]
              exact hbt
          rw [if_neg (by simp [hbit])]
          have hkey : keyAt P (setElemValue m2 pos v) co oic ≠ key := by
            rw [keyAt_setElemValue]
            rcases hrel with ⟨hm2, _, _⟩ | ⟨_, hm2⟩
            · rw [hm2]
              exact hk
            · rw [hm2, keyAt_probeInsert_ne P m co pos.2 key oic ch hch
                hposne]
              exact hk
          rw [if_neg hkey]
          exact ih (draw + 1) (P.rand key draw % P.EPC) m m2 pos
            (Nat.mod_lt _ hE) hwf heq

theorem getD_replicate_zero (n j : Nat) :
    (List.replicate n (0 : Nat)).getD j 0 = 0 := by
  rcases Nat.lt_or_ge j n with h | h
  · rw [List.getD_eq_getElem?_getD, List.getElem?_eq_getElem
      (by simpa using h)]
    simp [List.getElem_replicate]
  · rw [List.getD_eq_getElem?_getD, List.getElem?_eq_none (by simpa using h)]
    rfl

theorem getD_replicate_pair (n j : Nat) :
    (List.replicate n ((0, 0) : Nat × Nat)).getD j (0, 0) = (0, 0) := by
  rcases Nat.lt_or_ge j n with h | h
  · rw [List.getD_eq_getElem?_getD, List.getElem?_eq_getElem
      (by simpa using h)]
    simp [List.getElem_replicate]
  · rw [List.getD_eq_getElem?_getD, List.getElem?_eq_none (by simpa using h)]
    rfl

theorem hashmap_probe_chunk_present (P : HashParams) (cn : Bool)
    (key co fuel draw oic : Nat) (m m2 : Hashmap) (pos : Nat × Nat)
    (heq : hashmap_probe P cn key co fuel draw oic m = (m2, some pos)) :
    ∃ ch, m.chunks.getD co none = some ch := by
  cases fuel with
  | zero =>
    have h2 : (none : Option (Nat × Nat)) = some pos := congrArg Prod.snd heq
    exact absurd h2 (by simp)
  | succ f =>
    cases hch : m.chunks.getD co none with
    | none =>
      rw [hashmap_probe, hch] at heq
      have h2 : (none : Option (Nat × Nat)) = some pos := congrArg Prod.snd heq
      exact absurd h2 (by simp)
    | some ch => exact ⟨ch, rfl⟩

theorem bitAt_alloc_eq (P : HashParams) (m : Hashmap) (co co2 i : Nat)
    (hch : m.chunks.getD co none = none) :
    bitAt P { m with chunks := m.chunks.set co (some (emptyChunk P)) }
      co2 i = bitAt P m co2 i := by
  unfold bitAt
  by_cases hco : co2 = co
  · subst hco
    by_cases hlt : co2 < m.chunks.length
    · rw [show ({ m with chunks := m.chunks.set co2 (some (emptyChunk P))
          } : Hashmap).chunks = m.chunks.set co2 (some (emptyChunk P))
          from rfl, getD_set_self _ _ _ _ hlt, hch]
      show ((List.replicate P.EPC 0).getD (i / P.BPM) 0).testBit
        (i - i / P.BPM * P.BPM) = false
      rw [getD_replicate_zero]
      exact Nat.zero_testBit _
    · rw [show ({ m with chunks := m.chunks.set co2 (some (emptyChunk P))
          } : Hashmap).chunks = m.chunks.set co2 (some (emptyChunk P))
          from rfl, List.set_eq_of_length_le (by omega)]
  · rw [show ({ m with chunks := m.chunks.set co (some (emptyChunk P))
        } : Hashmap).chunks = m.chunks.set co (some (emptyChunk P))
        from rfl, getD_set_ne _ _ _ hco]

theorem keyAt_alloc_eq (P : HashParams) (m : Hashmap) (co co2 i : Nat)
    (hch : m.chunks.getD co none = none) :
    keyAt P { m with chunks := m.chunks.set co (some (emptyChunk P)) }
      co2 i = keyAt P m co2 i := by
  unfold keyAt
  by_cases hco : co2 = co
  · subst hco
    by_cases hlt : co2 < m.chunks.length
    · rw [show ({ m with chunks := m.chunks.set co2 (some (emptyChunk P))
          } : Hashmap).chunks = m.chunks.set co2 (some (emptyChunk P))
          from rfl, getD_set_self _ _ _ _ hlt, hch]
      show ((List.replicate P.EPC ((0, 0) : Nat × Nat)).getD i (0, 0)).1 = 0
      rw [getD_replicate_pair]
    · rw [show ({ m with chunks := m.chunks.set co2 (some (emptyChunk P))
          } : Hashmap).chunks = m.chunks.set co2 (some (emptyChunk P))
          from rfl, List.set_eq_of_length_le (by omega)]
  · rw [show ({ m with chunks := m.chunks.set co (some (emptyChunk P))
        } : Hashmap).chunks = m.chunks.set co (some (emptyChunk P))
        from rfl, getD_set_ne _ _ _ hco]

theorem valueAt_alloc_eq (P : HashParams) (m : Hashmap) (co co2 i : Nat)
    (hch : m.chunks.getD co none = none) :
    valueAt P { m with chunks := m.chunks.set co (some (emptyChunk P)) }
      co2 i = valueAt P m co2 i := by
  unfold valueAt
  by_cases hco : co2 = co
  · subst hco
    by_cases hlt : co2 < m.chunks.length
    · rw [show ({ m with chunks := m.chunks.set co2 (some (emptyChunk P))
          } : Hashmap).chunks = m.chunks.set co2 (some (emptyChunk P))
          from rfl, getD_set_self _ _ _ _ hlt, hch]
      show ((List.replicate P.EPC ((0, 0) : Nat × Nat)).getD i (0, 0)).2 = 0
      rw [getD_replicate_pair]
    · rw [show ({ m with chunks := m.chunks.set co2 (some (emptyChunk P))
          } : Hashmap).chunks = m.chunks.set co2 (some (emptyChunk P))
          from rfl, List.set_eq_of_length_le (by omega)]
  · rw [show ({ m with chunks := m.chunks.set co (some (emptyChunk P))
        } : Hashmap).chunks = m.chunks.set co (some (emptyChunk P))
        from rfl, getD_set_ne _ _ _ hco]

theorem chunkWF_emptyChunk (P : HashParams) : chunkWF P (emptyChunk P) :=
  ⟨List.length_replicate .., List.length_replicate ..⟩

theorem mapWF_chunkWF (P : HashParams) (m : Hashmap) (co : Nat)
    (ch : HashChunk) (hwf : mapWF P m)
    (hch : m.chunks.getD co none = some ch) : chunkWF P ch := by
  have hlt := lt_length_of_getD_some hch
  rw [List.getD_eq_getElem?_getD,
    List.getElem?_eq_getElem (by simpa using hlt)] at hch
  have hch2 : m.chunks[co] = some ch := hch
  have hmem : some ch ∈ m.chunks := hch2 ▸ List.getElem_mem (by simpa using hlt)
  exact hwf.2.2.2 (some ch) hmem ch (Option.mem_def.mpr rfl)

theorem hashmap_find_true_shape (P : HashParams) (mk : Hashmap) (key : Nat)
    (hwf : mapWF P mk) (mr : Hashmap) (pos : Nat × Nat)
    (hfind : hashmap_find P mk key true = (mr, some pos)) :
    ¬(mk.table_size / 2 ≤ mk.size) ∧
    ∃ base : Hashmap,
      base.table_size = mk.table_size ∧
      base.size = mk.size ∧
      (∀ co i, bitAt P base co i = bitAt P mk co i) ∧
      (∀ co i, keyAt P base co i = keyAt P mk co i) ∧
      (∀ co i, valueAt P base co i = valueAt P mk co i) ∧
      mapWF P base ∧
      (∃ chb, base.chunks.getD
          (P.rand key 0 % mk.table_size / P.EPC) none = some chb ∧
        chunkWF P chb) ∧
      hashmap_probe P true key (P.rand key 0 % mk.table_size / P.EPC)
        P.MCL 1 (P.rand key 0 % mk.table_size -
          P.rand key 0 % mk.table_size / P.EPC * P.EPC) base =
        (mr, some pos) := by
  unfold hashmap_find at hfind
  by_cases hg : mk.table_size / 2 ≤ mk.size
  · rw [if_pos hg] at hfind
    have h2 : (none : Option (Nat × Nat)) = some pos := congrArg Prod.snd hfind
    exact absurd h2 (by simp)
  · rw [if_neg hg] at hfind
    simp only [] at hfind
    have hts0 : 0 < mk.table_size := by omega
    have hcolt : P.rand key 0 % mk.table_size / P.EPC < mk.chunks.length := by
      have h2 : P.rand key 0 % mk.table_size < mk.chunks.length * P.EPC := by
        rw [hwf.2.2.1]
        exact Nat.mod_lt _ hts0
      exact (Nat.div_lt_iff_lt_mul hwf.1).mpr h2
    refine ⟨hg, ?_⟩
    cases hch : mk.chunks.getD (P.rand key 0 % mk.table_size / P.EPC) none
      with
    | some ch =>
      rw [hch] at hfind
      exact ⟨mk, rfl, rfl, fun _ _ => rfl, fun _ _ => rfl, fun _ _ => rfl,
        hwf, ⟨ch, hch, mapWF_chunkWF P mk _ ch hwf hch⟩, hfind⟩
    | none =>
      rw [hch, if_neg (by decide : ¬(true = false))] at hfind
      refine ⟨Hashmap.mk mk.table_size mk.size (mk.chunks.set
          (P.rand key 0 % mk.table_size / P.EPC) (some (emptyChunk P))),
        rfl, rfl, ?_, ?_, ?_, ?_, ?_, hfind⟩
      · intro co i
        exact bitAt_alloc_eq P mk _ co i hch
      · intro co i
        exact keyAt_alloc_eq P mk _ co i hch
      · intro co i
        exact valueAt_alloc_eq P mk _ co i hch
      · refine ⟨hwf.1, hwf.2.1, ?_, ?_⟩
        · show (mk.chunks.set _ _).length * P.EPC = mk.table_size
          rw [List.length_set]
          exact hwf.2.2.1
        · intro och hoch ch2 hch2
          rcases List.mem_or_eq_of_mem_set hoch with hmem | heq
          · exact hwf.2.2.2 och hmem ch2 hch2
          · subst heq
            have : emptyChunk P = ch2 := Option.some.inj
              (Option.mem_def.mp hch2)
            rw [← this]
            exact chunkWF_emptyChunk P
      · exact ⟨emptyChunk P, getD_set_self _ _ _ _ hcolt,
          chunkWF_emptyChunk P⟩

theorem hashmap_find_facts (P : HashParams) (mk : Hashmap) (key : Nat)
    (hwf : mapWF P mk) (mr : Hashmap) (pos : Nat × Nat)
    (hfind : hashmap_find P mk key true = (mr, some pos)) :
    pos.2 < P.EPC ∧ mr.table_size = mk.table_size ∧
    bitAt P mr pos.1 pos.2 = true ∧ keyAt P mr pos.1 pos.2 = key ∧
    (∀ co i, ¬(co = pos.1 ∧ i = pos.2) →
      bitAt P mr co i = bitAt P mk co i ∧
      keyAt P mr co i = keyAt P mk co i ∧
      valueAt P mr co i = valueAt P mk co i) ∧
    (bitAt P mk pos.1 pos.2 = false ∨ keyAt P mk pos.1 pos.2 = key) := by
  obtain ⟨hg, base, hbts, hbsz, hbbit, hbkey, hbval, hbwf,
    ⟨chb, hchb, hchbwf⟩, hprobe⟩ :=
    hashmap_find_true_shape P mk key hwf mr pos hfind
  have hE := hwf.1
  have hoic : P.rand key 0 % mk.table_size -
      P.rand key 0 % mk.table_size / P.EPC * P.EPC < P.EPC := by
    rw [sub_div_mul_eq_mod]
    exact Nat.mod_lt _ hE
  obtain ⟨hp1, hp2, hts, _, hrel⟩ := hashmap_probe_facts P key _ hE
    P.MCL 1 _ base mr pos hoic hprobe
  refine ⟨hp2, by rw [hts, hbts], ?_, ?_, ?_, ?_⟩
  · rcases hrel with ⟨hmr, hbt, _⟩ | ⟨_, hmr⟩
    · rw [hmr, hp1]
      exact hbt
    · rw [hmr, hp1]
      exact bitAt_probeInsert_self P base _ pos.2 key chb hchb hchbwf hp2
  · rcases hrel with ⟨hmr, _, hkt⟩ | ⟨_, hmr⟩
    · rw [hmr, hp1]
      exact hkt
    · rw [hmr, hp1]
      exact keyAt_probeInsert_self P base _ pos.2 key chb hchb hchbwf hp2
  · intro co i hne
    rcases hrel with ⟨hmr, _, _⟩ | ⟨_, hmr⟩
    · rw [hmr]
      exact ⟨hbbit co i, hbkey co i, hbval co i⟩
    · by_cases hco : co = pos.1
      · have hine : i ≠ pos.2 := fun h => hne ⟨hco, h⟩
        have hco2 : co = P.rand key 0 % mk.table_size / P.EPC :=
          hco.trans hp1
        subst hco2
        rw [hmr]
        refine ⟨?_, ?_, ?_⟩
        · rw [bitAt_probeInsert_ne P base _ pos.2 key i chb hchb hchbwf
            hp2 hine]
          exact hbbit _ i
        · rw [keyAt_probeInsert_ne P base _ pos.2 key i chb hchb hine]
          exact hbkey _ i
        · rw [valueAt_probeInsert_ne P base _ pos.2 key i chb hchb hine]
          exact hbval _ i
      · have hco2 : co ≠ P.rand key 0 % mk.table_size / P.EPC :=
          fun h => hco (h.trans hp1.symm)
        rw [hmr]
        refine ⟨?_, ?_, ?_⟩
        · rw [bitAt_probeInsert_other P base _ pos.2 key co i hco2]
          exact hbbit co i
        · rw [keyAt_probeInsert_other P base _ pos.2 key co i hco2]
          exact hbkey co i
        · rw [valueAt_probeInsert_other P base _ pos.2 key co i hco2]
          exact hbval co i
  · rcases hrel with ⟨_, _, hkt⟩ | ⟨hbf, _⟩
    · refine Or.inr ?_
      rw [← hbkey pos.1 pos.2, hp1]
      exact hkt
    · refine Or.inl ?_
      rw [← hbbit pos.1 pos.2, hp1]
      exact hbf

theorem hashmap_find_retrace (P : HashParams) (mk : Hashmap) (key v : Nat)
    (hwf : mapWF P mk) (mr : Hashmap) (pos : Nat × Nat)
    (hfind : hashmap_find P mk key true = (mr, some pos))
    (hguard : (setElemValue mr pos v).size <
      (setElemValue mr pos v).table_size / 2) :
    hashmap_find P (setElemValue mr pos v) key false =
      (setElemValue mr pos v, some pos) := by
  obtain ⟨hg, base, hbts, hbsz, _, _, _, hbwf, ⟨chb, hchb, hchbwf⟩,
    hprobe⟩ := hashmap_find_true_shape P mk key hwf mr pos hfind
  have hE := hwf.1
  have hoic : P.rand key 0 % mk.table_size -
      P.rand key 0 % mk.table_size / P.EPC * P.EPC < P.EPC := by
    rw [sub_div_mul_eq_mod]
    exact Nat.mod_lt _ hE
  obtain ⟨hp1, hp2, hts, _, hrel⟩ := hashmap_probe_facts P key _ hE
    P.MCL 1 _ base mr pos hoic hprobe
  have hretr := hashmap_probe_retrace P key _ v hE P.MCL 1 _ base mr pos
    hoic (fun ch hc => by
      rw [hchb] at hc
      exact (Option.some.inj hc) ▸ hchbwf) hprobe
  have hmts : (setElemValue mr pos v).table_size = mk.table_size := by
    rw [setElemValue_table_size, hts, hbts]
  obtain ⟨ch2, hch2⟩ : ∃ ch2, mr.chunks.getD
      (P.rand key 0 % mk.table_size / P.EPC) none = some ch2 := by
    rcases hrel with ⟨hmr, _, _⟩ | ⟨_, hmr⟩
    · exact ⟨chb, by rw [hmr]; exact hchb⟩
    · exact ⟨_, by
        rw [hmr]
        exact probeInsert_chunk_self P base _ pos.2 key chb hchb⟩
  have hch3 : (setElemValue mr pos v).chunks.getD
      (P.rand key 0 % mk.table_size / P.EPC) none =
      some (HashChunk.mk ch2.masks (ch2.data.set pos.2
        ((ch2.data.getD pos.2 (0, 0)).1, v))) := by
    have h2 := setElemValue_chunk_self mr pos v ch2 (by
      rw [hp1]
      exact hch2)
    rw [hp1] at h2
    exact h2
  unfold hashmap_find
  rw [if_neg (by omega : ¬((setElemValue mr pos v).table_size / 2 ≤
    (setElemValue mr pos v).size))]
  simp only []
  rw [hmts, hch3]
  exact hretr

theorem probeInsert_chunks (P : HashParams) (m : Hashmap) (co oic key : Nat)
    (ch : HashChunk) (hch : m.chunks.getD co none = some ch) :
    (probeInsert P m co oic key).chunks = m.chunks.set co
      (some (HashChunk.mk
        (ch.masks.set (oic / P.BPM) ((ch.masks.getD (oic / P.BPM) 0) |||
          (1 <<< (oic - oic / P.BPM * P.BPM))))
        (ch.data.set oic (key, (ch.data.getD oic (0, 0)).2)))) := by
  unfold probeInsert
  rw [hch]

theorem setElemValue_chunks (m : Hashmap) (pos : Nat × Nat) (v : Nat)
    (ch : HashChunk) (hch : m.chunks.getD pos.1 none = some ch) :
    (setElemValue m pos v).chunks = m.chunks.set pos.1
      (some (HashChunk.mk ch.masks (ch.data.set pos.2
        ((ch.data.getD pos.2 (0, 0)).1, v)))) := by
  unfold setElemValue
  rw [hch]

theorem mapWF_probeInsert (P : HashParams) (m : Hashmap) (co oic key : Nat)
    (hwf : mapWF P m) : mapWF P (probeInsert P m co oic key) := by
  cases hch : m.chunks.getD co none with
  | none =>
    rw [probeInsert_none P m co oic key hch]
    exact hwf
  | some ch =>
    have hchwf := mapWF_chunkWF P m co ch hwf hch
    refine ⟨hwf.1, hwf.2.1, ?_, ?_⟩
    · rw [probeInsert_table_size, probeInsert_chunks_length]
      exact hwf.2.2.1
    · intro och hoch ch2 hch2
      rw [probeInsert_chunks P m co oic key ch hch] at hoch
      rcases List.mem_or_eq_of_mem_set hoch with hmem | heq
      · exact hwf.2.2.2 och hmem ch2 hch2
      · subst heq
        have h2 := Option.some.inj (Option.mem_def.mp hch2)
        rw [← h2]
        refine ⟨?_, ?_⟩
        · show (ch.masks.set _ _).length = P.EPC
          rw [List.length_set]
          exact hchwf.1
        · show (ch.data.set _ _).length = P.EPC
          rw [List.length_set]
          exact hchwf.2

theorem mapWF_setElemValue (P : HashParams) (m : Hashmap) (pos : Nat × Nat)
    (v : Nat) (hwf : mapWF P m) : mapWF P (setElemValue m pos v) := by
  cases hch : m.chunks.getD pos.1 none with
  | none =>
    rw [setElemValue_none m pos v hch]
    exact hwf
  | some ch =>
    have hchwf := mapWF_chunkWF P m pos.1 ch hwf hch
    refine ⟨hwf.1, hwf.2.1, ?_, ?_⟩
    · rw [setElemValue_table_size]
      rw [setElemValue_chunks m pos v ch hch, List.length_set]
      exact hwf.2.2.1
    · intro och hoch ch2 hch2
      rw [setElemValue_chunks m pos v ch hch] at hoch
      rcases List.mem_or_eq_of_mem_set hoch with hmem | heq
      · exact hwf.2.2.2 och hmem ch2 hch2
      · subst heq
        have h2 := Option.some.inj (Option.mem_def.mp hch2)
        rw [← h2]
        refine ⟨hchwf.1, ?_⟩
        show (ch.data.set _ _).length = P.EPC
        rw [List.length_set]
        exact hchwf.2

theorem mapWF_probe_fst (P : HashParams) (cn : Bool) (key co : Nat) :
    ∀ (fuel draw oic : Nat) (m : Hashmap), mapWF P m →
      mapWF P (hashmap_probe P cn key co fuel draw oic m).1 := by
  intro fuel
  induction fuel with
  | zero => intro draw oic m hwf; exact hwf
  | succ f ih =>
    intro draw oic m hwf
    cases hch : m.chunks.getD co none with
    | none =>
      rw [hashmap_probe, hch]
      exact hwf
    | some ch =>
      rw [hashmap_probe_succ_of_chunk P cn key co f draw oic m ch hch]
      split
      · split
        · exact hwf
        · exact mapWF_probeInsert P m co oic key hwf
      · split
        · exact hwf
        · exact ih _ _ m hwf

theorem mapWF_find_fst (P : HashParams) (m : Hashmap) (key : Nat)
    (cn : Bool) (hwf : mapWF P m) :
    mapWF P (hashmap_find P m key cn).1 := by
  unfold hashmap_find
  split
  · exact hwf
  · simp only []
    cases hch : m.chunks.getD (P.rand key 0 % m.table_size / P.EPC) none
      with
    | none =>
      split
      split
      · exact hwf
      · refine mapWF_probe_fst P cn key _ P.MCL 1 _ _ ?_
        refine ⟨hwf.1, hwf.2.1, ?_, ?_⟩
        · show (m.chunks.set _ _).length * P.EPC = m.table_size
          rw [List.length_set]
          exact hwf.2.2.1
        · intro och hoch ch2 hch2
          rcases List.mem_or_eq_of_mem_set hoch with hmem | heq
          · exact hwf.2.2.2 och hmem ch2 hch2
          · subst heq
            have h2 := Option.some.inj (Option.mem_def.mp hch2)
            rw [← h2]
            exact chunkWF_emptyChunk P
      · rename_i ch2 heq2
        exact absurd heq2 (by simp)
    | some ch => exact mapWF_probe_fst P cn key _ P.MCL 1 _ m hwf

theorem foldl_growInsert_none (P : HashParams) (l : List (Nat × Nat)) :
    l.foldl (fun acc2 kv => growInsert P acc2 kv.1 kv.2) none = none := by
  induction l with
  | nil => rfl
  | cons x rest ih =>
    rw [List.foldl_cons]
    exact ih

theorem foldl_pres {α : Type} (Inv : Hashmap → Prop)
    (f : Option Hashmap → α → Option Hashmap)
    (hfnone : ∀ x, f none x = none)
    (hstep : ∀ m1 x m2, Inv m1 → f (some m1) x = some m2 → Inv m2) :
    ∀ (l : List α) (m0 mf : Hashmap), Inv m0 →
      l.foldl f (some m0) = some mf → Inv mf := by
  have hnone : ∀ l : List α, l.foldl f none = none := by
    intro l
    induction l with
    | nil => rfl
    | cons x rest ih =>
      rw [List.foldl_cons, hfnone]
      exact ih
  intro l
  induction l with
  | nil =>
    intro m0 mf h0 heq
    exact (Option.some.inj heq) ▸ h0
  | cons x rest ih =>
    intro m0 mf h0 heq
    rw [List.foldl_cons] at heq
    cases hfx : f (some m0) x with
    | none =>
      rw [hfx, hnone] at heq
      exact Option.noConfusion heq
    | some m1 => exact ih m1 mf (hstep m0 x m1 h0 hfx) (hfx ▸ heq)

theorem growInsert_wf (P : HashParams) (m1 : Hashmap) (k v : Nat)
    (m2 : Hashmap) (hwf : mapWF P m1)
    (hgi : growInsert P (some m1) k v = some m2) : mapWF P m2 := by
  unfold growInsert at hgi
  rcases hf : hashmap_find P m1 k true with ⟨mr, e⟩
  have hgi2 : (match hashmap_find P m1 k true with
      | (_, none) => none
      | (m2, some pos) => some (setElemValue m2 pos v)) = some m2 := hgi
  rw [hf] at hgi2
  cases e with
  | none => exact Option.noConfusion hgi2
  | some pos =>
    have h2 : setElemValue mr pos v = m2 := Option.some.inj hgi2
    rw [← h2]
    have hwfr : mapWF P mr := by
      have h3 := mapWF_find_fst P m1 k true hwf
      rw [hf] at h3
      exact h3
    exact mapWF_setElemValue P mr pos v hwfr

theorem mapWF_grow (P : HashParams) (m m2 : Hashmap) (hwf : mapWF P m)
    (hgrow : hashmap_grow P m = some m2) : mapWF P m2 := by
  unfold hashmap_grow at hgrow
  simp only [] at hgrow
  refine foldl_pres (mapWF P) _ ?_ ?_ _ _ m2 ?_ hgrow
  · intro cid
    cases m.chunks.getD cid none with
    | none => rfl
    | some ch => exact foldl_growInsert_none P (chunkElems P ch)
  · intro m1 cid m3 h1 hstep
    revert hstep
    cases m.chunks.getD cid none with
    | none =>
      intro hstep
      exact (Option.some.inj hstep) ▸ h1
    | some ch =>
      intro hstep
      exact foldl_pres (mapWF P) _ (fun kv => rfl)
        (fun ma kv mb hma hmb => growInsert_wf P ma kv.1 kv.2 mb hma hmb)
        (chunkElems P ch) m1 m3 h1 hstep
  · refine ⟨hwf.1, hwf.2.1, ?_, ?_⟩
    · show (List.replicate (P.G * m.table_size / P.EPC)
        (none : Option HashChunk)).length * P.EPC = P.G * m.table_size
      rw [List.length_replicate]
      have h2 : P.G * m.table_size = P.G * m.chunks.length * P.EPC := by
        rw [Nat.mul_assoc, hwf.2.2.1]
      rw [h2, Nat.mul_div_cancel _ hwf.1]
    · intro och hoch ch2 hch2
      have h2 := List.eq_of_mem_replicate hoch
      subst h2
      exact absurd (Option.mem_def.mp hch2) (by simp)

theorem hashmap_put_shape (P : HashParams) :
    ∀ (fuel : Nat) (m : Hashmap) (key v : Nat) (m2 : Hashmap), mapWF P m →
      hashmap_put P fuel m key v = some m2 →
      ∃ mk mr pos, mapWF P mk ∧
        hashmap_find P mk key true = (mr, some pos) ∧
        m2 = setElemValue mr pos v := by
  intro fuel
  induction fuel with
  | zero =>
    intro m key v m2 hwf hput
    rcases hf : hashmap_find P m key true with ⟨mr, e⟩
    rw [hashmap_put, hf] at hput
    cases e with
    | some pos => exact ⟨m, mr, pos, hwf, hf, (Option.some.inj hput).symm⟩
    | none => exact Option.noConfusion hput
  | succ f ih =>
    intro m key v m2 hwf hput
    rcases hf : hashmap_find P m key true with ⟨mr, e⟩
    rw [hashmap_put, hf] at hput
    cases e with
    | some pos => exact ⟨m, mr, pos, hwf, hf, (Option.some.inj hput).symm⟩
    | none =>
      have hput2 : (hashmap_grow P mr).bind
          (fun m3 => hashmap_put P f m3 key v) = some m2 := hput
      rcases hg : hashmap_grow P mr with _ | m3
      · rw [hg] at hput2
        exact Option.noConfusion hput2
      · rw [hg] at hput2
        have hput3 : hashmap_put P f m3 key v = some m2 := hput2
        have hwfr : mapWF P mr := by
          have h3 := mapWF_find_fst P m key true hwf
          rw [hf] at h3
          exact h3
        exact ih m3 key v m2 (mapWF_grow P mr m3 hwfr hg) hput3

/-- C9 (amended): on a well-formed map, when `hashmap_put` succeeds AND the
resulting map is still under half full (so `hashmap_find`'s load guard at
part_000 line 141 does not reject the lookup), `hashmap_lookup` of the key
returns the stored value; `hashmap_lookup` itself never modifies the map
(the `create_new = 0` probe is pure); and the in-chunk rehash step of a
find preserves every existing binding of a different key while installing
the new key at the returned position. -/
theorem C9_hashmap_put_lookup (P : HashParams) (m : Hashmap)
    (key v fuel : Nat) (m2 : Hashmap)
    (hwf : mapWF P m)
    (hput : hashmap_put P fuel m key v = some m2)
    (hguard : m2.size < m2.table_size / 2) :
    hashmap_lookup P m2 key = some v ∧
    (∀ (mm : Hashmap) (kk : Nat), (hashmap_find P mm kk false).1 = mm) ∧
    (∀ (mk mr : Hashmap) (pos : Nat × Nat) (kp vp k w co i : Nat),
      mapWF P mk →
      hashmap_find P mk kp true = (mr, some pos) →
      k ≠ kp →
      bitAt P mk co i = true → keyAt P mk co i = k →
      valueAt P mk co i = w →
      (bitAt P (setElemValue mr pos vp) co i = true ∧
        keyAt P (setElemValue mr pos vp) co i = k ∧
        valueAt P (setElemValue mr pos vp) co i = w) ∧
      (bitAt P (setElemValue mr pos vp) pos.1 pos.2 = true ∧
        keyAt P (setElemValue mr pos vp) pos.1 pos.2 = kp ∧
        valueAt P (setElemValue mr pos vp) pos.1 pos.2 = vp)) := by
  refine ⟨?_, fun mm kk => hashmap_find_false_pure P mm kk, ?_⟩
  · obtain ⟨mk, mr, pos, hwfk, hfind, hm2⟩ :=
      hashmap_put_shape P fuel m key v m2 hwf hput
    subst hm2
    have hfr := hashmap_find_retrace P mk key v hwfk mr pos hfind hguard
    unfold hashmap_lookup
    rw [hfr]
    obtain ⟨hp2, _, hbit, _, _, _⟩ :=
      hashmap_find_facts P mk key hwfk mr pos hfind
    obtain ⟨ch, hc⟩ : ∃ ch, mr.chunks.getD pos.1 none = some ch := by
      cases hc : mr.chunks.getD pos.1 none with
      | none =>
        unfold bitAt at hbit
        rw [hc] at hbit
        exact absurd hbit (by simp)
      | some ch => exact ⟨ch, rfl⟩
    have hwfr : mapWF P mr := by
      have h3 := mapWF_find_fst P mk key true hwfk
      rw [hfind] at h3
      exact h3
    have hchwf := mapWF_chunkWF P mr pos.1 ch hwfr hc
    show some (valueAt P (setElemValue mr pos v) pos.1 pos.2) = some v
    rw [valueAt_setElemValue_self P mr pos v ch hc
      (by rw [hchwf.2]; exact hp2)]
  · intro mk mr pos kp vp k w co i hwfk hfind hkne hb hky hv
    obtain ⟨hp2, _, hbitp, hkeyp, hall, hold⟩ :=
      hashmap_find_facts P mk kp hwfk mr pos hfind
    have hne : ¬(co = pos.1 ∧ i = pos.2) := by
      rintro ⟨rfl, rfl⟩
      rcases hold with hbf | hkf
      · rw [hb] at hbf
        exact Bool.noConfusion hbf
      · rw [hky] at hkf
        exact hkne hkf
    obtain ⟨hbe, hke, hve⟩ := hall co i hne
    obtain ⟨ch, hc⟩ : ∃ ch, mr.chunks.getD pos.1 none = some ch := by
      cases hc : mr.chunks.getD pos.1 none with
      | none =>
        unfold bitAt at hbitp
        rw [hc] at hbitp
        exact absurd hbitp (by simp)
      | some ch => exact ⟨ch, rfl⟩
    have hwfr : mapWF P mr := by
      have h3 := mapWF_find_fst P mk kp true hwfk
      rw [hfind] at h3
      exact h3
    have hchwf := mapWF_chunkWF P mr pos.1 ch hwfr hc
    refine ⟨⟨?_, ?_, ?_⟩, ?_, ?_, ?_⟩
    · rw [bitAt_setElemValue, hbe]
      exact hb
    · rw [keyAt_setElemValue, hke]
      exact hky
    · rw [valueAt_setElemValue_ne P mr pos vp co i hne, hve]
      exact hv
    · rw [bitAt_setElemValue]
      exact hbitp
    · rw [keyAt_setElemValue]
      exact hkeyp
    · exact valueAt_setElemValue_self P mr pos vp ch hc
        (by rw [hchwf.2]; exact hp2)

/-- C9 as literally stated is false: `hashmap_find`'s half-full guard
(part_000 line 141, `if (m->size >= (m->table_size / 2)) return NULL;`)
also rejects pure lookups, so a `hashmap_put` that fills a 4-slot table to
2 entries makes the immediate `hashmap_lookup` of the stored key return
NULL. -/
theorem C9_counterexample : ¬ c9OrigClaim := by
  intro hcl
  have h := hcl exHP exMap0 1 7 1 exMap1 (by decide)
  exact absurd h (by decide)

/-- Witness for C9 at a concrete input: an 8-slot table with one occupied
slot takes key 1 / value 7 and the lookup then finds 7. -/
theorem C9_hashmap_put_lookup_witness :
    hashmap_lookup exHP exMapW2 1 = some 7 :=
  (C9_hashmap_put_lookup exHP exMapW 1 7 0 exMapW2
    (by unfold mapWF chunkWF; decide) (by decide) (by decide)).1

/-- C10: logger_log_part aborts (`error()`) on any mask with the
timestamp bit set; on a mask with the timestamp bit clear it writes
exactly `logger_size mask` bytes: an 8-byte header whose low 56 bits are
the previous offset and whose top 8 bits are the mask, followed by
exactly the mask-selected fields in bit order x, v, a, u, h, rho, with
the mass and id constants emitted whenever the rho bit is set. -/
theorem C10_logger_log_part (L : LoggerMasks) (p : Part)
    (mask offset dofs : Nat) (hwf : partWF p) :
    (∀ (p2 : Part) (mask2 offset2 dofs2 : Nat),
      mask2.testBit L.timestamp = true →
      logger_log_part L p2 mask2 offset2 dofs2 = none) ∧
    (mask.testBit L.timestamp = false →
      ∃ buf, logger_log_part L p mask offset dofs = some (buf, dofs) ∧
        logger_size L mask = some buf.length ∧
        buf = bytes64 ((offset % 2 ^ 56) ||| ((mask <<< 56) % 2 ^ 64))
          ++ (if mask.testBit L.x then p.x else [])
          ++ (if mask.testBit L.v then p.v else [])
          ++ (if mask.testBit L.a then p.a_hydro else [])
          ++ (if mask.testBit L.u then p.u else [])
          ++ (if mask.testBit L.h then p.h else [])
          ++ (if mask.testBit L.rho then p.rho else [])
          ++ (if mask.testBit L.rho then p.mass ++ p.id else []) ∧
        (bytes64 ((offset % 2 ^ 56) ||| ((mask <<< 56) % 2 ^ 64))).length
          = 8 ∧
        ((offset % 2 ^ 56) ||| ((mask <<< 56) % 2 ^ 64)) % 2 ^ 56 =
          offset % 2 ^ 56 ∧
        ((offset % 2 ^ 56) ||| ((mask <<< 56) % 2 ^ 64)) / 2 ^ 56 =
          mask % 2 ^ 8) := by
  constructor
  · intro p2 mask2 offset2 dofs2 ht
    unfold logger_log_part
    rw [ht]
    simp
  · intro hts
    have hsz : logger_size L mask =
        some (8 + (if mask.testBit L.x then 24 else 0)
                + (if mask.testBit L.v then 12 else 0)
                + (if mask.testBit L.a then 12 else 0)
                + (if mask.testBit L.u then 4 else 0)
                + (if mask.testBit L.h then 4 else 0)
                + (if mask.testBit L.rho then 4 else 0)
                + (if mask.testBit L.rho then 4 + 8 else 0)) := by
      unfold logger_size
      rw [hts]
      simp
    refine ⟨_, ?_, ?_, rfl, by simp [bytes64], ?_, ?_⟩
    · unfold logger_log_part
      rw [hts, hsz]
      simp
    · rw [hsz]
      obtain ⟨h1, h2, h3, h4, h5, h6, h7, h8⟩ := hwf
      simp only [List.length_append, apply_ite List.length, bytes64,
        List.length_map, List.length_range, List.length_nil,
        h1, h2, h3, h4, h5, h6, h7, h8]
    · apply Nat.eq_of_testBit_eq
      intro i
      simp only [Nat.testBit_mod_two_pow, Nat.testBit_or,
        Nat.testBit_shiftLeft]
      by_cases hi : i < 56
      · have h1 : i < 64 := by omega
        have h2 : ¬ (56 ≤ i) := by omega
        simp [hi, h1, h2]
      · simp [hi]
    · apply Nat.eq_of_testBit_eq
      intro i
      rw [← Nat.shiftRight_eq_div_pow, Nat.testBit_shiftRight]
      simp only [Nat.testBit_mod_two_pow, Nat.testBit_or,
        Nat.testBit_shiftLeft]
      by_cases hi : i < 8
      · have h1 : ¬ (56 + i < 56) := by omega
        have h2 : 56 + i < 64 := by omega
        have h3 : 56 ≤ 56 + i := by omega
        have h4 : 56 + i - 56 = i := by omega
        simp [hi, h1, h2, h3, h4]
      · have h1 : ¬ (56 + i < 56) := by omega
        have h2 : ¬ (56 + i < 64) := by omega
        simp [hi, h1, h2]

/-- Witness for C10 at a concrete input: the standard bit layout, a mask
selecting position and density (bits 0 and 5, mask 33), previous offset 5
and new offset 100. -/
theorem C10_logger_log_part_witness :
    partWF exPart ∧
    (∃ buf, logger_log_part exLM exPart 33 5 100 = some (buf, 100) ∧
      logger_size exLM 33 = some buf.length ∧
      buf = bytes64 (((5 : Nat) % 2 ^ 56) ||| (((33 : Nat) <<< 56) % 2 ^ 64))
        ++ (if (33 : Nat).testBit exLM.x then exPart.x else [])
        ++ (if (33 : Nat).testBit exLM.v then exPart.v else [])
        ++ (if (33 : Nat).testBit exLM.a then exPart.a_hydro else [])
        ++ (if (33 : Nat).testBit exLM.u then exPart.u else [])
        ++ (if (33 : Nat).testBit exLM.h then exPart.h else [])
        ++ (if (33 : Nat).testBit exLM.rho then exPart.rho else [])
        ++ (if (33 : Nat).testBit exLM.rho then exPart.mass ++ exPart.id
            else []) ∧
      (bytes64 (((5 : Nat) % 2 ^ 56) |||
        (((33 : Nat) <<< 56) % 2 ^ 64))).length = 8 ∧
      (((5 : Nat) % 2 ^ 56) ||| (((33 : Nat) <<< 56) % 2 ^ 64)) % 2 ^ 56 =
        (5 : Nat) % 2 ^ 56 ∧
      (((5 : Nat) % 2 ^ 56) ||| (((33 : Nat) <<< 56) % 2 ^ 64)) / 2 ^ 56 =
        (33 : Nat) % 2 ^ 8) :=
  ⟨by unfold partWF; decide,
    (C10_logger_log_part exLM exPart 33 5 100
      (by unfold partWF; decide)).2 (by decide)⟩

end Swift
